import Mathlib

/-!
# DXR clang indexer (`dxr/plugins/clang/dxr-index.cpp`)

A shallow embedding of the fact emitter of the DXR clang plugin, and theorems
about it.  `std::string` is a list of characters, `int` and `size_t` are
integers with explicit wrap-around, the `std::ostringstream` of a `FileInfo` is
the list of characters written so far, and the clang frontend (declarations,
source locations, the source manager) is a record of the answers the plugin
reads from it.
-/

namespace Dxr

/-- A `std::string` (also a `const char *`): its characters in order. -/
abbrev Str := List Char

/-! ## Machine integers and `std::string` primitives -/

/-- The value `std::string::npos`, the largest `size_t` (64 bit). -/
def npos : Nat := 18446744073709551615

/-- Conversion of a `size_t` to `int`: the low 32 bits, two's complement. -/
def toInt (n : Nat) : Int :=
  if n % 4294967296 < 2147483648 then ((n % 4294967296 : Nat) : Int)
  else ((n % 4294967296 : Nat) : Int) - 4294967296

/-- Result of an `int` operation, wrapped to 32 bits two's complement. -/
def wrapInt (z : Int) : Int := (z + 2147483648) % 4294967296 - 2147483648

/-- Conversion of an `int` to `size_t` (modulo 2^64). -/
def toSize (z : Int) : Nat := (z % 18446744073709551616).toNat

/-- The call `value.find(c, pos)`: index of the first `c` at or after `pos`,
`npos` when there is none. -/
def find (value : Str) (c : Char) (pos : Nat) : Nat :=
  if (value.drop pos).indexOf c < (value.drop pos).length
  then pos + (value.drop pos).indexOf c else npos

/-- The call `value.substr(pos, count)`: throws `std::out_of_range` (here
`none`) when `pos > size()`, else at most `count` characters from `pos`. -/
def substr (value : Str) (pos : Nat) (count : Nat) : Option Str :=
  if pos > value.length then none else some ((value.drop pos).take count)

/-- The call `value.substr(pos)`, whose count defaults to `npos` ("until the
end"): throws (here `none`) when `pos > size()`. -/
def substrFrom (value : Str) (pos : Nat) : Option Str :=
  if pos > value.length then none else some (value.drop pos)

/-- The call `s.erase(pos, len)` for `pos ≤ size()`. -/
def erase (s : Str) (pos len : Nat) : Str :=
  s.take pos ++ s.drop (pos + min len (s.length - pos))

/-- The call `s.replace(pos, len, str)` for `pos ≤ size()`. -/
def replace (s : Str) (pos len : Nat) (str : Str) : Str :=
  s.take pos ++ str ++ s.drop (pos + min len (s.length - pos))

/-- The call `s.compare(pos, len, str)`: three-way comparison of the substring
`s[pos, pos+len)` (clipped to the end of `s`) with `str`. -/
def compare (s : Str) (pos len : Nat) (str : Str) : Int :=
  let sub := (s.drop pos).take len
  if sub = str then 0 else if sub < str then -1 else 1

/-! ## `recordValue`: the text of one field -/

/-- The `while (quote != -1)` loop of `recordValue`; `acc` is what has been
written to `*out` since the opening quote.  Returns the text written and the
final `start`. -/
def recordValueLoop (value : Str) : Nat → Str → Int → Int → Option (Str × Int)
  | 0, _, _, _ => none
  | fuel + 1, acc, start, quote =>
    if quote ≠ -1 then
      match substr value (toSize start) (toSize (wrapInt (wrapInt (quote - start) + 1))) with
      | none => none
      | some piece =>
        recordValueLoop value fuel (acc ++ piece ++ ['"']) (wrapInt (quote + 1))
          (toInt (find value '"' (toSize (wrapInt (quote + 1)))))
    else some (acc, start)

/-- The characters `recordValue(key, value, needQuotes)` writes to `*out`;
`none` when a `substr` throws. -/
def recordValueText (key value : Str) (needQuotes : Bool) : Option Str :=
  let head : Str := [','] ++ key ++ [',', '"']
  let scanned : Option (Str × Int) :=
    if needQuotes then
      recordValueLoop value (value.length + 1) head 0 (toInt (find value '"' 0))
    else some (head, 0)
  match scanned with
  | none => none
  | some (written, start) =>
    match substrFrom value (toSize start) with
    | none => none
    | some tail => some (written ++ tail ++ ['"'])

/-- The value with each `"` replaced by `""` (the spec's CSV escaping). -/
def doubleQuotes (value : Str) : Str :=
  value.flatMap (fun c => if c = '"' then ['"', '"'] else [c])

/-- The spec's decoder: each doubled quote collapses to a single quote. -/
def collapseQuotes : Str → Str
  | '"' :: '"' :: rest => '"' :: collapseQuotes rest
  | c :: rest => c :: collapseQuotes rest
  | [] => []


/-! ## `operator+=(std::string &, unsigned int)` -/

/-- The character `(i % 10) + '0'`. -/
def digitChar (i : Nat) : Char := Char.ofNat (i % 10 + 48)

/-- The `do ... while (i > 0)` loop of `operator+=`: `buf` is the static
15-byte buffer, `ptr` the index `ptr - buf`.  A write outside the buffer is
undefined behaviour (`none`).  Returns the buffer and the final `ptr`. -/
def plusEqLoop : Nat → List Char → Int → Nat → Option (List Char × Int)
  | 0, _, _, _ => none
  | fuel + 1, buf, ptr, i =>
    if ptr < 0 ∨ (buf.length : Int) ≤ ptr then none
    else
      if i / 10 > 0 then plusEqLoop fuel (buf.set ptr.toNat (digitChar i)) (ptr - 1) (i / 10)
      else some (buf.set ptr.toNat (digitChar i), ptr - 1)

/-- The NUL-terminated string that starts at `buf + p`; `none` when the read
runs off the buffer. -/
def cString (buf : List Char) (p : Int) : Option Str :=
  if p < 0 then none
  else if '\x00' ∈ buf.drop p.toNat then some ((buf.drop p.toNat).takeWhile (fun c => c != '\x00'))
  else none

/-- The operator `str += i` for an `unsigned int i`: the new string and the
new contents of the function's static buffer.  The loop can take at most 15
steps before it leaves the buffer, so 15 is enough fuel. -/
def plusEq (buf : List Char) (str : Str) (i : Nat) : Option (Str × List Char) :=
  match plusEqLoop 15 buf 13 (i % 4294967296) with
  | none => none
  | some (buf', ptr) =>
    match cString buf' (ptr + 1) with
    | none => none
    | some digits => some (str ++ digits, buf')

/-! ## The frontend: source locations and the source manager -/

/-- A `clang::SourceLocation`, as far as the plugin looks at it. -/
structure SourceLocation where
  /-- The raw encoding, which the source manager resolves. -/
  ID : Nat
  isValid : Bool
  isMacroID : Bool
deriving DecidableEq, Repr

/-- A `clang::PresumedLoc`. -/
structure PresumedLoc where
  filename : Str
  line : Nat
  column : Nat
deriving DecidableEq, Repr

/-- The globals `srcdir`, `output`, `tmpdir` and the collaborators the plugin
calls: `realpath`, the source manager, the lexer and `hash` (SHA-1 in hex, from
`sha1.h`). -/
structure Env where
  srcdir : Str
  output : Str
  tmpdir : Str
  /-- The C library call `realpath(path, NULL)`; `none` is `NULL`. -/
  realpath : Str → Option Str
  getPresumedLoc : SourceLocation → PresumedLoc
  /-- Offset part of `sm.getDecomposedSpellingLoc(loc)`. -/
  getDecomposedSpellingLoc : SourceLocation → Nat
  /-- The call `Lexer::getLocForEndOfToken(loc, 0, sm, features)`. -/
  getLocForEndOfToken : SourceLocation → SourceLocation
  getBufferName : SourceLocation → Str
  getFileOffset : SourceLocation → Nat
  /-- The bytes from `sm.getCharacterData(loc)` to the end of that buffer. -/
  getCharacterData : SourceLocation → Str
  hash : Str → Str

/-! ## `FileInfo` and the state of the consumer -/

/-- The struct `FileInfo`; `info` is what has been written to the string
stream. -/
structure FileInfo where
  realname : Str
  info : Str
  interesting : Bool
deriving DecidableEq, Repr

/-- The constructor `FileInfo::FileInfo(std::string &rname)`. -/
def FileInfo.FileInfo (srcdir output rname : Str) : FileInfo :=
  if compare rname 0 srcdir.length srcdir = 0 then
    { realname := erase rname 0 (srcdir.length + 1), info := [], interesting := true }
  else if compare rname 0 output.length output = 0 then
    { realname := replace rname 0 output.length "--GENERATED--/".toList, info := [],
      interesting := true }
  else
    { realname := rname, info := [], interesting := false }

/-! ## The frontend: declarations and expressions -/

/-- The declaration classes of clang the plugin tells apart. -/
inductive DeclKind where
  | TranslationUnit | Namespace | LinkageSpec | AccessSpec | Block | ObjCMethod
  | Enum | Record | CXXRecord
  | Function | CXXMethod | CXXConstructor | CXXDestructor | CXXConversion
  | Var | ParmVar | Field | EnumConstant
  | Typedef | TypeAlias
  | OtherNamed | OtherUnnamed
deriving DecidableEq, Repr

/-- The test `NamedDecl::classof`. -/
def DeclKind.isNamedDecl : DeclKind → Bool
  | .TranslationUnit | .LinkageSpec | .AccessSpec | .Block | .OtherUnnamed => false
  | _ => true

/-- The test `NamespaceDecl::classof`. -/
def DeclKind.isNamespaceDecl : DeclKind → Bool
  | .Namespace => true
  | _ => false

/-- The test `TagDecl::classof`. -/
def DeclKind.isTagDecl : DeclKind → Bool
  | .Enum | .Record | .CXXRecord => true
  | _ => false

/-- The test `FunctionDecl::classof`. -/
def DeclKind.isFunctionDecl : DeclKind → Bool
  | .Function | .CXXMethod | .CXXConstructor | .CXXDestructor | .CXXConversion => true
  | _ => false

/-- The test `CXXMethodDecl::classof`. -/
def DeclKind.isCXXMethodDecl : DeclKind → Bool
  | .CXXMethod | .CXXConstructor | .CXXDestructor | .CXXConversion => true
  | _ => false

/-- The test `DeclContext::isFunctionOrMethod`. -/
def DeclKind.isFunctionOrMethod : DeclKind → Bool
  | .Block | .ObjCMethod => true
  | k => k.isFunctionDecl

/-- What the plugin reads from one declaration, its links to other
declarations apart. -/
structure DeclInfo where
  /-- The address of the object: `==` on `Decl *` compares it. -/
  addr : Nat
  kind : DeclKind
  location : SourceLocation
  nameAsString : Str
  qualifiedNameAsString : Str
  /-- For a function: `isa<FunctionProtoType>` of its type. -/
  hasPrototype : Bool
  /-- For a function: `getParamDecl(i)->getType().getAsString()` for each
  `i < getNumParams()`. -/
  paramTypes : List Str
  isVariadic : Bool
  /-- For a function: `ft->isConst()`. -/
  isConst : Bool
  isVirtual : Bool
  /-- For a tag or a function: `isThisDeclarationADefinition()`. -/
  isThisDeclarationADefinition : Bool
  /-- For a tag: `getKindName()`. -/
  kindName : Str
  /-- Result of `getDefinition()`: address and location, `none` for `NULL`.
  For a function this is the `def` that `isDefined(def)` finds. -/
  definition : Option (Nat × SourceLocation)
deriving DecidableEq, Repr

/-- A `clang::Decl` with the declarations it points to: `getDeclContext()`,
`getNonClosureContext()` and, for a tag, `getTypedefNameForAnonDecl()`.  The
translation unit is the one declaration without a context. -/
inductive Decl where
  | translationUnit
  | mk (info : DeclInfo) (declContext : Decl) (nonClosureContext : Decl)
      (typedefNameForAnonDecl : Option Decl)

/-- The data of the translation unit declaration: unnamed, no location. -/
def DeclInfo.translationUnit : DeclInfo :=
  { addr := 0, kind := .TranslationUnit, location := ⟨0, false, false⟩, nameAsString := [],
    qualifiedNameAsString := [], hasPrototype := false, paramTypes := [], isVariadic := false,
    isConst := false, isVirtual := false, isThisDeclarationADefinition := false, kindName := [],
    definition := none }

/-- The data of a declaration. -/
def Decl.info : Decl → DeclInfo
  | .translationUnit => DeclInfo.translationUnit
  | .mk i _ _ _ => i

/-- The call `d.getTypedefNameForAnonDecl()`. -/
def Decl.typedefNameForAnonDecl : Decl → Option Decl
  | .translationUnit => none
  | .mk _ _ _ t => t

/-- The loop `for (i = 0; i < num_params; ++i)` of `getQualifiedName`: `ret`
so far, the index `i`, the types of the parameters from `i` on. -/
def appendParamTypes : Str → Nat → List Str → Str
  | ret, _, [] => ret
  | ret, i, t :: ts =>
    appendParamTypes ((if i ≠ 0 then ret ++ ", ".toList else ret) ++ t) (i + 1) ts

/-- The `if (const FunctionDecl *fd = ...)` block of `getQualifiedName`, for a
function declaration: `ret` with `(T1, T2, ...)` and ` const` appended. -/
def appendSignature (ret : Str) (i : DeclInfo) : Str :=
  let ret1 := ret ++ ['(']
  let ret2 :=
    if i.hasPrototype then
      let ret3 := appendParamTypes ret1 0 i.paramTypes
      if i.isVariadic then
        (if i.paramTypes.length > 0 then ret3 ++ ", ".toList else ret3) ++ "...".toList
      else ret3
    else ret1
  let ret4 := ret2 ++ [')']
  if i.isConst then ret4 ++ " const".toList else ret4

/-- The function `getQualifiedName(const NamedDecl &d)`.  The translation
unit is not a `NamedDecl`; it gets the empty name. -/
def getQualifiedName : Decl → Str
  | .translationUnit => []
  | .mk i ctx _ _ =>
    let ret :=
      if ctx.info.kind.isFunctionOrMethod && ctx.info.kind.isNamedDecl then
        getQualifiedName ctx ++ "::".toList ++ i.nameAsString
      else i.qualifiedNameAsString
    if i.kind.isFunctionDecl then appendSignature ret i else ret

/-- The callee expression of a call, `e->getCallee()`. -/
inductive CalleeExpr where
  | MemberExpr (hasQualifier : Bool)
  | Other
deriving DecidableEq, Repr

/-- A `clang::CallExpr`. -/
structure CallExpr where
  locStart : SourceLocation
  /-- The call `e->getCalleeDecl()`, `none` for `NULL`. -/
  calleeDecl : Option Decl
  callee : CalleeExpr

/-- A `clang::MacroInfo` together with the macro name token. -/
structure MacroInfo where
  isBuiltinMacro : Bool
  definitionLoc : SourceLocation
  definitionEndLoc : SourceLocation
  /-- The call `MacroNameTok.getIdentifierInfo()->getLength()`. -/
  nameLength : Nat

/-! ## The consumer: state, file table and record emitter -/

/-- The mutable state: the static buffer of `operator+=`, the `FileInfo`
objects created so far (a `FileInfo *` is an index into `files`) and the
members `relmap`, `out` and `m_currentFunction` of `IndexConsumer`. -/
structure State where
  numbuf : List Char
  files : List FileInfo
  /-- The map `std::map<std::string, FileInfo *>`, in key order. -/
  relmap : List (Str × Nat)
  /-- The stream `out` points into (`&f->info`); `none` before the first
  `beginRecord`. -/
  out : Option Nat
  m_currentFunction : Option Decl

/-- The state after the constructor of `IndexConsumer`. -/
def State.init : State :=
  { numbuf := List.replicate 15 '\x00', files := [], relmap := [], out := none,
    m_currentFunction := none }

/-- The call `relmap.find(key)`: the mapped pointer, `none` for `end()`. -/
def mapFind (m : List (Str × Nat)) (key : Str) : Option Nat :=
  match m with
  | [] => none
  | (k, v) :: rest => if k = key then some v else mapFind rest key

/-- Insertion of a new key at its place in key order. -/
def orderedInsert (key : Str) (v : Nat) : List (Str × Nat) → List (Str × Nat)
  | [] => [(key, v)]
  | (k, w) :: rest =>
    if key < k then (key, v) :: (k, w) :: rest else (k, w) :: orderedInsert key v rest

/-- The call `relmap.insert(make_pair(key, v))`: no effect when the key is
present. -/
def mapInsert (m : List (Str × Nat)) (key : Str) (v : Nat) : List (Str × Nat) :=
  match mapFind m key with
  | some _ => m
  | none => orderedInsert key v m

/-- The string `realstr` of `getFileInfo`: `real ? real : filename.c_str()`
for `real = realpath(filename.c_str(), NULL)`. -/
def realstr (env : Env) (filename : Str) : Str :=
  match env.realpath filename with
  | some real => real
  | none => filename

/-- The method `getFileInfo(std::string &filename)`: the new state and the
pointer returned. -/
def getFileInfo (env : Env) (s : State) (filename : Str) : State × Nat :=
  match mapFind s.relmap filename with
  | some p => (s, p)
  | none =>
    match mapFind s.relmap (realstr env filename) with
    | some p => ({ s with relmap := mapInsert s.relmap filename p }, p)
    | none =>
      let info := FileInfo.FileInfo env.srcdir env.output (realstr env filename)
      let p := s.files.length
      let relmap1 := mapInsert s.relmap (realstr env filename) p
      ({ s with files := s.files ++ [info], relmap := mapInsert relmap1 filename p }, p)

/-- The state after looking up each of the file names in turn. -/
def lookups (env : Env) (s : State) : List Str → State
  | [] => s
  | filename :: rest => lookups env (getFileInfo env s filename).1 rest

/-- The method `interestingLocation`.  Dereferencing a pointer that is not a
live `FileInfo` is undefined (`none`). -/
def interestingLocation (env : Env) (s : State) (loc : SourceLocation) :
    Option (State × Bool) :=
  if !loc.isValid then some (s, false)
  else
    let filename := (env.getPresumedLoc loc).filename
    if filename.head? = some '<' then some (s, false)
    else
      let (s1, f) := getFileInfo env s filename
      match s1.files[f]? with
      | none => none
      | some fi => some (s1, fi.interesting)

/-- The method `locationToString`. -/
def locationToString (env : Env) (s : State) (loc : SourceLocation) : Option (State × Str) :=
  let fixed := env.getPresumedLoc loc
  let (s1, f) := getFileInfo env s fixed.filename
  match s1.files[f]? with
  | none => none
  | some fi =>
    match plusEq s1.numbuf (fi.realname ++ [':']) fixed.line with
    | none => none
    | some (buffer1, numbuf1) =>
      match plusEq numbuf1 (buffer1 ++ [':']) fixed.column with
      | none => none
      | some (buffer2, numbuf2) => some ({ s1 with numbuf := numbuf2 }, buffer2)

/-- The statement `*out << text`: appends to the stream `out` points to. -/
def write (s : State) (text : Str) : Option State :=
  match s.out with
  | none => none
  | some p =>
    match s.files[p]? with
    | none => none
    | some fi => some { s with files := s.files.set p { fi with info := fi.info ++ text } }

/-- The method `beginRecord`. -/
def beginRecord (env : Env) (s : State) (name : Str) (loc : SourceLocation) : Option State :=
  let (s1, f) := getFileInfo env s (env.getPresumedLoc loc).filename
  write { s1 with out := some f } name

/-- The method `recordValue`. -/
def recordValue (s : State) (key value : Str) (needQuotes : Bool) : Option State :=
  match recordValueText key value needQuotes with
  | none => none
  | some text => write s text

/-- The text `operator<<` writes for an `unsigned`. -/
def decimal (n : Nat) : Str := Nat.toDigits 10 n

/-- The method `printExtent`. -/
def printExtent (env : Env) (s : State) (begin_ end_ : SourceLocation) : Option State :=
  let end1 := if !end_.isValid then begin_ else end_
  if begin_.isMacroID || end1.isMacroID then some s
  else
    write s (",extent,".toList ++ decimal (env.getDecomposedSpellingLoc begin_) ++ [':'] ++
      decimal (env.getDecomposedSpellingLoc (env.getLocForEndOfToken end1)))

/-- The loop `while (NamespaceDecl::classof(ctxt))` of `printScope`, entered
with `ctxt`: the first enclosing context that is not a namespace. -/
def skipNamespaces : Decl → Decl
  | .translationUnit => .translationUnit
  | .mk i dc up td =>
    if i.kind.isNamespaceDecl then skipNamespaces up else .mk i dc up td

/-- The method `printScope`, for a declaration other than the translation
unit. -/
def printScope (env : Env) (s : State) (d : Decl) : Option State :=
  match d with
  | .translationUnit => none
  | .mk _ _ ctxt0 _ =>
    let ctxt := skipNamespaces ctxt0
    if ctxt.info.kind.isNamedDecl then
      let namesource :=
        if ctxt.info.kind.isTagDecl then
          match ctxt.typedefNameForAnonDecl with
          | some redecl => redecl
          | none => ctxt
        else ctxt
      match recordValue s "scopename".toList (getQualifiedName namesource) false with
      | none => none
      | some s1 =>
        match locationToString env s1 ctxt.info.location with
        | none => none
        | some (s2, loc) => recordValue s2 "scopeloc".toList loc false
    else some s

/-- The method `declDef`; `kind = none` is a `NULL` kind. -/
def declDef (env : Env) (s : State) (kind : Option Str) (decl : Decl)
    (definition : Option (Nat × SourceLocation)) (begin_ end_ : SourceLocation) :
    Option State :=
  match definition with
  | none => some s
  | some (defAddr, defLoc) =>
    if defAddr = decl.info.addr then some s
    else do
      let s1 ← beginRecord env s "decldef".toList decl.info.location
      let s2 ← recordValue s1 "name".toList (getQualifiedName decl) false
      let (s3, declloc) ← locationToString env s2 decl.info.location
      let s4 ← recordValue s3 "declloc".toList declloc false
      let (s5, defloc) ← locationToString env s4 defLoc
      let s6 ← recordValue s5 "defloc".toList defloc false
      let s7 ← (match kind with
        | some k => recordValue s6 "kind".toList k false
        | none => some s6)
      let s8 ← printExtent env s7 begin_ end_
      write s8 ['\n']

/-! ## Well-formed states and what an operation appends -/

/-- The invariant of the state: the static buffer has its 15 bytes and its
final NUL, and every pointer held in `relmap` or `out` is a live `FileInfo`. -/
def State.WF (s : State) : Prop :=
  s.numbuf.length = 15 ∧ s.numbuf[14]? = some '\x00' ∧
  (∀ kp ∈ s.relmap, kp.2 < s.files.length) ∧
  (match s.out with
   | some p => p < s.files.length
   | none => True)

instance (s : State) : Decidable s.WF := by
  unfold State.WF
  cases s.out <;> infer_instance

/-- The characters written so far to the stream of the `FileInfo` at `p`
(nothing for a `FileInfo` not created yet). -/
def bufferOf (s : State) (p : Nat) : Str :=
  match s.files[p]? with
  | some fi => fi.info
  | none => []

/-- Effect of a run from `s` to `s1` that writes `text` to the stream of
the `FileInfo` at `p` and nothing to any other stream. -/
def Wrote (s s1 : State) (p : Nat) (text : Str) : Prop :=
  s1.WF ∧ s1.m_currentFunction = s.m_currentFunction ∧
  (∀ key q, mapFind s.relmap key = some q → mapFind s1.relmap key = some q) ∧
  (∀ q, bufferOf s1 q = bufferOf s q ++ (if q = p then text else []))

/-- One field of a fact line as the spec writes it: `,key,"value"`. -/
def field (key value : Str) : Str := [','] ++ key ++ [',', '"'] ++ value ++ ['"']

/-- A field written with `needQuotes` set, when it is written at all:
`,key,"v"` with the quotes of `v` doubled for `some v`, nothing for `none`. -/
def optionalField (key : Str) : Option Str → Str
  | some v => field key (doubleQuotes v)
  | none => []

/-! ## Visitors -/

/-- The method `VisitTagDecl` (it always returns `true`; the result here is
the new state). -/
def VisitTagDecl (env : Env) (s : State) (d : Decl) : Option State := do
  let (s0, interesting) ← interestingLocation env s d.info.location
  if !interesting then some s0
  else
    let s9 ←
      (if d.info.isThisDeclarationADefinition then do
        let s1 ← beginRecord env s0 "type".toList d.info.location
        let nd := (match d.typedefNameForAnonDecl with
          | some td => td
          | none => d)
        let s2 ← recordValue s1 "name".toList nd.info.nameAsString false
        let s3 ← recordValue s2 "qualname".toList (getQualifiedName nd) false
        let (s4, loc) ← locationToString env s3 d.info.location
        let s5 ← recordValue s4 "loc".toList loc false
        let s6 ← recordValue s5 "kind".toList d.info.kindName false
        let s7 ← printScope env s6 d
        let s8 ← printExtent env s7 nd.info.location nd.info.location
        write s8 ['\n']
      else some s0)
    declDef env s9 (some "type".toList) d d.info.definition d.info.location d.info.location

/-- The block "Determine the type of call" of `VisitCallExpr`. -/
def callType (callee : Decl) (calleeExpr : CalleeExpr) : Str :=
  if callee.info.kind.isCXXMethodDecl then
    if callee.info.isVirtual then
      match calleeExpr with
      | .MemberExpr true => "static".toList
      | _ => "virtual".toList
    else "static".toList
  else if !callee.info.kind.isFunctionDecl then "funcptr".toList
  else "static".toList

/-- The method `VisitCallExpr` (it always returns `true`; the result here is
the new state). -/
def VisitCallExpr (env : Env) (s : State) (e : CallExpr) : Option State := do
  let (s0, interesting) ← interestingLocation env s e.locStart
  if !interesting then some s0
  else
    match e.calleeDecl with
    | none => some s0
    | some callee => do
      let (s1, calleeInteresting) ← interestingLocation env s0 callee.info.location
      if !calleeInteresting || !callee.info.kind.isNamedDecl then some s1
      else do
        let s2 ← beginRecord env s1 "call".toList e.locStart
        let s5 ←
          (match s2.m_currentFunction with
          | some fn => do
            let s3 ← recordValue s2 "callername".toList (getQualifiedName fn) false
            let (s4, callerloc) ← locationToString env s3 fn.info.location
            recordValue s4 "callerloc".toList callerloc false
          | none => some s2)
        let s6 ← recordValue s5 "calleename".toList (getQualifiedName callee) false
        let (s7, calleeloc) ← locationToString env s6 callee.info.location
        let s8 ← recordValue s7 "calleeloc".toList calleeloc false
        let s9 ← recordValue s8 "calltype".toList (callType callee e.callee) false
        write s9 ['\n']

/-- The read `contents[i]`; `none` past the end of the buffer. -/
def charAt (contents : Str) (i : Nat) : Option Char := contents[i]?

/-- The string `std::string(contents + start, n)`; `none` when it reads past
the end of the buffer. -/
def bytesAt (contents : Str) (start n : Nat) : Option Str :=
  if start + n ≤ contents.length then some ((contents.drop start).take n) else none

/-- The loop `for (argsEnd = nameLen + 1; argsEnd < length; argsEnd++)` of
`MacroDefined`, entered with `argsEnd`: the value of `argsEnd` after it. -/
def scanArgsEnd (contents : Str) (length : Nat) : Nat → Nat → Option Nat
  | 0, argsEnd => if argsEnd < length then none else some argsEnd
  | fuel + 1, argsEnd =>
    if argsEnd < length then
      match charAt contents argsEnd with
      | none => none
      | some c => if c = ')' then some (argsEnd + 1) else scanArgsEnd contents length fuel (argsEnd + 1)
    else some argsEnd

/-- The characters the `switch` of `MacroDefined` skips. -/
def isMacroSpace (c : Char) : Bool :=
  c = ' ' || c = '\t' || c = '\x0b' || c = '\r' || c = '\n' || c = '\x0c'

/-- The loop `for (; defnStart < length; defnStart++)` of `MacroDefined`,
entered with `defnStart`: the value of `defnStart` after it. -/
def skipMacroSpace (contents : Str) (length : Nat) : Nat → Nat → Option Nat
  | 0, defnStart => if defnStart < length then none else some defnStart
  | fuel + 1, defnStart =>
    if defnStart < length then
      match charAt contents defnStart with
      | none => none
      | some c =>
        if isMacroSpace c then skipMacroSpace contents length fuel (defnStart + 1)
        else some defnStart
    else some defnStart

/-- The argument list of a macro definition as it stands in the source,
`(params)` right after the name, or nothing for an object-like macro. -/
def macroArgsText : Option Str → Str
  | some params => ['('] ++ params ++ [')']
  | none => []

/-- The scan of `MacroDefined` ("Grab the macro arguments if it has some" and
"Find the first non-whitespace character for the definition"): the values of
`argsStart`, `argsEnd` and `defnStart` after it (`argsEnd` is 0 when there
are no arguments). -/
def scanMacro (contents : Str) (length nameLen : Nat) : Option (Nat × Nat × Nat) := do
  let hasArgs ←
    (if nameLen < length then (charAt contents nameLen).map (fun c => decide (c = '('))
    else some false)
  if hasArgs then do
    let argsEnd ← scanArgsEnd contents length length (nameLen + 1)
    let defnStart ← skipMacroSpace contents length length argsEnd
    some (nameLen, argsEnd, defnStart)
  else do
    let defnStart ← skipMacroSpace contents length length nameLen
    some (0, 0, defnStart)

/-- The end of `MacroDefined`, from `beginRecord("macro", nameStart)` on. -/
def emitMacro (env : Env) (s0 : State) (nameStart : SourceLocation) (contents : Str)
    (length nameLen argsStart argsEnd defnStart : Nat) : Option State := do
  let s1 ← beginRecord env s0 "macro".toList nameStart
  let (s2, loc) ← locationToString env s1 nameStart
  let s3 ← recordValue s2 "loc".toList loc false
  let name ← bytesAt contents 0 nameLen
  let s4 ← recordValue s3 "name".toList name false
  let s5 ←
    (if argsStart > 0 then do
      let args ← bytesAt contents argsStart (argsEnd - argsStart)
      recordValue s4 "args".toList args true
    else some s4)
  let s6 ←
    (if defnStart < length then do
      let text ← bytesAt contents defnStart (length - defnStart)
      recordValue s5 "text".toList text true
    else some s5)
  let s7 ← printExtent env s6 nameStart nameStart
  write s7 ['\n']

/-- The method `MacroDefined`. -/
def MacroDefined (env : Env) (s : State) (MI : MacroInfo) : Option State :=
  if MI.isBuiltinMacro then some s
  else do
    let (s0, interesting) ← interestingLocation env s MI.definitionLoc
    if !interesting then some s0
    else do
      let nameStart := MI.definitionLoc
      let textEnd := MI.definitionEndLoc
      let length := (env.getFileOffset (env.getLocForEndOfToken textEnd) % 4294967296 +
        4294967296 - env.getFileOffset nameStart % 4294967296) % 4294967296
      let contents := env.getCharacterData nameStart
      let nameLen := MI.nameLength % 4294967296
      let (argsStart, argsEnd, defnStart) ← scanMacro contents length nameLen
      emitMacro env s0 nameStart contents length nameLen argsStart argsEnd defnStart

/-! ## End of the translation unit: writing the files -/

/-- The files of the output directory: path and content, one entry per file. -/
abbrev Storage := List (Str × Str)

/-- The calls `open(filename, O_WRONLY | O_CREAT | O_EXCL, 0644)`,
`write(fd, content)` and `close(fd)`: the file is created with that content
only when no file of that name exists; otherwise `open` returns -1 and
nothing happens. -/
def createExclusive (st : Storage) (filename content : Str) : Storage :=
  if filename ∈ st.map Prod.fst then st else st ++ [(filename, content)]

/-- The file name built in the loop "Emit all files now":
`tmpdir + hash(realname) + "." + hash(content) + ".csv"`. -/
def outputFilename (env : Env) (realname content : Str) : Str :=
  env.tmpdir ++ env.hash realname ++ ['.'] ++ env.hash content ++ ".csv".toList

/-- The body of the loop "Emit all files now" for one `FileInfo`. -/
def emitFile (env : Env) (st : Storage) (fi : FileInfo) : Storage :=
  if !fi.interesting then st
  else
    let content := fi.info
    if content.length = 0 then st
    else createExclusive st (outputFilename env fi.realname content) content

/-- The loop "Emit all files now" of `HandleTranslationUnit` over the entries
of `relmap` in key order; `none` when an entry points to no live `FileInfo`. -/
def emitAllFiles (env : Env) (s : State) : List (Str × Nat) → Storage → Option Storage
  | [], st => some st
  | (_, p) :: rest, st =>
    match s.files[p]? with
    | none => none
    | some fi => emitAllFiles env s rest (emitFile env st fi)

/-- The part of `HandleTranslationUnit` after the traversal. -/
def HandleTranslationUnit (env : Env) (s : State) (st : Storage) : Option Storage :=
  emitAllFiles env s s.relmap st

/-! ## Signatures whose text can be split back -/

/-- The types `t1, t2, ...` each preceded by the separator `, `. -/
def sepJoin : List Str → Str
  | [] => []
  | t :: ts => ", ".toList ++ t ++ sepJoin ts

/-- The types `t1, t2, ...` separated by `, `. -/
def joined : List Str → Str
  | [] => []
  | t :: ts => t ++ sepJoin ts

/-- The entries between the parentheses of a signature: the parameter type
strings, and `...` for a variadic function. -/
def DeclInfo.signatureItems (i : DeclInfo) : List Str :=
  i.paramTypes ++ (if i.isVariadic then ["...".toList] else [])

/-- The text `getQualifiedName` puts between the parentheses. -/
def DeclInfo.signatureText (i : DeclInfo) : Str :=
  if i.hasPrototype then joined i.signatureItems else []

/-- A function whose parameter list can be read back from its text: every
parameter type string is non-empty, has no comma and is not `...`, and a
function without prototype has no parameters and is not variadic (what the
frontend gives for `int f();` in C). -/
def DeclInfo.plainSignature (i : DeclInfo) : Prop :=
  (i.hasPrototype = false → i.paramTypes = [] ∧ i.isVariadic = false) ∧
  ∀ t ∈ i.paramTypes, t ≠ [] ∧ ',' ∉ t ∧ t ≠ "...".toList

instance (i : DeclInfo) : Decidable i.plainSignature := by
  unfold DeclInfo.plainSignature
  infer_instance

/-- One step of counting brackets: the number of brackets open after the
character `c`, with `depth` of them open before it.  An opening bracket adds
one, a closing bracket takes one away (a closing bracket with none open is
passed over), and a comma with no bracket open is refused (`none`). -/
def bracketStep (depth : Nat) (c : Char) : Option Nat :=
  if c = '(' ∨ c = '<' ∨ c = '[' ∨ c = '{' then some (depth + 1)
  else if c = ')' ∨ c = '>' ∨ c = ']' ∨ c = '}' then some (depth - 1)
  else if c = ',' then (if depth = 0 then none else some depth)
  else some depth

/-- The number of brackets open at the end of the text, with `depth` of them
open at its start; `none` when the text has a comma outside every bracket. -/
def bracketScan : Nat → Str → Option Nat
  | depth, [] => some depth
  | depth, c :: rest =>
    match bracketStep depth c with
    | none => none
    | some depth1 => bracketScan depth1 rest

/-- A function whose parameter list can be read back from its text by
counting brackets: every parameter type string is non-empty, has each of its
commas inside brackets, closes the brackets it opens (as in
`std::map<int, int>` or `void (*)(int, int)`) and is not `...`, and a function
without prototype has no parameters and is not variadic. -/
def DeclInfo.nestedSignature (i : DeclInfo) : Prop :=
  (i.hasPrototype = false → i.paramTypes = [] ∧ i.isVariadic = false) ∧
  ∀ t ∈ i.paramTypes, t ≠ [] ∧ bracketScan 0 t = some 0 ∧ t ≠ "...".toList

instance (i : DeclInfo) : Decidable i.nestedSignature := by
  unfold DeclInfo.nestedSignature
  infer_instance

/-! ## The invariant of the file table -/

/-- What holds of the file table after the file names `hist` have been looked
up: every key maps to the pointer of its canonical path, every looked-up name
has its canonical path in the table, every key comes from a looked-up name,
and there are as many `FileInfo` objects as distinct canonical paths. -/
def LookupInv (env : Env) (hist : List Str) (s : State) : Prop :=
  (∀ k p, mapFind s.relmap k = some p → mapFind s.relmap (realstr env k) = some p) ∧
  (∀ f ∈ hist, mapFind s.relmap (realstr env f) ≠ none) ∧
  (∀ k p, mapFind s.relmap k = some p → realstr env k ∈ hist.map (realstr env)) ∧
  s.files.length = (hist.map (realstr env)).toFinset.card

/-! ## A small translation unit, used to run the definitions

The source root is `/s`, the output root `/o/`; the file `a.c` of the source
tree holds the macro `ADD` at offset 10, and `/usr/x.h` lies outside both
roots.  Locations with an `ID` of 100 or more are in `/usr/x.h`. -/

/-- A `realpath` that knows three files. -/
def exampleRealpath (path : Str) : Option Str :=
  if path = "a.c".toList then some "/s/a.c".toList
  else if path = "/s/a.c".toList then some "/s/a.c".toList
  else if path = "/usr/x.h".toList then some "/usr/x.h".toList
  else none

/-- The environment of the example. -/
def exampleEnv : Env :=
  { srcdir := "/s".toList, output := "/o/".toList, tmpdir := "/t/".toList,
    realpath := exampleRealpath,
    getPresumedLoc := fun loc =>
      { filename := if loc.ID < 100 then "a.c".toList else "/usr/x.h".toList,
        line := loc.ID, column := 1 },
    getDecomposedSpellingLoc := fun loc => loc.ID,
    getLocForEndOfToken := fun loc => { loc with ID := loc.ID + 1 },
    getBufferName := fun _ => "a.c".toList,
    getFileOffset := fun loc => loc.ID,
    getCharacterData := fun _ => "ADD(a,b) ((a)+(b))\nint x;\n".toList,
    hash := fun text => text.take 2 }

/-- The state once `a.c` has been looked up and a record begun in it. -/
def exampleState : State :=
  { numbuf := List.replicate 15 '\x00',
    files := [{ realname := "a.c".toList, info := "typedef\n".toList, interesting := true }],
    relmap := [("/s/a.c".toList, 0), ("a.c".toList, 0)],
    out := some 0,
    m_currentFunction := none }

/-- A valid file location of the example with the given `ID`. -/
def exampleLoc (ID : Nat) : SourceLocation := { ID := ID, isValid := true, isMacroID := false }

/-- The data of a declaration of the example: kind, address and location,
simple and qualified name, parameter type strings. -/
def exampleInfo (kind : DeclKind) (addr : Nat) (name qualified : String)
    (paramTypes : List String) : DeclInfo :=
  { addr := addr, kind := kind, location := exampleLoc addr,
    nameAsString := name.toList, qualifiedNameAsString := qualified.toList,
    hasPrototype := true, paramTypes := paramTypes.map String.toList, isVariadic := false,
    isConst := false, isVirtual := true, isThisDeclarationADefinition := true,
    kindName := "struct".toList, definition := none }

/-- The virtual method `Base::f` of the example. -/
def exampleMethod : Decl :=
  .mk (exampleInfo .CXXMethod 7 "f" "Base::f" []) .translationUnit .translationUnit none

/-- The call `obj.f()` at offset 5 of `a.c`. -/
def exampleCall : CallExpr :=
  { locStart := exampleLoc 5, calleeDecl := some exampleMethod,
    callee := CalleeExpr.MemberExpr false }

/-- The typedef `Foo` of `typedef struct { int x; } Foo;`. -/
def exampleTypedef : Decl :=
  .mk (exampleInfo .Typedef 9 "Foo" "Foo" []) .translationUnit .translationUnit none

/-- The macro `#define ADD(a,b) ((a)+(b))` at offset 10 of `a.c`. -/
def exampleMacro : MacroInfo :=
  { isBuiltinMacro := false, definitionLoc := exampleLoc 10, definitionEndLoc := exampleLoc 27,
    nameLength := 3 }

/-- The same macro text, defined in `/usr/x.h`, outside the source and output
roots. -/
def exampleSystemMacro : MacroInfo :=
  { isBuiltinMacro := false, definitionLoc := exampleLoc 110,
    definitionEndLoc := exampleLoc 127, nameLength := 3 }

/-- Two overloads `f` whose parameter lists print to the same text.  Clang
prints the type of a lambda as `<lambda at FILE:LINE:COL>`, with the file name
as it stands.  The first overload, an instance of `template<class T> void
f(T)`, takes the lambda at 2:9 of the file named `a.h:1:9>, <lambda at a.h`;
the second, an instance of `template<class T, class U> void f(T, U)`, takes
the lambdas at 1:9 and at 2:9 of the file `a.h`. -/
def exampleOverload1 : Decl :=
  .mk (exampleInfo .Function 20 "f" "f" ["<lambda at a.h:1:9>, <lambda at a.h:2:9>"])
    .translationUnit .translationUnit none

/-- The second overload: two parameters. -/
def exampleOverload2 : Decl :=
  .mk (exampleInfo .Function 30 "f" "f" ["<lambda at a.h:1:9>", "<lambda at a.h:2:9>"])
    .translationUnit .translationUnit none

/-- Two overloads with plain parameter types, `f(int)` and `f(float)`. -/
def exampleOverloadInt : DeclInfo := exampleInfo .Function 40 "f" "N::f" ["int"]

/-- The overload `f(float)`. -/
def exampleOverloadFloat : DeclInfo := exampleInfo .Function 41 "f" "N::f" ["float"]

/-- Two overloads whose parameter type strings have commas inside brackets,
`f(std::map<int, int>)` and `f(void (*)(int, int))`. -/
def exampleOverloadMap : DeclInfo :=
  exampleInfo .Function 42 "f" "N::f" ["std::map<int, int>"]

/-- The overload `f(void (*)(int, int))`. -/
def exampleOverloadPointer : DeclInfo :=
  exampleInfo .Function 43 "f" "N::f" ["void (*)(int, int)"]

/-- The two methods `void C::f() { int x; }` and `void C::f() volatile
{ int x; }`: different declarations (addresses 50 and 60) that differ in no
property `getQualifiedName` reads. -/
def exampleMethodPlain : Decl :=
  .mk (exampleInfo .CXXMethod 50 "f" "C::f" []) .translationUnit .translationUnit none

/-- The volatile overload. -/
def exampleMethodVolatile : Decl :=
  .mk (exampleInfo .CXXMethod 60 "f" "C::f" []) .translationUnit .translationUnit none

/-- The local `x` of the first method. -/
def exampleLocal1 : Decl :=
  .mk (exampleInfo .Var 51 "x" "x" []) exampleMethodPlain exampleMethodPlain none

/-- The local `x` of the second method. -/
def exampleLocal2 : Decl :=
  .mk (exampleInfo .Var 61 "x" "x" []) exampleMethodVolatile exampleMethodVolatile none

/-! ## Decimal numerals -/

/-- The number a decimal numeral denotes, most significant digit first. -/
def parseDecimal (ds : Str) : Nat :=
  ds.foldl (fun acc c => 10 * acc + (c.toNat - 48)) 0

/-! ## `VisitFunctionDecl` -/

/-- A `clang::FunctionDecl`: the declaration and what `VisitFunctionDecl`
reads from it beyond its `DeclInfo`. -/
structure FunctionDecl where
  decl : Decl
  isPure : Bool
  /-- The call `getResultType().getAsString()`. -/
  resultType : Str
  /-- The call `getNameInfo().getBeginLoc()`. -/
  nameBeginLoc : SourceLocation
  /-- The call `getNameInfo().getEndLoc()`. -/
  nameEndLoc : SourceLocation
  /-- For a method: `*begin_overridden_methods()`, `none` when the iterator
  is null. -/
  overriddenMethod : Option Decl

/-- The string `args` of `VisitFunctionDecl`: `(`, then `, T` for each
parameter, the first `, ` erased when there is a parameter, then `)`. -/
def functionArgs (paramTypes : List Str) : Str :=
  let args := paramTypes.foldl (fun args t => args ++ ", ".toList ++ t) ['(']
  let args1 := if paramTypes.length > 0 then erase args 1 2 else args
  args1 ++ [')']

/-- The method `VisitFunctionDecl` (it always returns `true`; the result here
is the new state). -/
def VisitFunctionDecl (env : Env) (s : State) (d : FunctionDecl) : Option State := do
  let (s0, interesting) ← interestingLocation env s d.decl.info.location
  if !interesting then some s0
  else do
    let s13 ←
      (if d.decl.info.isThisDeclarationADefinition || d.isPure then do
        let s1 ← beginRecord env s0 "function".toList d.decl.info.location
        let s2 ← recordValue s1 "name".toList d.decl.info.nameAsString false
        let s3 ← recordValue s2 "qualname".toList (getQualifiedName d.decl) false
        let s4 ← recordValue s3 "type".toList d.resultType false
        let s5 ← recordValue s4 "args".toList (functionArgs d.decl.info.paramTypes) false
        let (s6, loc) ← locationToString env s5 d.decl.info.location
        let s7 ← recordValue s6 "loc".toList loc false
        let s8 ← printScope env s7 d.decl
        let s9 ← printExtent env s8 d.nameBeginLoc d.nameEndLoc
        let s12 ←
          (if d.decl.info.kind.isCXXMethodDecl then
            (match d.overriddenMethod with
            | some m => do
              let s10 ← recordValue s9 "overridename".toList (getQualifiedName m) false
              let (s11, overrideloc) ← locationToString env s10 m.info.location
              recordValue s11 "overrideloc".toList overrideloc false
            | none => some s9)
          else some s9)
        write s12 ['\n']
      else some s0)
    declDef env s13 (some "function".toList) d.decl d.decl.info.definition d.nameBeginLoc
      d.nameEndLoc

/-! ## `VisitCXXRecordDecl` -/

/-- The enumeration `clang::AccessSpecifier`. -/
inductive AccessSpecifier where
  | AS_public | AS_protected | AS_private | AS_none
deriving DecidableEq, Repr

/-- A `clang::CXXBaseSpecifier`. -/
structure CXXBaseSpecifier where
  /-- The call `getType().getTypePtr()->getAsCXXRecordDecl()`, `none` for
  `NULL`. -/
  asCXXRecordDecl : Option Decl
  accessSpecifierAsWritten : AccessSpecifier
  isVirtual : Bool

/-- A `clang::CXXRecordDecl`: the declaration, `isCompleteDefinition()` and
the base specifiers from `bases_begin()` to `bases_end()`. -/
structure CXXRecordDecl where
  decl : Decl
  isCompleteDefinition : Bool
  bases : List CXXBaseSpecifier

/-- The `switch ((*iter).getAccessSpecifierAsWritten())` of
`VisitCXXRecordDecl`. -/
def writeAccessSpecifier (s : State) : AccessSpecifier → Option State
  | .AS_public => write s "public".toList
  | .AS_protected => write s "protected".toList
  | .AS_private => write s "private".toList
  | .AS_none => some s

/-- The text the `switch` writes. -/
def accessSpecifierText : AccessSpecifier → Str
  | .AS_public => "public".toList
  | .AS_protected => "protected".toList
  | .AS_private => "private".toList
  | .AS_none => []

/-- The text written between `,access,"` and the closing quote: the access
specifier as written, then ` virtual` for a virtual base. -/
def accessText (b : CXXBaseSpecifier) : Str :=
  accessSpecifierText b.accessSpecifierAsWritten ++
    (if b.isVirtual then " virtual".toList else [])

/-- The `for` loop over the base specifiers of `VisitCXXRecordDecl`, entered
with the specifiers still to visit.  A base without a class declaration ends
the method (`return true`). -/
def implLoop (env : Env) (d : Decl) : State → List CXXBaseSpecifier → Option State
  | s, [] => some s
  | s, b :: rest =>
    match b.asCXXRecordDecl with
    | none => some s
    | some base => do
      let s1 ← beginRecord env s "impl".toList d.info.location
      let s2 ← recordValue s1 "tcname".toList (getQualifiedName d) false
      let (s3, tcloc) ← locationToString env s2 d.info.location
      let s4 ← recordValue s3 "tcloc".toList tcloc false
      let s5 ← recordValue s4 "tbname".toList (getQualifiedName base) false
      let (s6, tbloc) ← locationToString env s5 base.info.location
      let s7 ← recordValue s6 "tbloc".toList tbloc false
      let s8 ← write s7 ",access,\"".toList
      let s9 ← writeAccessSpecifier s8 b.accessSpecifierAsWritten
      let s10 ← (if b.isVirtual then write s9 " virtual".toList else some s9)
      let s11 ← write s10 ['"']
      let s12 ← write s11 ['\n']
      implLoop env d s12 rest

/-- The method `VisitCXXRecordDecl` (it always returns `true`; the result
here is the new state). -/
def VisitCXXRecordDecl (env : Env) (s : State) (d : CXXRecordDecl) : Option State := do
  let (s0, interesting) ← interestingLocation env s d.decl.info.location
  if !interesting || !d.isCompleteDefinition then some s0
  else implLoop env d.decl s0 d.bases

/-- One `impl` line as the spec lists it: the class, the base and the way
the base is inherited. -/
def implLine (d base : Decl) (tcloc tbloc : Str) (b : CXXBaseSpecifier) : Str :=
  "impl".toList ++ field "tcname".toList (getQualifiedName d) ++ field "tcloc".toList tcloc ++
    field "tbname".toList (getQualifiedName base) ++ field "tbloc".toList tbloc ++
    ",access,\"".toList ++ accessText b ++ ['"'] ++ ['\n']

/-- The text is the `impl` line of the class `d` for the base specifier
`b`, whose type resolves to a class declaration. -/
def IsImplLine (d : Decl) (b : CXXBaseSpecifier) (line : Str) : Prop :=
  ∃ base tcloc tbloc, b.asCXXRecordDecl = some base ∧ line = implLine d base tcloc tbloc b

/-! ## `TraverseDecl` -/

/-- A node of the tree that `RecursiveASTVisitor` walks: a declaration (a
`NULL` one is `none`) or a statement, expression or type location (`call` is
the `CallExpr` when it is one), with the nodes the walk descends into from
it, in the order of the walk. -/
inductive Node where
  | decl (d : Option Decl) (children : List Node)
  | stmt (call : Option CallExpr) (children : List Node)

mutual
/-- The walk of one node.  For a declaration this is the method
`IndexConsumer::TraverseDecl`, with `RecursiveASTVisitor::TraverseDecl`
inlined: it returns at once for `NULL`, else it calls the `Visit*` methods of
the node (`visit`) and then walks the children.  For the other nodes it is
`RecursiveASTVisitor::TraverseStmt` and its like.  The second component lists
the calls of `visit` in order, each with the value `m_currentFunction` has at
the call. -/
def traverse (visit : State → Node → State) (s : State) :
    Node → State × List (Node × Option Decl)
  | .decl none _ => ({ s with m_currentFunction := s.m_currentFunction }, [])
  | .decl (some d) children =>
    let parent := s.m_currentFunction
    let s1 := if d.info.kind.isFunctionDecl then { s with m_currentFunction := some d } else s
    let s2 := visit s1 (.decl (some d) children)
    let r := traverseChildren visit s2 children
    ({ r.1 with m_currentFunction := parent },
      (.decl (some d) children, s1.m_currentFunction) :: r.2)
  | .stmt call children =>
    let s1 := visit s (.stmt call children)
    let r := traverseChildren visit s1 children
    (r.1, (.stmt call children, s.m_currentFunction) :: r.2)
/-- The walk of the children of a node, one after the other. -/
def traverseChildren (visit : State → Node → State) (s : State) :
    List Node → State × List (Node × Option Decl)
  | [] => (s, [])
  | n :: rest =>
    let r := traverse visit s n
    let r1 := traverseChildren visit r.1 rest
    (r1.1, r.2 ++ r1.2)
end

/-- The method `IndexConsumer::TraverseDecl(d)`, for the declaration `d` with
the given children. -/
def TraverseDecl (visit : State → Node → State) (s : State) (d : Option Decl)
    (children : List Node) : State × List (Node × Option Decl) :=
  traverse visit s (.decl d children)

mutual
/-- The nodes of a subtree that the walk visits, in the order of the walk,
each with the declarations on the way from the root of the subtree down to
it, itself included, outermost first; `path` is the way down to the root. -/
def nodesWithPath (path : List Decl) : Node → List (Node × List Decl)
  | .decl none _ => []
  | .decl (some d) children =>
    (.decl (some d) children, path ++ [d]) :: nodesWithPathList (path ++ [d]) children
  | .stmt call children => (.stmt call children, path) :: nodesWithPathList path children
/-- The same for a list of subtrees. -/
def nodesWithPathList (path : List Decl) : List Node → List (Node × List Decl)
  | [] => []
  | n :: rest => nodesWithPath path n ++ nodesWithPathList path rest
end

/-- The innermost function declaration among the declarations of `path`
(outermost first), or `entry` when none of them is a function. -/
def innermostFunction (entry : Option Decl) (path : List Decl) : Option Decl :=
  match (path.filter (fun d => d.info.kind.isFunctionDecl)).getLast? with
  | some f => some f
  | none => entry

/-! ## Examples for the visitors and the walk -/

/-- The virtual method `Base::operator==` of the example. -/
def exampleOperator : Decl :=
  .mk (exampleInfo .CXXMethod 8 "operator==" "Base::operator==" ["const Base &"])
    .translationUnit .translationUnit none

/-- The call `a == b` at offset 6 of `a.c`, with `operator==` a virtual
method: the callee expression is a reference to the method, not a member
access. -/
def exampleOperatorCall : CallExpr :=
  { locStart := exampleLoc 6, calleeDecl := some exampleOperator, callee := CalleeExpr.Other }

/-- The definition `long double operator "" _w(long double)` at offset 12 of
`a.c`; clang prints the name of a literal operator with the two quotes. -/
def exampleLiteralOperator : FunctionDecl :=
  { decl := .mk (exampleInfo .Function 12 "operator \"\" _w" "operator \"\" _w" ["long double"])
      .translationUnit .translationUnit none,
    isPure := false, resultType := "long double".toList,
    nameBeginLoc := exampleLoc 12, nameEndLoc := exampleLoc 12, overriddenMethod := none }

/-- The classes `Base` and `Mixin` of the example. -/
def exampleBase : Decl :=
  .mk (exampleInfo .CXXRecord 2 "Base" "Base" []) .translationUnit .translationUnit none

/-- The class `Mixin`. -/
def exampleMixin : Decl :=
  .mk (exampleInfo .CXXRecord 3 "Mixin" "Mixin" []) .translationUnit .translationUnit none

/-- The class `struct D : Base, private virtual Mixin` at offset 4. -/
def exampleDerived : CXXRecordDecl :=
  { decl := .mk (exampleInfo .CXXRecord 4 "D" "D" []) .translationUnit .translationUnit none,
    isCompleteDefinition := true,
    bases := [{ asCXXRecordDecl := some exampleBase, accessSpecifierAsWritten := .AS_none,
                isVirtual := false },
              { asCXXRecordDecl := some exampleMixin, accessSpecifierAsWritten := .AS_private,
                isVirtual := true }] }

/-- The class template `template<class T> struct E : T, public Base` at
offset 4: the type of the first base is the template parameter, which has no
class declaration. -/
def exampleDependent : CXXRecordDecl :=
  { decl := .mk (exampleInfo .CXXRecord 4 "E" "E" []) .translationUnit .translationUnit none,
    isCompleteDefinition := true,
    bases := [{ asCXXRecordDecl := none, accessSpecifierAsWritten := .AS_none,
                isVirtual := false },
              { asCXXRecordDecl := some exampleBase, accessSpecifierAsWritten := .AS_public,
                isVirtual := false }] }

/-- The functions of `void foo() { class A { A() { g(); } }; h(); }`, the
example of the comment on `m_currentFunction`, with calls added. -/
def exampleFoo : Decl :=
  .mk (exampleInfo .Function 20 "foo" "foo" []) .translationUnit .translationUnit none

/-- The local class `A`. -/
def exampleA : Decl :=
  .mk (exampleInfo .CXXRecord 21 "A" "foo::A" []) exampleFoo exampleFoo none

/-- The constructor `A::A`. -/
def exampleCtor : Decl :=
  .mk (exampleInfo .CXXConstructor 22 "A" "foo::A::A" []) exampleA exampleA none

/-- The functions `g` and `h`, declared at offsets 1 and 2. -/
def exampleG : Decl :=
  .mk (exampleInfo .Function 1 "g" "g" []) .translationUnit .translationUnit none

/-- The function `h`. -/
def exampleH : Decl :=
  .mk (exampleInfo .Function 2 "h" "h" []) .translationUnit .translationUnit none

/-- The call `g()` at offset 23 and the call `h()` at offset 24. -/
def exampleCallG : CallExpr :=
  { locStart := exampleLoc 23, calleeDecl := some exampleG, callee := CalleeExpr.Other }

/-- The call `h()`. -/
def exampleCallH : CallExpr :=
  { locStart := exampleLoc 24, calleeDecl := some exampleH, callee := CalleeExpr.Other }

/-- The nodes below `foo`: its body holds the declaration statement of `A`,
whose constructor calls `g`, and then the call of `h`. -/
def exampleBody : List Node :=
  [.stmt none
    [.stmt none [.decl (some exampleA) [.decl (some exampleCtor) [.stmt (some exampleCallG) []]]],
     .stmt (some exampleCallH) []]]

/-- The visitor of the example: `VisitCallExpr` at a call, nothing elsewhere
(a run that is not defined leaves the state as it is). -/
def exampleVisit (s : State) : Node → State
  | .stmt (some e) _ =>
    match VisitCallExpr exampleEnv s e with
    | some s1 => s1
    | none => s
  | _ => s
/-! ## Lemmas on machine integers and strings -/

theorem toInt_of_lt {n : Nat} (h : n < 2147483648) : toInt n = (n : Int) := by
  unfold toInt
  have h1 : n % 4294967296 = n := Nat.mod_eq_of_lt (by omega)
  rw [h1, if_pos h]

theorem toInt_npos : toInt npos = -1 := by
  decide

theorem toSize_natCast {n : Nat} (h : n < 18446744073709551616) : toSize (n : Int) = n := by
  unfold toSize
  omega

theorem wrapInt_of_range {z : Int} (h1 : -2147483648 ≤ z) (h2 : z < 2147483648) :
    wrapInt z = z := by
  unfold wrapInt
  omega

theorem find_of_not_mem {value : Str} {c : Char} {pos : Nat} (h : c ∉ value.drop pos) :
    find value c pos = npos := by
  unfold find
  rw [if_neg]
  rw [List.indexOf_lt_length]
  exact h

theorem find_of_mem {value : Str} {c : Char} {pos : Nat} (h : c ∈ value.drop pos) :
    find value c pos = pos + (value.drop pos).indexOf c := by
  unfold find
  rw [if_pos]
  rw [List.indexOf_lt_length]
  exact h

theorem doubleQuotes_append (a b : Str) :
    doubleQuotes (a ++ b) = doubleQuotes a ++ doubleQuotes b := by
  simp [doubleQuotes]

theorem doubleQuotes_cons_quote (l : Str) :
    doubleQuotes ('"' :: l) = '"' :: '"' :: doubleQuotes l := by
  simp [doubleQuotes]

theorem doubleQuotes_cons_ne {c : Char} (hc : c ≠ '"') (l : Str) :
    doubleQuotes (c :: l) = c :: doubleQuotes l := by
  simp [doubleQuotes, hc]

theorem collapseQuotes_cons_ne {c : Char} (hc : c ≠ '"') (l : Str) :
    collapseQuotes (c :: l) = c :: collapseQuotes l := by
  rw [collapseQuotes]
  intro rest h _
  exact hc h

theorem doubleQuotes_of_not_mem : ∀ {l : Str}, '"' ∉ l → doubleQuotes l = l
  | [], _ => rfl
  | c :: l, h => by
    have hc : c ≠ '"' := fun e => h (by simp [e])
    have hl : '"' ∉ l := fun e => h (by simp [e])
    rw [doubleQuotes_cons_ne hc, doubleQuotes_of_not_mem hl]

theorem doubleQuotes_split : ∀ {l : Str}, '"' ∈ l →
    doubleQuotes l = l.take (l.indexOf '"' + 1) ++ ['"'] ++
      doubleQuotes (l.drop (l.indexOf '"' + 1))
  | [], h => by simp at h
  | c :: l, h => by
    by_cases hc : c = '"'
    · subst hc
      rw [doubleQuotes_cons_quote]
      simp
    · have hl : '"' ∈ l := by
        rcases List.mem_cons.1 h with e | e
        · exact absurd e.symm hc
        · exact e
      have ih := doubleQuotes_split hl
      have hi : (c :: l).indexOf '"' = l.indexOf '"' + 1 := by
        rw [List.indexOf_cons_ne]
        exact hc
      rw [hi]
      rw [doubleQuotes_cons_ne hc, List.take_succ_cons, List.drop_succ_cons, ih]
      simp

theorem collapseQuotes_doubleQuotes : ∀ value : Str, collapseQuotes (doubleQuotes value) = value
  | [] => rfl
  | c :: l => by
    have ih := collapseQuotes_doubleQuotes l
    by_cases hc : c = '"'
    · subst hc
      rw [doubleQuotes_cons_quote, collapseQuotes, ih]
    · rw [doubleQuotes_cons_ne hc, collapseQuotes_cons_ne hc, ih]

theorem quote_index_lt {value : Str} (hq : '"' ∉ value.drop 2147483647) {s : Nat}
    (hmem : '"' ∈ value.drop s) : s + (value.drop s).indexOf '"' < 2147483647 := by
  by_contra hcon
  apply hq
  rw [List.mem_iff_getElem?]
  refine ⟨s + (value.drop s).indexOf '"' - 2147483647, ?_⟩
  have h := List.getElem?_indexOf hmem
  rw [List.getElem?_drop] at h
  rw [List.getElem?_drop]
  have e : 2147483647 + (s + List.indexOf '"' (List.drop s value) - 2147483647) =
      s + List.indexOf '"' (List.drop s value) := by omega
  rw [e]
  exact h

theorem not_mem_drop_of_length_lt {value : Str} (hlen : value.length < 2147483648) :
    '"' ∉ value.drop 2147483647 := by
  rw [List.drop_eq_nil_of_le (by omega)]
  simp

theorem recordValueLoop_spec (value : Str) (hq : '"' ∉ value.drop 2147483647) :
    ∀ (fuel s : Nat) (acc : Str), s ≤ value.length → s ≤ 2147483647 → value.length - s < fuel →
      ∃ (w : Str) (s' : Nat), s' ≤ value.length ∧ s' ≤ 2147483647 ∧
        recordValueLoop value fuel acc (s : Int) (toInt (find value '"' s)) = some (w, (s' : Int)) ∧
        w ++ value.drop s' = acc ++ doubleQuotes (value.drop s) := by
  intro fuel
  induction fuel with
  | zero => intro s acc _ _ h; omega
  | succ fuel ih =>
    intro s acc hs hs31 hfuel
    by_cases hmem : '"' ∈ value.drop s
    · have hi : (value.drop s).indexOf '"' < value.length - s := by
        have := List.indexOf_lt_length.2 hmem
        simpa using this
      have hsi := quote_index_lt hq hmem
      obtain ⟨i, hidef⟩ : ∃ i, i = (value.drop s).indexOf '"' := ⟨_, rfl⟩
      rw [← hidef] at hi hsi
      have hfind : find value '"' s = s + i := by rw [find_of_mem hmem, hidef]
      have hquote : toInt (find value '"' s) = ((s + i : Nat) : Int) := by
        rw [hfind]; exact toInt_of_lt (by omega)
      have hne : ((s + i : Nat) : Int) ≠ -1 := by omega
      have hcount : toSize (wrapInt (wrapInt (((s + i : Nat) : Int) - (s : Int)) + 1)) = i + 1 := by
        have e1 : wrapInt (((s + i : Nat) : Int) - (s : Int)) = (i : Int) := by
          rw [wrapInt_of_range (by omega) (by omega)]; omega
        rw [e1]
        have e2 : wrapInt ((i : Int) + 1) = ((i + 1 : Nat) : Int) := by
          rw [wrapInt_of_range (by omega) (by omega)]; omega
        rw [e2]
        exact toSize_natCast (by omega)
      have hstart : wrapInt (((s + i : Nat) : Int) + 1) = ((s + i + 1 : Nat) : Int) := by
        rw [wrapInt_of_range (by omega) (by omega)]; omega
      obtain ⟨w, s', hs', hs31', hrun, hw⟩ :=
        ih (s + i + 1) (acc ++ (value.drop s).take (i + 1) ++ ['"'])
          (by omega) (by omega) (by omega)
      refine ⟨w, s', hs', hs31', ?_, ?_⟩
      · rw [hquote, recordValueLoop, if_pos hne, hcount, toSize_natCast (by omega)]
        have hsub : substr value s (i + 1) = some ((value.drop s).take (i + 1)) := by
          unfold substr
          rw [if_neg (by omega)]
        rw [hsub]
        simp only []
        rw [hstart, toSize_natCast (by omega)]
        exact hrun
      · have e : List.drop (i + 1) (List.drop s value) = List.drop (s + i + 1) value := by
          rw [List.drop_drop, Nat.add_assoc]
        rw [hw, doubleQuotes_split hmem, ← hidef, e]
        simp only [List.append_assoc]
    · refine ⟨acc, s, hs, hs31, ?_, ?_⟩
      · rw [find_of_not_mem hmem, toInt_npos, recordValueLoop]
        simp
      · rw [doubleQuotes_of_not_mem hmem]

theorem recordValueText_quoted_of (key value : Str) (hq : '"' ∉ value.drop 2147483647) :
    recordValueText key value true =
      some ([','] ++ key ++ [',', '"'] ++ doubleQuotes value ++ ['"']) := by
  obtain ⟨w, s', hs', hs31', hrun, hw⟩ :=
    recordValueLoop_spec value hq (value.length + 1) 0 ([','] ++ key ++ [',', '"'])
      (Nat.zero_le _) (Nat.zero_le _) (by omega)
  have hrun' : recordValueLoop value (value.length + 1) ([','] ++ key ++ [',', '"']) 0
      (toInt (find value '"' 0)) = some (w, (s' : Int)) := by
    simpa using hrun
  have hsub : substrFrom value s' = some (value.drop s') := by
    unfold substrFrom
    rw [if_neg (by omega)]
  unfold recordValueText
  simp only [if_true]
  rw [hrun']
  simp only []
  rw [toSize_natCast (by omega), hsub]
  simp only []
  rw [List.drop_zero] at hw
  rw [hw]

theorem recordValueText_quoted (key value : Str) (hlen : value.length < 2147483648) :
    recordValueText key value true =
      some ([','] ++ key ++ [',', '"'] ++ doubleQuotes value ++ ['"']) :=
  recordValueText_quoted_of key value (not_mem_drop_of_length_lt hlen)

theorem indexOf_replicate_append (n : Nat) :
    (List.replicate n 'a' ++ ['"']).indexOf '"' = n := by
  induction n with
  | zero => rfl
  | succ n ih =>
    rw [List.replicate_succ, List.cons_append, List.indexOf_cons_ne _ (by decide), ih]

/-- A value whose first `"` is at an index `n` from 2^31 - 1 to 2^32 - 2: the
index does not fit the `int` that `start` is computed in, and the final
`value.substr(start)` throws. -/
theorem recordValueText_late_quote (key : Str) (n : Nat) (h1 : 2147483647 ≤ n)
    (h2 : n < 4294967295) :
    recordValueText key (List.replicate n 'a' ++ ['"']) true = none := by
  obtain ⟨value, hvalue⟩ : ∃ value, value = List.replicate n 'a' ++ ['"'] := ⟨_, rfl⟩
  rw [← hvalue]
  have hlen : value.length = n + 1 := by
    rw [hvalue, List.length_append, List.length_replicate]
    rfl
  have hfind : find value '"' 0 = n := by
    have hmem : '"' ∈ value.drop 0 := by
      rw [List.drop_zero, hvalue]
      simp
    rw [find_of_mem hmem, List.drop_zero, hvalue, indexOf_replicate_append, Nat.zero_add]
  have hne : toInt n ≠ -1 := by
    unfold toInt
    split <;> omega
  have hbig : n + 1 < toSize (wrapInt (toInt n + 1)) := by
    unfold toInt wrapInt toSize
    split <;> omega
  have hfind2 : find value '"' (toSize (wrapInt (toInt n + 1))) = npos := by
    apply find_of_not_mem
    rw [List.drop_eq_nil_of_le (by omega)]
    simp
  have hzero : toSize (0 : Int) = 0 := by decide
  unfold recordValueText
  simp only [if_true]
  rw [hfind, hlen, recordValueLoop, if_pos hne]
  have hsub : ∃ piece, substr value (toSize 0)
      (toSize (wrapInt (wrapInt (toInt n - 0) + 1))) = some piece := by
    unfold substr
    rw [hzero, if_neg (by omega)]
    exact ⟨_, rfl⟩
  obtain ⟨piece, hpiece⟩ := hsub
  rw [hpiece]
  simp only []
  rw [hfind2, toInt_npos, recordValueLoop]
  simp only [ne_eq, not_true_eq_false, if_false]
  unfold substrFrom
  rw [if_pos (by omega)]

theorem recordValueText_plain (key value : Str) :
    recordValueText key value false = some ([','] ++ key ++ [',', '"'] ++ value ++ ['"']) := by
  unfold recordValueText
  have : toSize 0 = 0 := by decide
  simp [substrFrom, this]

/-! ## The map `relmap` -/

theorem mapFind_orderedInsert (m : List (Str × Nat)) (key : Str) (v : Nat) (key' : Str)
    (h : mapFind m key = none) :
    mapFind (orderedInsert key v m) key' = if key = key' then some v else mapFind m key' := by
  induction m with
  | nil => simp [orderedInsert, mapFind]
  | cons kw rest ih =>
    obtain ⟨k, w⟩ := kw
    have hk : k ≠ key := by
      intro e
      simp [mapFind, e] at h
    have hrest : mapFind rest key = none := by
      simpa [mapFind, hk] using h
    by_cases hlt : key < k
    · simp only [orderedInsert, if_pos hlt, mapFind]
    · simp only [orderedInsert, if_neg hlt, mapFind, ih hrest]
      by_cases e1 : k = key'
      · have : key ≠ key' := fun e => hk (e1.trans e.symm)
        simp [e1, this]
      · simp [e1]

theorem mapFind_mapInsert (m : List (Str × Nat)) (key : Str) (v : Nat) (key' : Str) :
    mapFind (mapInsert m key v) key' =
      match mapFind m key' with
      | some p => some p
      | none => if key = key' then some v else none := by
  unfold mapInsert
  cases h : mapFind m key with
  | some p =>
    simp only
    cases h' : mapFind m key' with
    | some q => rfl
    | none =>
      have : key ≠ key' := by
        intro e
        rw [e, h'] at h
        cases h
      simp [this]
  | none =>
    simp only
    rw [mapFind_orderedInsert m key v key' h]
    cases h' : mapFind m key' with
    | some q =>
      have : key ≠ key' := by
        intro e
        rw [e, h'] at h
        cases h
      simp [this]
    | none => rfl

theorem mem_orderedInsert {m : List (Str × Nat)} {key : Str} {v : Nat} {kp : Str × Nat}
    (h : kp ∈ orderedInsert key v m) : kp ∈ m ∨ kp = (key, v) := by
  induction m with
  | nil => simpa [orderedInsert] using h
  | cons kw rest ih =>
    obtain ⟨k, w⟩ := kw
    by_cases hlt : key < k
    · simp only [orderedInsert, if_pos hlt, List.mem_cons] at h
      rcases h with h | h | h
      · exact Or.inr h
      · exact Or.inl (by simp [h])
      · exact Or.inl (by simp [h])
    · simp only [orderedInsert, if_neg hlt, List.mem_cons] at h
      rcases h with h | h
      · exact Or.inl (by simp [h])
      · rcases ih h with h | h
        · exact Or.inl (by simp [h])
        · exact Or.inr h

theorem mem_mapInsert {m : List (Str × Nat)} {key : Str} {v : Nat} {kp : Str × Nat}
    (h : kp ∈ mapInsert m key v) : kp ∈ m ∨ kp = (key, v) := by
  unfold mapInsert at h
  cases h' : mapFind m key with
  | some p =>
    rw [h'] at h
    exact Or.inl h
  | none =>
    rw [h'] at h
    exact mem_orderedInsert h

theorem mapFind_mem {m : List (Str × Nat)} {key : Str} {p : Nat} (h : mapFind m key = some p) :
    (key, p) ∈ m := by
  induction m with
  | nil => simp [mapFind] at h
  | cons kw rest ih =>
    obtain ⟨k, w⟩ := kw
    by_cases e : k = key
    · simp only [mapFind, if_pos e, Option.some.injEq] at h
      simp [e, h]
    · simp only [mapFind, if_neg e] at h
      exact List.mem_cons_of_mem _ (ih h)

/-! ## The static buffer of `operator+=` -/

theorem plusEqLoop_some : ∀ (fuel k : Nat) (buf : List Char) (ptr : Int) (i : Nat),
    1 ≤ k → k ≤ fuel → i < 10 ^ k → (k : Int) ≤ ptr + 1 → ptr ≤ 13 →
    buf.length = 15 → buf[14]? = some '\x00' →
    ∃ buf1 ptr1, plusEqLoop fuel buf ptr i = some (buf1, ptr1) ∧
      buf1.length = 15 ∧ buf1[14]? = some '\x00' ∧ -1 ≤ ptr1 ∧ ptr1 < 13
  | 0, k, _, _, _, h1, h2, _, _, _, _, _ => by omega
  | fuel + 1, k, buf, ptr, i, h1, h2, hi, hk, hp, hlen, hnul => by
    have hptr0 : 0 ≤ ptr := by omega
    have hguard : ¬(ptr < 0 ∨ (buf.length : Int) ≤ ptr) := by
      rw [hlen]; omega
    have hset_len : (buf.set ptr.toNat (digitChar i)).length = 15 := by simp [hlen]
    have hset_nul : (buf.set ptr.toNat (digitChar i))[14]? = some '\x00' := by
      rw [List.getElem?_set_ne (by omega)]
      exact hnul
    rw [plusEqLoop, if_neg hguard]
    by_cases hd : i / 10 > 0
    · rw [if_pos hd]
      have hk2 : 2 ≤ k := by
        by_contra hcon
        have : k = 1 := by omega
        subst this
        omega
      have hi' : i / 10 < 10 ^ (k - 1) := by
        have : 10 ^ k = 10 * 10 ^ (k - 1) := by
          rw [← pow_succ']
          congr 1
          omega
        rw [this] at hi
        exact Nat.div_lt_of_lt_mul hi
      obtain ⟨buf1, ptr1, hrun, hl1, hn1, hlo, hhi⟩ :=
        plusEqLoop_some fuel (k - 1) (buf.set ptr.toNat (digitChar i)) (ptr - 1) (i / 10)
          (by omega) (by omega) hi' (by omega) (by omega) hset_len hset_nul
      exact ⟨buf1, ptr1, hrun, hl1, hn1, hlo, by omega⟩
    · rw [if_neg hd]
      exact ⟨_, _, rfl, hset_len, hset_nul, by omega, by omega⟩

theorem cString_some {buf : List Char} {p : Int}
    (hnul : buf[14]? = some '\x00') (h0 : 0 ≤ p) (h1 : p ≤ 14) :
    ∃ digits, cString buf p = some digits := by
  unfold cString
  rw [if_neg (by omega)]
  have hmem : '\x00' ∈ buf.drop p.toNat := by
    rw [List.mem_iff_getElem?]
    refine ⟨14 - p.toNat, ?_⟩
    rw [List.getElem?_drop]
    have : p.toNat + (14 - p.toNat) = 14 := by omega
    rw [this]
    exact hnul
  rw [if_pos hmem]
  exact ⟨_, rfl⟩

theorem plusEq_some (buf : List Char) (str : Str) (i : Nat) (hlen : buf.length = 15)
    (hnul : buf[14]? = some '\x00') :
    ∃ str1 buf1, plusEq buf str i = some (str1, buf1) ∧ buf1.length = 15 ∧
      buf1[14]? = some '\x00' := by
  obtain ⟨buf1, ptr1, hrun, hl1, hn1, hlo, hhi⟩ :=
    plusEqLoop_some 15 10 buf 13 (i % 4294967296) (by omega) (by omega)
      (by have := Nat.mod_lt i (show 4294967296 > 0 by omega); omega) (by omega) (by omega)
      hlen hnul
  obtain ⟨digits, hd⟩ := cString_some hn1 (show (0 : Int) ≤ ptr1 + 1 by omega)
    (show ptr1 + 1 ≤ 14 by omega)
  refine ⟨str ++ digits, buf1, ?_, hl1, hn1⟩
  unfold plusEq
  rw [hrun]
  simp only
  rw [hd]

/-! ## What each operation of the emitter appends -/

theorem Wrote.refl {s : State} (h : s.WF) (p : Nat) : Wrote s s p [] :=
  ⟨h, rfl, fun _ _ hq => hq, fun q => by simp⟩

theorem Wrote.trans {s s1 s2 : State} {p : Nat} {t u : Str} (h1 : Wrote s s1 p t)
    (h2 : Wrote s1 s2 p u) : Wrote s s2 p (t ++ u) := by
  obtain ⟨_, hc1, hm1, hb1⟩ := h1
  obtain ⟨hwf2, hc2, hm2, hb2⟩ := h2
  refine ⟨hwf2, hc2.trans hc1, fun key q hq => hm2 key q (hm1 key q hq), fun q => ?_⟩
  rw [hb2 q, hb1 q]
  by_cases e : q = p <;> simp [e]

theorem FileInfo.FileInfo_info (srcdir output rname : Str) :
    (FileInfo.FileInfo srcdir output rname).info = [] := by
  unfold FileInfo.FileInfo
  split
  · rfl
  · split <;> rfl

theorem getFileInfo_of_found {env : Env} {s : State} {key : Str} {p : Nat}
    (h : mapFind s.relmap key = some p) : getFileInfo env s key = (s, p) := by
  unfold getFileInfo
  rw [h]

theorem getFileInfo_spec (env : Env) (s : State) (key : Str) (hwf : s.WF) :
    (∀ p, Wrote s (getFileInfo env s key).1 p []) ∧
    (getFileInfo env s key).1.out = s.out ∧
    mapFind (getFileInfo env s key).1.relmap key = some (getFileInfo env s key).2 ∧
    (getFileInfo env s key).2 < (getFileInfo env s key).1.files.length := by
  obtain ⟨hb1, hb2, hrel, hout⟩ := hwf
  unfold getFileInfo
  cases h1 : mapFind s.relmap key with
  | some p =>
    simp only
    exact ⟨fun p => Wrote.refl ⟨hb1, hb2, hrel, hout⟩ p, by trivial, h1, hrel _ (mapFind_mem h1)⟩
  | none =>
    simp only
    cases h2 : mapFind s.relmap (realstr env key) with
    | some q =>
      simp only
      have hq : q < s.files.length := hrel _ (mapFind_mem h2)
      have hwf1 : State.WF { s with relmap := mapInsert s.relmap key q } := by
        refine ⟨hb1, hb2, ?_, hout⟩
        intro kp hkp
        rcases mem_mapInsert hkp with h | h
        · exact hrel kp h
        · rw [h]; exact hq
      refine ⟨fun p => ⟨hwf1, rfl, ?_, fun r => by simp [bufferOf]⟩, by trivial, ?_, hq⟩
      · intro key' r hr
        show mapFind (mapInsert s.relmap key q) key' = some r
        rw [mapFind_mapInsert, hr]
      · show mapFind (mapInsert s.relmap key q) key = some q
        rw [mapFind_mapInsert, h1]
        simp
    | none =>
      simp only
      generalize hreal : realstr env key = realstr at h2
      have hwf1 : State.WF { s with
          files := s.files ++ [FileInfo.FileInfo env.srcdir env.output realstr],
          relmap := mapInsert (mapInsert s.relmap realstr s.files.length) key s.files.length } := by
        refine ⟨hb1, hb2, ?_, ?_⟩
        · intro kp hkp
          simp only [List.length_append, List.length_singleton]
          rcases mem_mapInsert hkp with h | h
          · rcases mem_mapInsert h with h | h
            · have := hrel kp h
              omega
            · rw [h]; simp
          · rw [h]; simp
        · cases ho : s.out with
          | none => simp
          | some p =>
            rw [ho] at hout
            simp only [List.length_append, List.length_singleton]
            simp only at hout
            omega
      refine ⟨fun p => ⟨hwf1, rfl, ?_, fun r => ?_⟩, by trivial, ?_, by simp⟩
      · intro key' r hr
        show mapFind (mapInsert (mapInsert s.relmap realstr s.files.length) key s.files.length)
          key' = some r
        rw [mapFind_mapInsert, mapFind_mapInsert, hr]
      · simp only [bufferOf, List.append_nil]
        by_cases hr : r < s.files.length
        · rw [List.getElem?_append_left hr]
          simp
        · rw [List.getElem?_append_right (by omega)]
          have hnone : s.files[r]? = none := List.getElem?_eq_none (by omega)
          rw [hnone]
          by_cases hr2 : r = s.files.length
          · subst hr2
            simp [FileInfo.FileInfo_info]
          · have : r - s.files.length ≠ 0 := by omega
            have hn : [FileInfo.FileInfo env.srcdir env.output realstr][r - s.files.length]? =
                none := List.getElem?_eq_none (by simp; omega)
            rw [hn]
            simp
      · show mapFind (mapInsert (mapInsert s.relmap realstr s.files.length) key s.files.length)
          key = some s.files.length
        rw [mapFind_mapInsert, mapFind_mapInsert, h1]
        by_cases e : realstr = key <;> simp [e]

theorem interestingLocation_spec (env : Env) (s : State) (loc : SourceLocation) (hwf : s.WF) :
    ∃ s1 b, interestingLocation env s loc = some (s1, b) ∧ (∀ p, Wrote s s1 p []) ∧
      s1.out = s.out ∧
      (b = true → mapFind s1.relmap (env.getPresumedLoc loc).filename =
        some (getFileInfo env s (env.getPresumedLoc loc).filename).2) := by
  unfold interestingLocation
  by_cases hv : loc.isValid = true
  · by_cases hh : (env.getPresumedLoc loc).filename.head? = some '<'
    · simp only [hv, hh, Bool.not_true, if_true]
      exact ⟨s, false, by simp, fun p => Wrote.refl hwf p, rfl, by simp⟩
    · obtain ⟨hw, ho, hm, hlt⟩ := getFileInfo_spec env s (env.getPresumedLoc loc).filename hwf
      simp only [hv, hh, Bool.not_true, if_false]
      cases hget : (getFileInfo env s (env.getPresumedLoc loc).filename).1.files[
          (getFileInfo env s (env.getPresumedLoc loc).filename).2]? with
      | none =>
        rw [List.getElem?_eq_none_iff] at hget
        omega
      | some fi =>
        exact ⟨(getFileInfo env s (env.getPresumedLoc loc).filename).1, fi.interesting, by simp,
          hw, ho, fun _ => hm⟩
  · simp only [hv, Bool.not_false, if_true]
    exact ⟨s, false, by simp, fun p => Wrote.refl hwf p, rfl, by simp⟩

theorem write_spec {s : State} (hwf : s.WF) {p : Nat} (hout : s.out = some p) (text : Str) :
    ∃ s1, write s text = some s1 ∧ Wrote s s1 p text ∧ s1.out = some p := by
  obtain ⟨hb1, hb2, hrel, ho⟩ := hwf
  rw [hout] at ho
  simp only at ho
  unfold write
  rw [hout]
  simp only
  have hget : s.files[p]? = some s.files[p] := List.getElem?_eq_getElem ho
  rw [hget]
  simp only
  refine ⟨_, rfl, ⟨⟨hb1, hb2, ?_, ?_⟩, rfl, fun _ _ h => h, fun q => ?_⟩, rfl⟩
  · intro kp hkp
    simpa using hrel kp hkp
  · simp only [hout, List.length_set]
    exact ho
  · simp only [bufferOf]
    by_cases e : q = p
    · subst e
      simp [hget, List.getElem?_set, ho]
    · rw [List.getElem?_set_ne (fun h => e h.symm)]
      simp [e]

theorem locationToString_spec (env : Env) (s : State) (loc : SourceLocation) (hwf : s.WF) :
    ∃ s1 str, locationToString env s loc = some (s1, str) ∧ (∀ p, Wrote s s1 p []) ∧
      s1.out = s.out := by
  obtain ⟨hw, ho, hm, hlt⟩ := getFileInfo_spec env s (env.getPresumedLoc loc).filename hwf
  unfold locationToString
  simp only
  cases hget : (getFileInfo env s (env.getPresumedLoc loc).filename).1.files[
      (getFileInfo env s (env.getPresumedLoc loc).filename).2]? with
  | none =>
    rw [List.getElem?_eq_none_iff] at hget
    omega
  | some fi =>
    simp only
    obtain ⟨hwf1, hc1, hm1, hbuf1⟩ := hw 0
    obtain ⟨hn1, hn2, hrel1, hout1⟩ := hwf1
    obtain ⟨str1, buf1, h1, hl1, hz1⟩ :=
      plusEq_some (getFileInfo env s (env.getPresumedLoc loc).filename).1.numbuf
        (fi.realname ++ [':']) (env.getPresumedLoc loc).line hn1 hn2
    rw [h1]
    simp only
    obtain ⟨str2, buf2, h2, hl2, hz2⟩ :=
      plusEq_some buf1 (str1 ++ [':']) (env.getPresumedLoc loc).column hl1 hz1
    rw [h2]
    simp only
    refine ⟨_, _, rfl, fun p => ?_, ho⟩
    obtain ⟨_, hc, hmm, hbuf⟩ := hw p
    exact ⟨⟨hl2, hz2, hrel1, hout1⟩, hc, hmm, hbuf⟩

theorem beginRecord_spec (env : Env) (s : State) (name : Str) (loc : SourceLocation)
    (hwf : s.WF) :
    ∃ s1, beginRecord env s name loc = some s1 ∧
      Wrote s s1 (getFileInfo env s (env.getPresumedLoc loc).filename).2 name ∧
      s1.out = some (getFileInfo env s (env.getPresumedLoc loc).filename).2 := by
  obtain ⟨hw, _, _, hlt⟩ := getFileInfo_spec env s (env.getPresumedLoc loc).filename hwf
  obtain ⟨⟨hn1, hn2, hrel1, _⟩, hc1, hm1, hbuf1⟩ :=
    hw (getFileInfo env s (env.getPresumedLoc loc).filename).2
  have hwf2 : State.WF { (getFileInfo env s (env.getPresumedLoc loc).filename).1 with
      out := some (getFileInfo env s (env.getPresumedLoc loc).filename).2 } :=
    ⟨hn1, hn2, hrel1, hlt⟩
  obtain ⟨s1, hs1, hw1, ho1⟩ := write_spec hwf2 rfl name
  refine ⟨s1, ?_, ?_, ho1⟩
  · unfold beginRecord
    exact hs1
  · have hmid : Wrote s { (getFileInfo env s (env.getPresumedLoc loc).filename).1 with
        out := some (getFileInfo env s (env.getPresumedLoc loc).filename).2 }
        (getFileInfo env s (env.getPresumedLoc loc).filename).2 [] :=
      ⟨hwf2, hc1, hm1, hbuf1⟩
    simpa using hmid.trans hw1

theorem recordValue_plain {s : State} (hwf : s.WF) {p : Nat} (hout : s.out = some p)
    (key value : Str) :
    ∃ s1, recordValue s key value false = some s1 ∧ Wrote s s1 p (field key value) ∧
      s1.out = some p := by
  unfold recordValue
  rw [recordValueText_plain]
  exact write_spec hwf hout _

theorem recordValue_quoted_of {s : State} (hwf : s.WF) {p : Nat} (hout : s.out = some p)
    (key value : Str) (hq : '"' ∉ value.drop 2147483647) :
    ∃ s1, recordValue s key value true = some s1 ∧
      Wrote s s1 p (field key (doubleQuotes value)) ∧ s1.out = some p := by
  unfold recordValue
  rw [recordValueText_quoted_of key value hq]
  exact write_spec hwf hout _

theorem recordValue_late_quote (s : State) (key : Str) (n : Nat) (h1 : 2147483647 ≤ n)
    (h2 : n < 4294967295) :
    recordValue s key (List.replicate n 'a' ++ ['"']) true = none := by
  unfold recordValue
  rw [recordValueText_late_quote key n h1 h2]

theorem recordValue_quoted {s : State} (hwf : s.WF) {p : Nat} (hout : s.out = some p)
    (key value : Str) (hlen : value.length < 2147483648) :
    ∃ s1, recordValue s key value true = some s1 ∧
      Wrote s s1 p (field key (doubleQuotes value)) ∧ s1.out = some p :=
  recordValue_quoted_of hwf hout key value (not_mem_drop_of_length_lt hlen)

theorem printExtent_spec (env : Env) {s : State} (hwf : s.WF) {p : Nat} (hout : s.out = some p)
    (begin_ end_ : SourceLocation) :
    ∃ s1, printExtent env s begin_ end_ = some s1 ∧ s1.out = some p ∧
      Wrote s s1 p
        (if begin_.isMacroID || (if !end_.isValid then begin_ else end_).isMacroID then []
         else ",extent,".toList ++ decimal (env.getDecomposedSpellingLoc begin_) ++ [':'] ++
           decimal (env.getDecomposedSpellingLoc
             (env.getLocForEndOfToken (if !end_.isValid then begin_ else end_)))) := by
  unfold printExtent
  simp only
  by_cases hm : (begin_.isMacroID || (if !end_.isValid then begin_ else end_).isMacroID) = true
  · rw [if_pos hm, if_pos hm]
    exact ⟨s, rfl, hout, Wrote.refl hwf p⟩
  · rw [if_neg hm, if_neg hm]
    obtain ⟨s1, h1, hw1, ho1⟩ := write_spec hwf hout
      (",extent,".toList ++ decimal (env.getDecomposedSpellingLoc begin_) ++ [':'] ++
        decimal (env.getDecomposedSpellingLoc
          (env.getLocForEndOfToken (if !end_.isValid then begin_ else end_))))
    exact ⟨s1, h1, ho1, hw1⟩

theorem printExtent_some (env : Env) {s : State} (hwf : s.WF) {p : Nat} (hout : s.out = some p)
    (begin_ end_ : SourceLocation) :
    ∃ s1 text, printExtent env s begin_ end_ = some s1 ∧ s1.out = some p ∧ Wrote s s1 p text := by
  obtain ⟨s1, h1, ho1, hw1⟩ := printExtent_spec env hwf hout begin_ end_
  exact ⟨s1, _, h1, ho1, hw1⟩

theorem printScope_spec (env : Env) {s : State} (hwf : s.WF) {p : Nat} (hout : s.out = some p)
    (i : DeclInfo) (dc up : Decl) (td : Option Decl) :
    ∃ s1 text, printScope env s (.mk i dc up td) = some s1 ∧ s1.out = some p ∧
      Wrote s s1 p text := by
  unfold printScope
  simp only
  by_cases hn : (skipNamespaces up).info.kind.isNamedDecl = true
  · rw [if_pos hn]
    obtain ⟨s1, h1, hw1, ho1⟩ := recordValue_plain hwf hout "scopename".toList
      (getQualifiedName (if (skipNamespaces up).info.kind.isTagDecl = true then
        match (skipNamespaces up).typedefNameForAnonDecl with
        | some redecl => redecl
        | none => skipNamespaces up
      else skipNamespaces up))
    rw [h1]
    simp only
    obtain ⟨s2, loc, h2, hw2, ho2⟩ :=
      locationToString_spec env s1 (skipNamespaces up).info.location hw1.1
    rw [h2]
    simp only
    obtain ⟨s3, h3, hw3, ho3⟩ := recordValue_plain (hw2 p).1 (ho2.trans ho1) "scopeloc".toList loc
    exact ⟨s3, _, h3, ho3, (hw1.trans (hw2 p)).trans hw3⟩
  · rw [if_neg hn]
    exact ⟨s, [], rfl, hout, Wrote.refl hwf p⟩

theorem interestingLocation_true {env : Env} {s s0 : State} {loc : SourceLocation}
    (hwf : s.WF) (h : interestingLocation env s loc = some (s0, true)) :
    (∀ p, Wrote s s0 p []) ∧ s0.out = s.out ∧
      mapFind s0.relmap (env.getPresumedLoc loc).filename =
        some (getFileInfo env s (env.getPresumedLoc loc).filename).2 := by
  obtain ⟨sA, b, hA, hwA, hoA, hmA⟩ := interestingLocation_spec env s loc hwf
  rw [h] at hA
  injection hA with hA
  injection hA with e1 e2
  subst e1
  subst e2
  exact ⟨hwA, hoA, hmA rfl⟩

theorem callTail_spec (env : Env) {s : State} (hwf : s.WF) {p : Nat} (hout : s.out = some p)
    (callee : Decl) (ce : CalleeExpr) :
    ∃ s1 middle,
      ((recordValue s "calleename".toList (getQualifiedName callee) false).bind fun s6 =>
        (locationToString env s6 callee.info.location).bind fun d =>
          (recordValue d.1 "calleeloc".toList d.2 false).bind fun s8 =>
            (recordValue s8 "calltype".toList (callType callee ce) false).bind fun s9 =>
              write s9 ['\n']) = some s1 ∧
      Wrote s s1 p (middle ++ field "calltype".toList (callType callee ce) ++ ['\n']) := by
  obtain ⟨s6, h6, hw6, ho6⟩ :=
    recordValue_plain hwf hout "calleename".toList (getQualifiedName callee)
  obtain ⟨s7, loc, h7, hw7, ho7⟩ := locationToString_spec env s6 callee.info.location hw6.1
  obtain ⟨s8, h8, hw8, ho8⟩ :=
    recordValue_plain (hw7 p).1 (ho7.trans ho6) "calleeloc".toList loc
  obtain ⟨s9, h9, hw9, ho9⟩ :=
    recordValue_plain hw8.1 ho8 "calltype".toList (callType callee ce)
  obtain ⟨s10, h10, hw10, _⟩ := write_spec hw9.1 ho9 ['\n']
  refine ⟨s10, field "calleename".toList (getQualifiedName callee) ++ [] ++
    field "calleeloc".toList loc, ?_, ?_⟩
  · rw [h6, Option.some_bind, h7, Option.some_bind, h8, Option.some_bind, h9, Option.some_bind,
      h10]
  · have := (((hw6.trans (hw7 p)).trans hw8).trans hw9).trans hw10
    simpa only [List.append_assoc] using this

/-- C4.  A call expression that `VisitCallExpr` records (call site and callee
at interesting locations, callee a named declaration) gets one `call` line in
the file of the call site that ends with the field `calltype`; its value is
`virtual` for a virtual method called through a member access without a
qualifier, `static` for a virtual method called through a member access with
a qualifier, and `funcptr` when the callee is neither a function nor a method
declaration. -/
theorem VisitCallExpr_calltype (env : Env) (s s0 s1 : State) (e : CallExpr) (callee : Decl)
    (hwf : s.WF)
    (h0 : interestingLocation env s e.locStart = some (s0, true))
    (hc : e.calleeDecl = some callee)
    (h1 : interestingLocation env s0 callee.info.location = some (s1, true))
    (hn : callee.info.kind.isNamedDecl = true) :
    ∃ s2 middle ct, VisitCallExpr env s e = some s2 ∧
      bufferOf s2 (getFileInfo env s (env.getPresumedLoc e.locStart).filename).2 =
        bufferOf s (getFileInfo env s (env.getPresumedLoc e.locStart).filename).2 ++
          ("call".toList ++ middle ++ field "calltype".toList ct ++ ['\n']) ∧
      (callee.info.kind.isCXXMethodDecl = true → callee.info.isVirtual = true →
        e.callee = CalleeExpr.MemberExpr false → ct = "virtual".toList) ∧
      (callee.info.kind.isCXXMethodDecl = true → callee.info.isVirtual = true →
        e.callee = CalleeExpr.MemberExpr true → ct = "static".toList) ∧
      (callee.info.kind.isFunctionDecl = false → callee.info.kind.isCXXMethodDecl = false →
        ct = "funcptr".toList) := by
  obtain ⟨hw0, _, hm0⟩ := interestingLocation_true hwf h0
  obtain ⟨hw1, _, _⟩ := interestingLocation_true (hw0 0).1 h1
  generalize hp : (getFileInfo env s (env.getPresumedLoc e.locStart).filename).2 = p at hm0 ⊢
  have hm1 : mapFind s1.relmap (env.getPresumedLoc e.locStart).filename = some p :=
    (hw1 p).2.2.1 _ _ hm0
  obtain ⟨s2, hb, hw2, ho2⟩ := beginRecord_spec env s1 "call".toList e.locStart (hw1 p).1
  rw [getFileInfo_of_found hm1] at hw2 ho2
  simp only at hw2 ho2
  have hct : (callee.info.kind.isCXXMethodDecl = true → callee.info.isVirtual = true →
        e.callee = CalleeExpr.MemberExpr false → callType callee e.callee = "virtual".toList) ∧
      (callee.info.kind.isCXXMethodDecl = true → callee.info.isVirtual = true →
        e.callee = CalleeExpr.MemberExpr true → callType callee e.callee = "static".toList) ∧
      (callee.info.kind.isFunctionDecl = false → callee.info.kind.isCXXMethodDecl = false →
        callType callee e.callee = "funcptr".toList) := by
    refine ⟨?_, ?_, ?_⟩
    · intro a b c
      simp [callType, a, b, c]
    · intro a b c
      simp [callType, a, b, c]
    · intro a b
      simp [callType, a, b]
  have hstart : Wrote s s1 p [] := (hw0 p).trans (hw1 p)
  unfold VisitCallExpr
  rw [h0]
  simp only [Option.bind_eq_bind, Option.some_bind, Bool.not_true, hc, h1, hn, Bool.or_self,
    Bool.false_eq_true, if_false]
  rw [hb, Option.some_bind]
  cases hcur : s2.m_currentFunction with
  | none =>
    simp only
    obtain ⟨s3, middle, h3, hw3⟩ := callTail_spec env hw2.1 ho2 callee e.callee
    refine ⟨s3, middle, callType callee e.callee, h3, ?_, hct⟩
    have := (hstart.trans hw2).trans hw3
    rw [this.2.2.2 p]
    simp
  | some fn =>
    simp only
    obtain ⟨s3, h3, hw3, ho3⟩ :=
      recordValue_plain hw2.1 ho2 "callername".toList (getQualifiedName fn)
    obtain ⟨s4, loc, h4, hw4, ho4⟩ := locationToString_spec env s3 fn.info.location hw3.1
    obtain ⟨s5, h5, hw5, ho5⟩ :=
      recordValue_plain (hw4 p).1 (ho4.trans ho3) "callerloc".toList loc
    obtain ⟨s6, middle, h6, hw6⟩ := callTail_spec env hw5.1 ho5 callee e.callee
    rw [h3, Option.some_bind, h4, Option.some_bind, h5, Option.some_bind]
    refine ⟨s6, field "callername".toList (getQualifiedName fn) ++
      field "callerloc".toList loc ++ middle, callType callee e.callee, h6, ?_, hct⟩
    have := (((((hstart.trans hw2).trans hw3).trans (hw4 p)).trans hw5).trans hw6)
    rw [this.2.2.2 p]
    simp

theorem declDef_spec (env : Env) {s : State} (hwf : s.WF) {p : Nat} (kind : Option Str)
    (decl : Decl)
    (hm : mapFind s.relmap (env.getPresumedLoc decl.info.location).filename = some p)
    (definition : Option (Nat × SourceLocation)) (begin_ end_ : SourceLocation) :
    ∃ s1 text, declDef env s kind decl definition begin_ end_ = some s1 ∧ Wrote s s1 p text := by
  unfold declDef
  cases definition with
  | none => exact ⟨s, [], rfl, Wrote.refl hwf p⟩
  | some dl =>
    obtain ⟨defAddr, defLoc⟩ := dl
    simp only
    by_cases ha : defAddr = decl.info.addr
    · rw [if_pos ha]
      exact ⟨s, [], rfl, Wrote.refl hwf p⟩
    · rw [if_neg ha]
      obtain ⟨s1, h1, hw1, ho1⟩ := beginRecord_spec env s "decldef".toList decl.info.location hwf
      rw [getFileInfo_of_found hm] at hw1 ho1
      simp only at hw1 ho1
      obtain ⟨s2, h2, hw2, ho2⟩ :=
        recordValue_plain hw1.1 ho1 "name".toList (getQualifiedName decl)
      obtain ⟨s3, declloc, h3, hw3, ho3⟩ := locationToString_spec env s2 decl.info.location hw2.1
      obtain ⟨s4, h4, hw4, ho4⟩ :=
        recordValue_plain (hw3 p).1 (ho3.trans ho2) "declloc".toList declloc
      obtain ⟨s5, defloc, h5, hw5, ho5⟩ := locationToString_spec env s4 defLoc hw4.1
      obtain ⟨s6, h6, hw6, ho6⟩ :=
        recordValue_plain (hw5 p).1 (ho5.trans ho4) "defloc".toList defloc
      have hk : ∃ s7 text, (match kind with
          | some k => recordValue s6 "kind".toList k false
          | none => some s6) = some s7 ∧ Wrote s6 s7 p text ∧ s7.out = some p := by
        cases kind with
        | none => exact ⟨s6, [], rfl, Wrote.refl hw6.1 p, ho6⟩
        | some k =>
          obtain ⟨s7, h7, hw7, ho7⟩ := recordValue_plain hw6.1 ho6 "kind".toList k
          exact ⟨s7, _, h7, hw7, ho7⟩
      obtain ⟨s7, t7, h7, hw7, ho7⟩ := hk
      obtain ⟨s8, t8, h8, ho8, hw8⟩ := printExtent_some env hw7.1 ho7 begin_ end_
      obtain ⟨s9, h9, hw9, _⟩ := write_spec hw8.1 ho8 ['\n']
      refine ⟨s9, _, ?_,
        (((((((hw1.trans hw2).trans (hw3 p)).trans hw4).trans (hw5 p)).trans hw6).trans
          hw7).trans hw8).trans hw9⟩
      simp only [Option.bind_eq_bind]
      rw [h1, Option.some_bind, h2, Option.some_bind, h3, Option.some_bind]
      simp only
      rw [h4, Option.some_bind, h5, Option.some_bind]
      simp only
      rw [h6, Option.some_bind, h7, Option.some_bind, h8, Option.some_bind, h9]

theorem Decl.info_mk (i : DeclInfo) (dc up : Decl) (td : Option Decl) :
    (Decl.mk i dc up td).info = i := rfl

theorem VisitTagDecl_type_line (env : Env) (s s0 : State) (i : DeclInfo)
    (dc up : Decl) (td : Option Decl) (nd : Decl) (hwf : s.WF)
    (h0 : interestingLocation env s i.location = some (s0, true))
    (hdef : i.isThisDeclarationADefinition = true)
    (hnd : nd = (match td with
      | some t => t
      | none => Decl.mk i dc up td)) :
    ∃ s1 rest, VisitTagDecl env s (.mk i dc up td) = some s1 ∧
      bufferOf s1 (getFileInfo env s (env.getPresumedLoc i.location).filename).2 =
        bufferOf s (getFileInfo env s (env.getPresumedLoc i.location).filename).2 ++
          ("type".toList ++ field "name".toList nd.info.nameAsString ++
            field "qualname".toList (getQualifiedName nd) ++ rest) := by
  obtain ⟨hw0, _, hm0⟩ := interestingLocation_true hwf h0
  generalize hp : (getFileInfo env s (env.getPresumedLoc i.location).filename).2 = p at hm0 ⊢
  obtain ⟨s1, h1, hw1, ho1⟩ := beginRecord_spec env s0 "type".toList i.location (hw0 p).1
  rw [getFileInfo_of_found hm0] at hw1 ho1
  simp only at hw1 ho1
  obtain ⟨s2, h2, hw2, ho2⟩ := recordValue_plain hw1.1 ho1 "name".toList nd.info.nameAsString
  obtain ⟨s3, h3, hw3, ho3⟩ := recordValue_plain hw2.1 ho2 "qualname".toList (getQualifiedName nd)
  obtain ⟨s4, loc, h4, hw4, ho4⟩ := locationToString_spec env s3 i.location hw3.1
  obtain ⟨s5, h5, hw5, ho5⟩ := recordValue_plain (hw4 p).1 (ho4.trans ho3) "loc".toList loc
  obtain ⟨s6, h6, hw6, ho6⟩ := recordValue_plain hw5.1 ho5 "kind".toList i.kindName
  obtain ⟨s7, scope, h7, ho7, hw7⟩ := printScope_spec env hw6.1 ho6 i dc up td
  obtain ⟨s8, ext, h8, ho8, hw8⟩ :=
    printExtent_some env hw7.1 ho7 nd.info.location nd.info.location
  obtain ⟨s9, h9, hw9, _⟩ := write_spec hw8.1 ho8 ['\n']
  have hall := ((((((((hw0 p).trans hw1).trans hw2).trans hw3).trans (hw4 p)).trans hw5).trans
    hw6).trans hw7).trans hw8 |>.trans hw9
  have hm9 : mapFind s9.relmap (env.getPresumedLoc (Decl.mk i dc up td).info.location).filename =
      some p := by
    have hmm := (((((((((hw1.trans hw2).trans hw3).trans (hw4 p)).trans hw5).trans
      hw6).trans hw7).trans hw8).trans hw9)).2.2.1
    exact hmm _ _ hm0
  obtain ⟨s10, dd, h10, hw10⟩ := declDef_spec env hw9.1 (some "type".toList)
    (Decl.mk i dc up td) hm9 i.definition i.location i.location
  refine ⟨s10, field "loc".toList loc ++ field "kind".toList i.kindName ++ scope ++ ext ++
    ['\n'] ++ dd, ?_, ?_⟩
  · unfold VisitTagDecl
    simp only [Decl.info_mk, Decl.typedefNameForAnonDecl]
    rw [h0]
    simp only [Option.bind_eq_bind, Option.some_bind, Bool.not_true, hdef,
      Bool.false_eq_true, if_false, if_true]
    rw [← hnd, h1, Option.some_bind, h2, Option.some_bind, h3, Option.some_bind, h4,
      Option.some_bind]
    simp only
    rw [h5, Option.some_bind, h6, Option.some_bind, h7, Option.some_bind, h8, Option.some_bind,
      h9, Option.some_bind]
    exact h10
  · rw [(hall.trans hw10).2.2.2 p]
    simp only [List.nil_append, if_true, List.append_assoc]

/-- C9.  For a tag definition at an interesting location, the `type` line that
`VisitTagDecl` writes to the file of the tag starts with the fields `name` and
`qualname`; when the tag is anonymous and the target of a typedef `T`
(`getTypedefNameForAnonDecl()` returns `T`) they are the simple name of `T` and
`getQualifiedName` of `T`, and when there is no such typedef they are the
simple name and `getQualifiedName` of the tag itself. -/
theorem VisitTagDecl_name_from_typedef (env : Env) (s s0 : State) (i : DeclInfo)
    (dc up : Decl) (td : Option Decl) (hwf : s.WF)
    (h0 : interestingLocation env s i.location = some (s0, true))
    (hdef : i.isThisDeclarationADefinition = true) :
    ∃ s1 name qualname rest, VisitTagDecl env s (.mk i dc up td) = some s1 ∧
      bufferOf s1 (getFileInfo env s (env.getPresumedLoc i.location).filename).2 =
        bufferOf s (getFileInfo env s (env.getPresumedLoc i.location).filename).2 ++
          ("type".toList ++ field "name".toList name ++ field "qualname".toList qualname ++
            rest) ∧
      (∀ T, td = some T → name = T.info.nameAsString ∧ qualname = getQualifiedName T) ∧
      (td = none → name = i.nameAsString ∧ qualname = getQualifiedName (.mk i dc up td)) := by
  cases td with
  | none =>
    obtain ⟨s1, rest, h1, h2⟩ :=
      VisitTagDecl_type_line env s s0 i dc up none (.mk i dc up none) hwf h0 hdef rfl
    exact ⟨s1, _, _, rest, h1, h2, fun T hT => (by cases hT), fun _ => ⟨rfl, rfl⟩⟩
  | some T =>
    obtain ⟨s1, rest, h1, h2⟩ :=
      VisitTagDecl_type_line env s s0 i dc up (some T) T hwf h0 hdef rfl
    refine ⟨s1, _, _, rest, h1, h2, fun T1 hT => ?_, fun hT => (by cases hT)⟩
    injection hT with hT
    subst hT
    exact ⟨rfl, rfl⟩

/-! ## `MacroDefined` -/

theorem charAt_append_cons (pre : Str) (c : Char) (rest : Str) :
    charAt (pre ++ c :: rest) pre.length = some c := by
  unfold charAt
  rw [List.getElem?_append_right (Nat.le_refl _)]
  simp

theorem bytesAt_middle (pre mid rest : Str) :
    bytesAt (pre ++ mid ++ rest) pre.length mid.length = some mid := by
  unfold bytesAt
  rw [if_pos (by simp)]
  simp

theorem scanArgsEnd_spec (length : Nat) (rest : Str) :
    ∀ (params pre : Str) (fuel : Nat), ')' ∉ params →
      pre.length + params.length + 1 ≤ length → length - pre.length ≤ fuel →
      scanArgsEnd (pre ++ params ++ [')'] ++ rest) length fuel pre.length =
        some (pre.length + params.length + 1) := by
  intro params
  induction params with
  | nil =>
    intro pre fuel _ hlen hfuel
    obtain ⟨f, rfl⟩ : ∃ f, fuel = f + 1 := ⟨fuel - 1, by simp at hlen; omega⟩
    have hc : charAt (pre ++ [] ++ [')'] ++ rest) pre.length = some ')' := by
      have := charAt_append_cons pre ')' rest
      simpa using this
    rw [scanArgsEnd, if_pos (by simp at hlen; omega), hc]
    simp
  | cons c ps ih =>
    intro pre fuel hmem hlen hfuel
    have hc1 : c ≠ ')' := fun e => hmem (by simp [e])
    have hps : ')' ∉ ps := fun e => hmem (by simp [e])
    simp only [List.length_cons] at hlen
    obtain ⟨f, rfl⟩ : ∃ f, fuel = f + 1 := ⟨fuel - 1, by omega⟩
    have hc : charAt (pre ++ c :: ps ++ [')'] ++ rest) pre.length = some c := by
      have := charAt_append_cons pre c (ps ++ [')'] ++ rest)
      simpa using this
    rw [scanArgsEnd, if_pos (by omega), hc]
    simp only [if_neg hc1]
    have e : pre ++ c :: ps ++ [')'] ++ rest = (pre ++ [c]) ++ ps ++ [')'] ++ rest := by simp
    have := ih (pre ++ [c]) f hps (by simp; omega) (by simp; omega)
    rw [List.length_append, List.length_singleton] at this
    rw [e, this, List.length_cons]
    congr 1
    omega

theorem skipMacroSpace_spec (length : Nat) (tail : Str) :
    ∀ (ws pre : Str) (fuel : Nat), (∀ c ∈ ws, isMacroSpace c = true) →
      pre.length + ws.length ≤ length →
      (pre.length + ws.length < length → ∃ b t, tail = b :: t ∧ isMacroSpace b = false) →
      length - pre.length ≤ fuel →
      skipMacroSpace (pre ++ ws ++ tail) length fuel pre.length = some (pre.length + ws.length) := by
  intro ws
  induction ws with
  | nil =>
    intro pre fuel _ hlen hne hfuel
    simp only [List.length_nil, Nat.add_zero, List.append_nil] at hlen hne ⊢
    by_cases hlt : pre.length < length
    · obtain ⟨f, rfl⟩ : ∃ f, fuel = f + 1 := ⟨fuel - 1, by omega⟩
      obtain ⟨b, t, rfl, hb⟩ := hne hlt
      rw [skipMacroSpace, if_pos hlt, charAt_append_cons]
      simp [hb]
    · cases fuel with
      | zero => rw [skipMacroSpace, if_neg hlt]
      | succ f => rw [skipMacroSpace, if_neg hlt]
  | cons c cs ih =>
    intro pre fuel hws hlen hne hfuel
    simp only [List.length_cons] at hlen hne
    obtain ⟨f, rfl⟩ : ∃ f, fuel = f + 1 := ⟨fuel - 1, by omega⟩
    have hc : charAt (pre ++ c :: cs ++ tail) pre.length = some c := by
      have := charAt_append_cons pre c (cs ++ tail)
      simpa using this
    rw [skipMacroSpace, if_pos (by omega), hc]
    simp only [hws c (by simp), if_true]
    have e : pre ++ c :: cs ++ tail = (pre ++ [c]) ++ cs ++ tail := by simp
    have := ih (pre ++ [c]) f (fun x hx => hws x (by simp [hx])) (by simp; omega)
      (by intro h; apply hne; simp at h; omega) (by simp; omega)
    rw [List.length_append, List.length_singleton] at this
    rw [e, this, List.length_cons]
    congr 1
    omega


theorem scanMacro_function (name params ws body after : Str) (hparams : ')' ∉ params)
    (hws : ∀ c ∈ ws, isMacroSpace c = true)
    (hbody : ∀ b t, body = b :: t → isMacroSpace b = false) :
    scanMacro (name ++ (['('] ++ params ++ [')']) ++ ws ++ body ++ after)
        (name.length + (params.length + 2) + ws.length + body.length) name.length =
      some (name.length, name.length + (params.length + 2),
        name.length + (params.length + 2) + ws.length) := by
  have hc : charAt (name ++ (['('] ++ params ++ [')']) ++ ws ++ body ++ after) name.length =
      some '(' := by
    have := charAt_append_cons name '(' (params ++ [')'] ++ ws ++ body ++ after)
    simpa using this
  have e1 : name ++ (['('] ++ params ++ [')']) ++ ws ++ body ++ after =
      (name ++ ['(']) ++ params ++ [')'] ++ (ws ++ body ++ after) := by simp
  have h1 := scanArgsEnd_spec (name.length + (params.length + 2) + ws.length + body.length)
    (ws ++ body ++ after) params (name ++ ['('])
    (name.length + (params.length + 2) + ws.length + body.length) hparams
    (by simp; omega) (by simp)
  rw [← e1, List.length_append, List.length_singleton] at h1
  have e2 : name ++ (['('] ++ params ++ [')']) ++ ws ++ body ++ after =
      (name ++ ['('] ++ params ++ [')']) ++ ws ++ (body ++ after) := by simp
  have h2 := skipMacroSpace_spec (name.length + (params.length + 2) + ws.length + body.length)
    (body ++ after) ws (name ++ ['('] ++ params ++ [')'])
    (name.length + (params.length + 2) + ws.length + body.length) hws
    (by simp only [List.length_append, List.length_singleton]; omega)
    (by
      intro hlt
      cases body with
      | nil =>
        simp only [List.length_append, List.length_singleton, List.length_nil] at hlt
        omega
      | cons b t => exact ⟨b, t ++ after, rfl, hbody b t rfl⟩)
    (by simp)
  rw [← e2] at h2
  simp only [List.length_append, List.length_singleton] at h2
  have e3 : name.length + 1 + params.length + 1 = name.length + (params.length + 2) := by omega
  rw [e3] at h1 h2
  unfold scanMacro
  rw [if_pos (by omega), hc]
  simp only [Option.map_some', decide_True, Option.bind_eq_bind, Option.some_bind, if_true]
  rw [h1, Option.some_bind, h2, Option.some_bind]

theorem scanMacro_object (name ws body after : Str)
    (hobj : (ws ++ body).head? ≠ some '(')
    (hws : ∀ c ∈ ws, isMacroSpace c = true)
    (hbody : ∀ b t, body = b :: t → isMacroSpace b = false) :
    scanMacro (name ++ ws ++ body ++ after) (name.length + ws.length + body.length)
        name.length =
      some (0, 0, name.length + ws.length) := by
  have h2 := skipMacroSpace_spec (name.length + ws.length + body.length)
    (body ++ after) ws name (name.length + ws.length + body.length) hws
    (by omega)
    (by
      intro hlt
      cases body with
      | nil => simp at hlt
      | cons b t => exact ⟨b, t ++ after, rfl, hbody b t rfl⟩)
    (by omega)
  have e2 : name ++ ws ++ body ++ after = name ++ ws ++ (body ++ after) := by simp
  rw [← e2] at h2
  have hhas : (if name.length < name.length + ws.length + body.length then
      (charAt (name ++ ws ++ body ++ after) name.length).map (fun c => decide (c = '('))
      else some false) = some false := by
    by_cases hlt : name.length < name.length + ws.length + body.length
    · rw [if_pos hlt]
      cases hwb : ws ++ body with
      | nil =>
        have := congrArg List.length hwb
        simp only [List.length_append, List.length_nil] at this
        omega
      | cons c rest =>
        have hc : charAt (name ++ ws ++ body ++ after) name.length = some c := by
          have := charAt_append_cons name c (rest ++ after)
          rw [← List.cons_append, ← hwb] at this
          simpa using this
        rw [hc]
        have hne : c ≠ '(' := by
          intro e
          apply hobj
          rw [hwb, e]
          rfl
        simp [hne]
    · rw [if_neg hlt]
  unfold scanMacro
  rw [hhas]
  simp only [Option.bind_eq_bind, Option.some_bind, Bool.false_eq_true, if_false]
  rw [h2, Option.some_bind]

theorem emitMacro_spec (env : Env) {s0 : State} (hwf : s0.WF) (nameStart : SourceLocation)
    {p : Nat} (hm : mapFind s0.relmap (env.getPresumedLoc nameStart).filename = some p)
    (contents : Str) (length nameLen argsStart argsEnd defnStart : Nat) (name : Str)
    (argsv textv : Option Str)
    (hN : bytesAt contents 0 nameLen = some name)
    (hA : (0 < argsStart ∧ ∃ a, argsv = some a ∧
        bytesAt contents argsStart (argsEnd - argsStart) = some a ∧ a.length < 2147483648) ∨
      (argsStart = 0 ∧ argsv = none))
    (hT : (defnStart < length ∧ ∃ t, textv = some t ∧
        bytesAt contents defnStart (length - defnStart) = some t ∧ t.length < 2147483648) ∨
      (¬ defnStart < length ∧ textv = none)) :
    ∃ s1 loc ext, emitMacro env s0 nameStart contents length nameLen argsStart argsEnd
        defnStart = some s1 ∧
      Wrote s0 s1 p ("macro".toList ++ field "loc".toList loc ++ field "name".toList name ++
        optionalField "args".toList argsv ++ optionalField "text".toList textv ++ ext ++
        ['\n']) := by
  obtain ⟨s1, h1, hw1, ho1⟩ := beginRecord_spec env s0 "macro".toList nameStart hwf
  rw [getFileInfo_of_found hm] at hw1 ho1
  simp only at hw1 ho1
  obtain ⟨s2, loc, h2, hw2, ho2⟩ := locationToString_spec env s1 nameStart hw1.1
  obtain ⟨s3, h3, hw3, ho3⟩ := recordValue_plain (hw2 p).1 (ho2.trans ho1) "loc".toList loc
  obtain ⟨s4, h4, hw4, ho4⟩ := recordValue_plain hw3.1 ho3 "name".toList name
  have hA2 : ∃ s5, (if argsStart > 0 then
        (bytesAt contents argsStart (argsEnd - argsStart)).bind fun args =>
          recordValue s4 "args".toList args true
      else some s4) = some s5 ∧ s5.out = some p ∧
      Wrote s4 s5 p (optionalField "args".toList argsv) := by
    rcases hA with ⟨hpos, a, rfl, hb, hl⟩ | ⟨hz, rfl⟩
    · obtain ⟨s5, h5, hw5, ho5⟩ := recordValue_quoted hw4.1 ho4 "args".toList a hl
      refine ⟨s5, ?_, ho5, hw5⟩
      rw [if_pos hpos, hb, Option.some_bind, h5]
    · refine ⟨s4, ?_, ho4, Wrote.refl hw4.1 p⟩
      rw [if_neg (by omega)]
  obtain ⟨s5, h5, ho5, hw5⟩ := hA2
  have hT2 : ∃ s6, (if defnStart < length then
        (bytesAt contents defnStart (length - defnStart)).bind fun text =>
          recordValue s5 "text".toList text true
      else some s5) = some s6 ∧ s6.out = some p ∧
      Wrote s5 s6 p (optionalField "text".toList textv) := by
    rcases hT with ⟨hpos, t, rfl, hb, hl⟩ | ⟨hz, rfl⟩
    · obtain ⟨s6, h6, hw6, ho6⟩ := recordValue_quoted hw5.1 ho5 "text".toList t hl
      refine ⟨s6, ?_, ho6, hw6⟩
      rw [if_pos hpos, hb, Option.some_bind, h6]
    · refine ⟨s5, ?_, ho5, Wrote.refl hw5.1 p⟩
      rw [if_neg hz]
  obtain ⟨s6, h6, ho6, hw6⟩ := hT2
  obtain ⟨s7, ext, h7, ho7, hw7⟩ := printExtent_some env hw6.1 ho6 nameStart nameStart
  obtain ⟨s8, h8, hw8, _⟩ := write_spec hw7.1 ho7 ['\n']
  refine ⟨s8, loc, ext, ?_, ?_⟩
  · unfold emitMacro
    simp only [Option.bind_eq_bind]
    rw [h1, Option.some_bind, h2, Option.some_bind]
    simp only
    rw [h3, Option.some_bind, hN, Option.some_bind, h4, Option.some_bind, h5, Option.some_bind,
      h6, Option.some_bind, h7, Option.some_bind, h8]
  · have := ((((((hw1.trans (hw2 p)).trans hw3).trans hw4).trans hw5).trans hw6).trans
      hw7).trans hw8
    simpa only [List.append_nil] using this

/-- C8 (amended).  For a macro that is not built in and is defined at an
interesting location, in fewer than 2^31 bytes: when the source bytes from the
start of the name are `name ++ "(" ++ params ++ ")" ++ whitespace ++ body` with
no `)` in `params` and a body that is empty or starts with a non-whitespace
character, `MacroDefined` appends to the file of the definition one `macro`
line with the fields `loc`, `name` (the name), `args` (`(params)`, quotes
doubled) and, when the body is not empty, `text` (the body, quotes doubled);
when the byte after the name is not `(` the line has no `args` field and
`text` is what follows the whitespace after the name. -/
theorem MacroDefined_fields (env : Env) (s s0 : State) (MI : MacroInfo)
    (name ws body after : Str) (args : Option Str) (hwf : s.WF)
    (hb : MI.isBuiltinMacro = false)
    (h0 : interestingLocation env s MI.definitionLoc = some (s0, true))
    (hcontents : env.getCharacterData MI.definitionLoc =
      name ++ macroArgsText args ++ ws ++ body ++ after)
    (hend : env.getFileOffset (env.getLocForEndOfToken MI.definitionEndLoc) =
      env.getFileOffset MI.definitionLoc +
        (name.length + (macroArgsText args).length + ws.length + body.length))
    (hoff : env.getFileOffset (env.getLocForEndOfToken MI.definitionEndLoc) < 4294967296)
    (hsize : name.length + (macroArgsText args).length + ws.length + body.length < 2147483648)
    (hname : MI.nameLength = name.length) (hne : name ≠ [])
    (hargs : ∀ params, args = some params → ')' ∉ params)
    (hobj : args = none → (ws ++ body).head? ≠ some '(')
    (hws : ∀ c ∈ ws, isMacroSpace c = true)
    (hhead : ∀ b ∈ body.head?, isMacroSpace b = false) :
    ∃ s1 loc ext, MacroDefined env s MI = some s1 ∧
      bufferOf s1 (getFileInfo env s (env.getPresumedLoc MI.definitionLoc).filename).2 =
        bufferOf s (getFileInfo env s (env.getPresumedLoc MI.definitionLoc).filename).2 ++
          ("macro".toList ++ field "loc".toList loc ++ field "name".toList name ++
            optionalField "args".toList (args.map (fun params => ['('] ++ params ++ [')'])) ++
            optionalField "text".toList (if body = [] then none else some body) ++ ext ++
            ['\n']) := by
  obtain ⟨hw0, _, hm0⟩ := interestingLocation_true hwf h0
  generalize hp : (getFileInfo env s (env.getPresumedLoc MI.definitionLoc).filename).2 = p
    at hm0 ⊢
  have hbody : ∀ b t, body = b :: t → isMacroSpace b = false := by
    intro b t hbt
    apply hhead
    rw [hbt]
    rfl
  have hnl : 0 < name.length := List.length_pos.2 hne
  have hlength : (env.getFileOffset (env.getLocForEndOfToken MI.definitionEndLoc) % 4294967296 +
      4294967296 - env.getFileOffset MI.definitionLoc % 4294967296) % 4294967296 =
      name.length + (macroArgsText args).length + ws.length + body.length := by
    omega
  have hnameLen : MI.nameLength % 4294967296 = name.length := by
    omega
  have hN : bytesAt (name ++ macroArgsText args ++ ws ++ body ++ after) 0 name.length =
      some name := by
    have := bytesAt_middle [] name (macroArgsText args ++ ws ++ body ++ after)
    simpa using this
  have hT : (name.length + (macroArgsText args).length + ws.length <
        name.length + (macroArgsText args).length + ws.length + body.length ∧
      ∃ t, (if body = [] then none else some body) = some t ∧
        bytesAt (name ++ macroArgsText args ++ ws ++ body ++ after)
          (name.length + (macroArgsText args).length + ws.length)
          (name.length + (macroArgsText args).length + ws.length + body.length -
            (name.length + (macroArgsText args).length + ws.length)) = some t ∧
        t.length < 2147483648) ∨
      (¬ name.length + (macroArgsText args).length + ws.length <
        name.length + (macroArgsText args).length + ws.length + body.length ∧
        (if body = [] then none else some body) = none) := by
    by_cases hbe : body = []
    · right
      subst hbe
      simp
    · left
      have hbl : 0 < body.length := List.length_pos.2 hbe
      refine ⟨by omega, body, by rw [if_neg hbe], ?_, by omega⟩
      have := bytesAt_middle (name ++ macroArgsText args ++ ws) body after
      simp only [List.length_append] at this
      rw [Nat.add_sub_cancel_left]
      exact this
  have hrun : ∀ argsStart argsEnd,
      scanMacro (name ++ macroArgsText args ++ ws ++ body ++ after)
        (name.length + (macroArgsText args).length + ws.length + body.length) name.length =
        some (argsStart, argsEnd, name.length + (macroArgsText args).length + ws.length) →
      ((0 < argsStart ∧ ∃ a, args.map (fun params => ['('] ++ params ++ [')']) = some a ∧
          bytesAt (name ++ macroArgsText args ++ ws ++ body ++ after) argsStart
            (argsEnd - argsStart) = some a ∧ a.length < 2147483648) ∨
        (argsStart = 0 ∧ args.map (fun params => ['('] ++ params ++ [')']) = none)) →
      ∃ s1 loc ext, MacroDefined env s MI = some s1 ∧
        bufferOf s1 p = bufferOf s p ++
          ("macro".toList ++ field "loc".toList loc ++ field "name".toList name ++
            optionalField "args".toList (args.map (fun params => ['('] ++ params ++ [')'])) ++
            optionalField "text".toList (if body = [] then none else some body) ++ ext ++
            ['\n']) := by
    intro argsStart argsEnd hscan hA
    obtain ⟨s1, loc, ext, h1, hw1⟩ := emitMacro_spec env (hw0 p).1 MI.definitionLoc hm0
      (name ++ macroArgsText args ++ ws ++ body ++ after)
      (name.length + (macroArgsText args).length + ws.length + body.length) name.length
      argsStart argsEnd (name.length + (macroArgsText args).length + ws.length) name
      (args.map (fun params => ['('] ++ params ++ [')']))
      (if body = [] then none else some body) hN hA hT
    refine ⟨s1, loc, ext, ?_, ?_⟩
    · unfold MacroDefined
      rw [if_neg (by simp [hb]), h0]
      simp only [Option.bind_eq_bind, Option.some_bind, Bool.not_true, Bool.false_eq_true,
        if_false, hlength, hnameLen, hcontents]
      rw [hscan, Option.some_bind]
      exact h1
    · rw [((hw0 p).trans hw1).2.2.2 p]
      simp
  cases args with
  | none =>
    refine hrun 0 0 ?_ (Or.inr ⟨rfl, rfl⟩)
    have := scanMacro_object name ws body after (hobj rfl) hws hbody
    simpa [macroArgsText] using this
  | some params =>
    refine hrun name.length (name.length + (params.length + 2)) ?_
      (Or.inl ⟨hnl, ['('] ++ params ++ [')'], rfl, ?_, ?_⟩)
    · have := scanMacro_function name params ws body after (hargs params rfl) hws hbody
      simpa [macroArgsText] using this
    · have := bytesAt_middle name (['('] ++ params ++ [')']) (ws ++ body ++ after)
      simp only [macroArgsText]
      rw [Nat.add_sub_cancel_left]
      simpa using this
    · simp only [macroArgsText] at hsize
      omega

/-! ## Claims on the pure helpers -/

/-- C1 (amended).  For every key and every value whose `"` characters all lie
in its first 2^31 - 1 characters (so for every value shorter than 2^31
characters; the scan keeps the index after a `"` in an `int`), `recordValue`
with `needQuotes` set appends to the current stream `,key,"v"` where `v` is
the value with each `"` replaced by `""`, writes to no other stream, and
collapsing each doubled quote of `v` gives the value back. -/
theorem recordValue_quotes_roundtrip (s : State) (p : Nat) (key value : Str) (hwf : s.WF)
    (hout : s.out = some p) (hq : '"' ∉ value.drop 2147483647) :
    ∃ s1, recordValue s key value true = some s1 ∧
      bufferOf s1 p =
        bufferOf s p ++ ([','] ++ key ++ [',', '"'] ++ doubleQuotes value ++ ['"']) ∧
      (∀ q, q ≠ p → bufferOf s1 q = bufferOf s q) ∧
      collapseQuotes (doubleQuotes value) = value := by
  obtain ⟨s1, hrun, hw, _⟩ := recordValue_quoted_of hwf hout key value hq
  refine ⟨s1, hrun, ?_, ?_, collapseQuotes_doubleQuotes value⟩
  · rw [hw.2.2.2 p]
    simp [field]
  · intro q hq
    rw [hw.2.2.2 q]
    simp [hq]

theorem compare_eq_zero_iff (rname dir : Str) :
    compare rname 0 dir.length dir = 0 ↔ dir <+: rname := by
  unfold compare
  simp only [List.drop_zero]
  rw [List.prefix_iff_eq_take]
  constructor
  · intro h
    by_cases e : List.take dir.length rname = dir
    · exact e.symm
    · rw [if_neg e] at h
      split at h <;> simp at h
  · intro h
    rw [if_pos h.symm]

/-- C10.  The constructor of `FileInfo` classifies a path by the three-way
rule: a path that begins with `srcdir` is interesting and loses the `srcdir`
prefix and one more character (also when it begins with `output` as well); else a path that begins with `output` is interesting and
its `realname` is the sentinel directory `--GENERATED--` and a slash followed
by the path after the `output` prefix; else the path is not interesting and `realname` is the path. -/
theorem FileInfo_classification (srcdir output rname : Str) :
    (srcdir <+: rname →
      (FileInfo.FileInfo srcdir output rname).interesting = true ∧
      (FileInfo.FileInfo srcdir output rname).realname = rname.drop (srcdir.length + 1)) ∧
    (¬ srcdir <+: rname → output <+: rname →
      (FileInfo.FileInfo srcdir output rname).interesting = true ∧
      (FileInfo.FileInfo srcdir output rname).realname =
        "--GENERATED--/".toList ++ rname.drop output.length) ∧
    (¬ srcdir <+: rname → ¬ output <+: rname →
      (FileInfo.FileInfo srcdir output rname).interesting = false ∧
      (FileInfo.FileInfo srcdir output rname).realname = rname) := by
  refine ⟨?_, ?_, ?_⟩
  · intro h
    unfold FileInfo.FileInfo
    rw [if_pos ((compare_eq_zero_iff rname srcdir).2 h)]
    refine ⟨rfl, ?_⟩
    simp only [erase, List.take_zero, List.nil_append, Nat.zero_add, Nat.sub_zero]
    by_cases hle : srcdir.length + 1 ≤ rname.length
    · rw [Nat.min_eq_left hle]
    · rw [Nat.min_eq_right (by omega), List.drop_length,
        List.drop_eq_nil_of_le (by omega)]
  · intro h1 h2
    unfold FileInfo.FileInfo
    rw [if_neg (fun e => h1 ((compare_eq_zero_iff rname srcdir).1 e)),
      if_pos ((compare_eq_zero_iff rname output).2 h2)]
    refine ⟨rfl, ?_⟩
    have hle : output.length ≤ rname.length := h2.length_le
    simp only [replace, List.take_zero, List.nil_append, Nat.zero_add, Nat.sub_zero,
      Nat.min_eq_left hle]
  · intro h1 h2
    unfold FileInfo.FileInfo
    rw [if_neg (fun e => h1 ((compare_eq_zero_iff rname srcdir).1 e)),
      if_neg (fun e => h2 ((compare_eq_zero_iff rname output).1 e))]
    exact ⟨rfl, rfl⟩

/-- C5.  With an invalid `end` replaced by `begin`: when `begin` or `end` is a
macro location `printExtent` leaves the state as it is (nothing is appended);
otherwise it appends to the current stream exactly the one field
`,extent,<start>:<end>`, the spelling offset of `begin` and of the end of the
token at `end`, and writes to no other stream. -/
theorem printExtent_extent (env : Env) (s : State) (p : Nat) (begin_ end_ : SourceLocation)
    (hwf : s.WF) (hout : s.out = some p) :
    ((begin_.isMacroID = true ∨ (if !end_.isValid then begin_ else end_).isMacroID = true) →
      printExtent env s begin_ end_ = some s) ∧
    (begin_.isMacroID = false → (if !end_.isValid then begin_ else end_).isMacroID = false →
      ∃ s1, printExtent env s begin_ end_ = some s1 ∧
        bufferOf s1 p = bufferOf s p ++
          (",extent,".toList ++ decimal (env.getDecomposedSpellingLoc begin_) ++ [':'] ++
            decimal (env.getDecomposedSpellingLoc
              (env.getLocForEndOfToken (if !end_.isValid then begin_ else end_)))) ∧
        ∀ q, q ≠ p → bufferOf s1 q = bufferOf s q) := by
  refine ⟨?_, ?_⟩
  · intro h
    unfold printExtent
    simp only
    rw [if_pos]
    simp only [Bool.or_eq_true]
    exact h
  · intro h1 h2
    obtain ⟨s1, hrun, _, hw⟩ := printExtent_spec env hwf hout begin_ end_
    rw [if_neg (by rw [h1, h2]; decide)] at hw
    refine ⟨s1, hrun, ?_, ?_⟩
    · rw [hw.2.2.2 p]
      simp
    · intro q hq
      rw [hw.2.2.2 q]
      simp [hq]

/-! ## `getQualifiedName` -/

theorem appendParamTypes_pos : ∀ (ts : List Str) (ret : Str) (i : Nat), i ≠ 0 →
    appendParamTypes ret i ts = ret ++ sepJoin ts
  | [], ret, _, _ => by simp [appendParamTypes, sepJoin]
  | t :: ts, ret, i, hi => by
    rw [appendParamTypes, if_pos hi, appendParamTypes_pos ts _ (i + 1) (by omega), sepJoin]
    simp

theorem appendParamTypes_zero (ts : List Str) (ret : Str) :
    appendParamTypes ret 0 ts = ret ++ joined ts := by
  cases ts with
  | nil => simp [appendParamTypes, joined]
  | cons t ts =>
    rw [appendParamTypes, if_neg (by simp), appendParamTypes_pos ts _ 1 (by omega), joined]
    simp

theorem joined_append_dots (ts : List Str) :
    (if ts.length > 0 then joined ts ++ ", ".toList else joined ts) ++ "...".toList =
      joined (ts ++ ["...".toList]) := by
  cases ts with
  | nil => simp [joined, sepJoin]
  | cons t ts =>
    simp only [List.length_cons, gt_iff_lt, Nat.zero_lt_succ, if_true, joined, List.cons_append]
    have h : ∀ us : List Str, sepJoin us ++ ", ".toList ++ "...".toList =
        sepJoin (us ++ ["...".toList]) := by
      intro us
      induction us with
      | nil => simp [sepJoin]
      | cons u us ih =>
        simp only [sepJoin, List.cons_append, List.append_assoc] at ih ⊢
        rw [ih]
        rfl
    rw [← h ts]
    simp

theorem appendSignature_eq (ret : Str) (i : DeclInfo) :
    appendSignature ret i =
      ret ++ ['('] ++ i.signatureText ++ [')'] ++
        (if i.isConst then " const".toList else []) := by
  have hmid : (if i.hasPrototype then
        (if i.isVariadic then
          (if i.paramTypes.length > 0 then
            appendParamTypes (ret ++ ['(']) 0 i.paramTypes ++ ", ".toList
          else appendParamTypes (ret ++ ['(']) 0 i.paramTypes) ++ "...".toList
        else appendParamTypes (ret ++ ['(']) 0 i.paramTypes)
      else ret ++ ['(']) = ret ++ ['('] ++ i.signatureText := by
    unfold DeclInfo.signatureText DeclInfo.signatureItems
    by_cases hproto : i.hasPrototype = true
    · rw [if_pos hproto, if_pos hproto, appendParamTypes_zero]
      by_cases hv : i.isVariadic = true
      · rw [if_pos hv, if_pos hv, ← joined_append_dots]
        by_cases hl : i.paramTypes.length > 0
        · rw [if_pos hl, if_pos hl]
          simp
        · rw [if_neg hl, if_neg hl]
          simp
      · rw [if_neg hv, if_neg hv]
        simp
    · rw [if_neg hproto, if_neg hproto]
      simp
  unfold appendSignature
  simp only
  rw [hmid]
  by_cases hc : i.isConst = true
  · rw [if_pos hc, if_pos hc]
  · rw [if_neg hc, if_neg hc]
    simp

theorem signatureText_plain (i : DeclInfo) (h : i.plainSignature) :
    i.signatureText = joined i.signatureItems := by
  unfold DeclInfo.signatureText
  by_cases hproto : i.hasPrototype = true
  · rw [if_pos hproto]
  · rw [if_neg hproto]
    obtain ⟨h1, h2⟩ := h.1 (by simpa using hproto)
    unfold DeclInfo.signatureItems
    rw [h1, h2]
    rfl

theorem split_at_comma : ∀ (a b s t : Str), ',' ∉ a → ',' ∉ b →
    (s = [] ∨ s.head? = some ',') → (t = [] ∨ t.head? = some ',') →
    a ++ s = b ++ t → a = b ∧ s = t
  | [], [], _, _, _, _, _, _, h => ⟨rfl, by simpa using h⟩
  | [], d :: b, s, t, _, hb, hs, _, h => by
    exfalso
    simp only [List.nil_append, List.cons_append] at h
    rcases hs with hs | hs
    · rw [hs] at h
      cases h
    · rw [h] at hs
      simp only [List.head?_cons, Option.some.injEq] at hs
      exact hb (by simp [hs])
  | c :: a, [], s, t, ha, _, _, ht, h => by
    exfalso
    simp only [List.nil_append, List.cons_append] at h
    rcases ht with ht | ht
    · rw [ht] at h
      cases h
    · rw [← h] at ht
      simp only [List.head?_cons, Option.some.injEq] at ht
      exact ha (by simp [ht])
  | c :: a, d :: b, s, t, ha, hb, hs, ht, h => by
    simp only [List.cons_append, List.cons.injEq] at h
    obtain ⟨h1, h2⟩ := split_at_comma a b s t (fun e => ha (by simp [e]))
      (fun e => hb (by simp [e])) hs ht h.2
    exact ⟨by rw [h.1, h1], h2⟩

theorem sepJoin_head (ts : List Str) : sepJoin ts = [] ∨ (sepJoin ts).head? = some ',' := by
  cases ts with
  | nil => exact Or.inl rfl
  | cons t ts => exact Or.inr rfl

theorem sepJoin_injective : ∀ (xs ys : List Str), (∀ t ∈ xs, ',' ∉ t) → (∀ t ∈ ys, ',' ∉ t) →
    sepJoin xs = sepJoin ys → xs = ys
  | [], [], _, _, _ => rfl
  | [], y :: ys, _, _, h => by
    simp [sepJoin] at h
  | x :: xs, [], _, _, h => by
    simp [sepJoin] at h
  | x :: xs, y :: ys, hx, hy, h => by
    simp only [sepJoin, List.append_assoc, List.append_cancel_left_eq] at h
    obtain ⟨h1, h2⟩ := split_at_comma x y (sepJoin xs) (sepJoin ys) (hx x (by simp))
      (hy y (by simp)) (sepJoin_head xs) (sepJoin_head ys) h
    rw [h1, sepJoin_injective xs ys (fun t ht => hx t (by simp [ht]))
      (fun t ht => hy t (by simp [ht])) h2]

theorem joined_injective (xs ys : List Str) (hx : ∀ t ∈ xs, t ≠ [] ∧ ',' ∉ t)
    (hy : ∀ t ∈ ys, t ≠ [] ∧ ',' ∉ t) (h : joined xs = joined ys) : xs = ys := by
  cases xs with
  | nil =>
    cases ys with
    | nil => rfl
    | cons y ys =>
      exfalso
      have hne := (hy y (by simp)).1
      simp only [joined] at h
      cases y with
      | nil => exact hne rfl
      | cons c y => simp at h
  | cons x xs =>
    cases ys with
    | nil =>
      exfalso
      have hne := (hx x (by simp)).1
      simp only [joined] at h
      cases x with
      | nil => exact hne rfl
      | cons c x => simp at h
    | cons y ys =>
      simp only [joined] at h
      obtain ⟨h1, h2⟩ := split_at_comma x y (sepJoin xs) (sepJoin ys) (hx x (by simp)).2
        (hy y (by simp)).2 (sepJoin_head xs) (sepJoin_head ys) h
      rw [h1, sepJoin_injective xs ys (fun t ht => (hx t (by simp [ht])).2)
        (fun t ht => (hy t (by simp [ht])).2) h2]

theorem signatureItems_plain (i : DeclInfo) (h : i.plainSignature) :
    ∀ t ∈ i.signatureItems, t ≠ [] ∧ ',' ∉ t := by
  intro t ht
  unfold DeclInfo.signatureItems at ht
  rcases List.mem_append.1 ht with ht | ht
  · exact ⟨(h.2 t ht).1, (h.2 t ht).2.1⟩
  · by_cases hv : i.isVariadic = true
    · rw [if_pos hv] at ht
      simp only [List.mem_singleton] at ht
      subst ht
      exact ⟨by decide, by decide⟩
    · rw [if_neg hv] at ht
      simp at ht

theorem signatureItems_injective (i1 i2 : DeclInfo) (h1 : i1.plainSignature)
    (h2 : i2.plainSignature) (h : i1.signatureItems = i2.signatureItems) :
    i1.paramTypes = i2.paramTypes ∧ i1.isVariadic = i2.isVariadic := by
  unfold DeclInfo.signatureItems at h
  by_cases hv1 : i1.isVariadic = true <;> by_cases hv2 : i2.isVariadic = true
  · rw [if_pos hv1, if_pos hv2] at h
    exact ⟨List.append_cancel_right h, by rw [hv1, hv2]⟩
  · exfalso
    rw [if_pos hv1, if_neg hv2, List.append_nil] at h
    have : "...".toList ∈ i2.paramTypes := by
      rw [← h]
      simp
    exact (h2.2 _ this).2.2 rfl
  · exfalso
    rw [if_neg hv1, if_pos hv2, List.append_nil] at h
    have : "...".toList ∈ i1.paramTypes := by
      rw [h]
      simp
    exact (h1.2 _ this).2.2 rfl
  · rw [if_neg hv1, if_neg hv2, List.append_nil, List.append_nil] at h
    refine ⟨h, ?_⟩
    simp only [Bool.not_eq_true] at hv1 hv2
    rw [hv1, hv2]

theorem split_at_top_comma : ∀ (a b : Str) (depth : Nat) (s t : Str),
    bracketScan depth a = some 0 → bracketScan depth b = some 0 →
    (s = [] ∨ s.head? = some ',') → (t = [] ∨ t.head? = some ',') →
    a ++ s = b ++ t → a = b ∧ s = t
  | [], [], _, _, _, _, _, _, _, h => ⟨rfl, by simpa using h⟩
  | [], d :: b, depth, s, t, ha, hb, hs, _, h => by
    exfalso
    simp only [List.nil_append, List.cons_append] at h
    simp only [bracketScan, Option.some.injEq] at ha
    subst ha
    rcases hs with hs | hs
    · rw [hs] at h
      cases h
    · rw [h] at hs
      simp only [List.head?_cons, Option.some.injEq] at hs
      subst hs
      simp [bracketScan, bracketStep] at hb
  | c :: a, [], depth, s, t, ha, hb, _, ht, h => by
    exfalso
    simp only [List.nil_append, List.cons_append] at h
    simp only [bracketScan, Option.some.injEq] at hb
    subst hb
    rcases ht with ht | ht
    · rw [ht] at h
      cases h
    · rw [← h] at ht
      simp only [List.head?_cons, Option.some.injEq] at ht
      subst ht
      simp [bracketScan, bracketStep] at ha
  | c :: a, d :: b, depth, s, t, ha, hb, hs, ht, h => by
    simp only [List.cons_append, List.cons.injEq] at h
    obtain ⟨hcd, hrest⟩ := h
    subst hcd
    rw [bracketScan] at ha hb
    cases hstep : bracketStep depth c with
    | none =>
      rw [hstep] at ha
      cases ha
    | some depth1 =>
      rw [hstep] at ha hb
      obtain ⟨h1, h2⟩ := split_at_top_comma a b depth1 s t ha hb hs ht hrest
      exact ⟨by rw [h1], h2⟩

theorem sepJoin_injective_nested : ∀ (xs ys : List Str),
    (∀ t ∈ xs, bracketScan 0 t = some 0) → (∀ t ∈ ys, bracketScan 0 t = some 0) →
    sepJoin xs = sepJoin ys → xs = ys
  | [], [], _, _, _ => rfl
  | [], y :: ys, _, _, h => by
    simp [sepJoin] at h
  | x :: xs, [], _, _, h => by
    simp [sepJoin] at h
  | x :: xs, y :: ys, hx, hy, h => by
    simp only [sepJoin, List.append_assoc, List.append_cancel_left_eq] at h
    obtain ⟨h1, h2⟩ := split_at_top_comma x y 0 (sepJoin xs) (sepJoin ys) (hx x (by simp))
      (hy y (by simp)) (sepJoin_head xs) (sepJoin_head ys) h
    rw [h1, sepJoin_injective_nested xs ys (fun t ht => hx t (by simp [ht]))
      (fun t ht => hy t (by simp [ht])) h2]

theorem joined_injective_nested (xs ys : List Str)
    (hx : ∀ t ∈ xs, t ≠ [] ∧ bracketScan 0 t = some 0)
    (hy : ∀ t ∈ ys, t ≠ [] ∧ bracketScan 0 t = some 0) (h : joined xs = joined ys) :
    xs = ys := by
  cases xs with
  | nil =>
    cases ys with
    | nil => rfl
    | cons y ys =>
      exfalso
      have hne := (hy y (by simp)).1
      simp only [joined] at h
      cases y with
      | nil => exact hne rfl
      | cons c y => simp at h
  | cons x xs =>
    cases ys with
    | nil =>
      exfalso
      have hne := (hx x (by simp)).1
      simp only [joined] at h
      cases x with
      | nil => exact hne rfl
      | cons c x => simp at h
    | cons y ys =>
      simp only [joined] at h
      obtain ⟨h1, h2⟩ := split_at_top_comma x y 0 (sepJoin xs) (sepJoin ys)
        (hx x (by simp)).2 (hy y (by simp)).2 (sepJoin_head xs) (sepJoin_head ys) h
      rw [h1, sepJoin_injective_nested xs ys (fun t ht => (hx t (by simp [ht])).2)
        (fun t ht => (hy t (by simp [ht])).2) h2]

theorem signatureText_nested (i : DeclInfo) (h : i.nestedSignature) :
    i.signatureText = joined i.signatureItems := by
  unfold DeclInfo.signatureText
  by_cases hproto : i.hasPrototype = true
  · rw [if_pos hproto]
  · rw [if_neg hproto]
    obtain ⟨h1, h2⟩ := h.1 (by simpa using hproto)
    unfold DeclInfo.signatureItems
    rw [h1, h2]
    rfl

theorem signatureItems_nested (i : DeclInfo) (h : i.nestedSignature) :
    ∀ t ∈ i.signatureItems, t ≠ [] ∧ bracketScan 0 t = some 0 := by
  intro t ht
  unfold DeclInfo.signatureItems at ht
  rcases List.mem_append.1 ht with ht | ht
  · exact ⟨(h.2 t ht).1, (h.2 t ht).2.1⟩
  · by_cases hv : i.isVariadic = true
    · rw [if_pos hv] at ht
      simp only [List.mem_singleton] at ht
      subst ht
      exact ⟨by decide, by decide⟩
    · rw [if_neg hv] at ht
      simp at ht

theorem signatureItems_injective_of (i1 i2 : DeclInfo)
    (h1 : "...".toList ∉ i1.paramTypes) (h2 : "...".toList ∉ i2.paramTypes)
    (h : i1.signatureItems = i2.signatureItems) :
    i1.paramTypes = i2.paramTypes ∧ i1.isVariadic = i2.isVariadic := by
  unfold DeclInfo.signatureItems at h
  by_cases hv1 : i1.isVariadic = true <;> by_cases hv2 : i2.isVariadic = true
  · rw [if_pos hv1, if_pos hv2] at h
    exact ⟨List.append_cancel_right h, by rw [hv1, hv2]⟩
  · exfalso
    rw [if_pos hv1, if_neg hv2, List.append_nil] at h
    apply h2
    rw [← h]
    simp
  · exfalso
    rw [if_neg hv1, if_pos hv2, List.append_nil] at h
    apply h1
    rw [h]
    simp
  · rw [if_neg hv1, if_neg hv2, List.append_nil, List.append_nil] at h
    refine ⟨h, ?_⟩
    simp only [Bool.not_eq_true] at hv1 hv2
    rw [hv1, hv2]

theorem getQualifiedName_function (i : DeclInfo) (ctx up : Decl) (td : Option Decl)
    (hf : i.kind.isFunctionDecl = true) :
    getQualifiedName (.mk i ctx up td) =
      appendSignature (if ctx.info.kind.isFunctionOrMethod && ctx.info.kind.isNamedDecl then
        getQualifiedName ctx ++ "::".toList ++ i.nameAsString
      else i.qualifiedNameAsString) i := by
  rw [getQualifiedName]
  simp only [hf, if_true]

theorem getQualifiedName_nonfunction (i : DeclInfo) (ctx up : Decl) (td : Option Decl)
    (hf : i.kind.isFunctionDecl = false) :
    getQualifiedName (.mk i ctx up td) =
      (if ctx.info.kind.isFunctionOrMethod && ctx.info.kind.isNamedDecl then
        getQualifiedName ctx ++ "::".toList ++ i.nameAsString
      else i.qualifiedNameAsString) := by
  rw [getQualifiedName]
  simp only [hf, Bool.false_eq_true, if_false]

theorem isFunctionDecl_context {k : DeclKind} (h : k.isFunctionDecl = true) :
    (k.isFunctionOrMethod && k.isNamedDecl) = true := by
  cases k <;> first | rfl | cases h

/-- C2 (amended).  Two function declarations with the same simple name in the
same scope (the same context and the same frontend qualified name) whose
const qualification differs always get different `getQualifiedName` strings;
when the const qualification is the same and the parameter lists of both can
be read back from their text (every parameter type string is non-empty and
not `...`, a function without prototype has no parameters, and either no
parameter type string of the two has a comma, or every one has its commas
inside brackets and closes the brackets it opens), a different list of
parameter type strings or a different variadic flag gives different strings. -/
theorem getQualifiedName_overloads (i1 i2 : DeclInfo) (ctx up1 up2 : Decl)
    (td1 td2 : Option Decl)
    (hf1 : i1.kind.isFunctionDecl = true) (hf2 : i2.kind.isFunctionDecl = true)
    (hname : i1.nameAsString = i2.nameAsString)
    (hqual : i1.qualifiedNameAsString = i2.qualifiedNameAsString)
    (hplain : i1.isConst = i2.isConst →
      (i1.plainSignature ∧ i2.plainSignature) ∨ (i1.nestedSignature ∧ i2.nestedSignature))
    (hdiff : i1.paramTypes ≠ i2.paramTypes ∨ i1.isVariadic ≠ i2.isVariadic ∨
      i1.isConst ≠ i2.isConst) :
    getQualifiedName (.mk i1 ctx up1 td1) ≠ getQualifiedName (.mk i2 ctx up2 td2) := by
  intro h
  rw [getQualifiedName_function i1 ctx up1 td1 hf1, getQualifiedName_function i2 ctx up2 td2 hf2,
    appendSignature_eq, appendSignature_eq, hname, hqual] at h
  simp only [List.append_assoc, List.append_cancel_left_eq] at h
  by_cases hc : i1.isConst = i2.isConst
  · rw [hc] at h
    have h1 : i1.signatureText = i2.signatureText := List.append_cancel_right h
    have h34 : i1.paramTypes = i2.paramTypes ∧ i1.isVariadic = i2.isVariadic := by
      rcases hplain hc with ⟨hp1, hp2⟩ | ⟨hp1, hp2⟩
      · rw [signatureText_plain i1 hp1, signatureText_plain i2 hp2] at h1
        have h2 := joined_injective _ _ (signatureItems_plain i1 hp1)
          (signatureItems_plain i2 hp2) h1
        exact signatureItems_injective i1 i2 hp1 hp2 h2
      · rw [signatureText_nested i1 hp1, signatureText_nested i2 hp2] at h1
        have h2 := joined_injective_nested _ _ (signatureItems_nested i1 hp1)
          (signatureItems_nested i2 hp2) h1
        exact signatureItems_injective_of i1 i2 (fun e => (hp1.2 _ e).2.2 rfl)
          (fun e => (hp2.2 _ e).2.2 rfl) h2
    rcases hdiff with hd | hd | hd
    · exact hd h34.1
    · exact hd h34.2
    · exact hd hc
  · have hlast := congrArg List.getLast? h
    by_cases hc1 : i1.isConst = true
    · have hc2 : i2.isConst = false := by
        cases h2 : i2.isConst
        · rfl
        · exact absurd (hc1.trans h2.symm) hc
      rw [hc1, hc2] at hlast
      simp at hlast
    · have hc1' : i1.isConst = false := by simpa using hc1
      have hc2 : i2.isConst = true := by
        cases h2 : i2.isConst
        · exact absurd (hc1'.trans h2.symm) hc
        · rfl
      rw [hc1', hc2] at hlast
      simp at hlast

/-- C3 (amended).  A local variable whose immediate enclosing context is a
function is named `<getQualifiedName of that function>::<simple name>`, so two
locals with the same simple name in two functions get different strings
exactly when `getQualifiedName` of the two functions differs. -/
theorem getQualifiedName_locals (i1 i2 : DeclInfo) (f1 f2 up1 up2 : Decl)
    (td1 td2 : Option Decl)
    (hk1 : f1.info.kind.isFunctionDecl = true) (hk2 : f2.info.kind.isFunctionDecl = true)
    (hv1 : i1.kind.isFunctionDecl = false) (hv2 : i2.kind.isFunctionDecl = false)
    (hname : i1.nameAsString = i2.nameAsString) :
    getQualifiedName (.mk i1 f1 up1 td1) =
        getQualifiedName f1 ++ "::".toList ++ i1.nameAsString ∧
      getQualifiedName (.mk i2 f2 up2 td2) =
        getQualifiedName f2 ++ "::".toList ++ i2.nameAsString ∧
      (getQualifiedName (.mk i1 f1 up1 td1) ≠ getQualifiedName (.mk i2 f2 up2 td2) ↔
        getQualifiedName f1 ≠ getQualifiedName f2) := by
  have e1 : getQualifiedName (.mk i1 f1 up1 td1) =
      getQualifiedName f1 ++ "::".toList ++ i1.nameAsString := by
    rw [getQualifiedName_nonfunction i1 f1 up1 td1 hv1, if_pos (isFunctionDecl_context hk1)]
  have e2 : getQualifiedName (.mk i2 f2 up2 td2) =
      getQualifiedName f2 ++ "::".toList ++ i2.nameAsString := by
    rw [getQualifiedName_nonfunction i2 f2 up2 td2 hv2, if_pos (isFunctionDecl_context hk2)]
  refine ⟨e1, e2, ?_⟩
  rw [e1, e2, hname]
  constructor
  · intro h e
    exact h (by rw [e])
  · intro h e
    apply h
    have := List.append_cancel_right e
    exact List.append_cancel_right this

/-! ## `getFileInfo`: one `FileInfo` per canonical path -/

theorem realstr_idem (env : Env)
    (hI : ∀ path real, env.realpath path = some real → env.realpath real = some real)
    (k : Str) : realstr env (realstr env k) = realstr env k := by
  unfold realstr
  cases h : env.realpath k with
  | none => simp only [h]
  | some real => simp only [hI k real h]

theorem getFileInfo_cases (env : Env) (s : State) (f : Str) :
    (∃ p, mapFind s.relmap f = some p ∧ getFileInfo env s f = (s, p)) ∨
    (∃ q, mapFind s.relmap f = none ∧ mapFind s.relmap (realstr env f) = some q ∧
      getFileInfo env s f = ({ s with relmap := mapInsert s.relmap f q }, q)) ∨
    (mapFind s.relmap f = none ∧ mapFind s.relmap (realstr env f) = none ∧
      getFileInfo env s f =
        ({ s with
            files := s.files ++ [FileInfo.FileInfo env.srcdir env.output (realstr env f)],
            relmap := mapInsert (mapInsert s.relmap (realstr env f) s.files.length) f
              s.files.length },
          s.files.length)) := by
  unfold getFileInfo
  cases h1 : mapFind s.relmap f with
  | some p => exact Or.inl ⟨p, rfl, rfl⟩
  | none =>
    cases h2 : mapFind s.relmap (realstr env f) with
    | some q => exact Or.inr (Or.inl ⟨q, rfl, rfl, rfl⟩)
    | none => exact Or.inr (Or.inr ⟨rfl, rfl, rfl⟩)

theorem getFileInfo_mono (env : Env) (s : State) (f : Str) (k : Str) (p : Nat)
    (h : mapFind s.relmap k = some p) : mapFind (getFileInfo env s f).1.relmap k = some p := by
  rcases getFileInfo_cases env s f with ⟨q, _, e⟩ | ⟨q, _, _, e⟩ | ⟨_, _, e⟩
  · rw [e]
    exact h
  · rw [e]
    show mapFind (mapInsert s.relmap f q) k = some p
    rw [mapFind_mapInsert, h]
  · rw [e]
    show mapFind (mapInsert (mapInsert s.relmap (realstr env f) s.files.length) f
      s.files.length) k = some p
    rw [mapFind_mapInsert, mapFind_mapInsert, h]

theorem lookups_mono (env : Env) : ∀ (fs : List Str) (s : State) (k : Str) (p : Nat),
    mapFind s.relmap k = some p → mapFind (lookups env s fs).relmap k = some p
  | [], _, _, _, h => h
  | f :: fs, s, k, p, h => lookups_mono env fs _ k p (getFileInfo_mono env s f k p h)

theorem getFileInfo_pointer (env : Env) (s : State) (f : Str)
    (ha : ∀ k p, mapFind s.relmap k = some p → mapFind s.relmap (realstr env k) = some p) :
    mapFind (getFileInfo env s f).1.relmap (realstr env f) = some (getFileInfo env s f).2 := by
  rcases getFileInfo_cases env s f with ⟨q, h1, e⟩ | ⟨q, _, h2, e⟩ | ⟨_, h2, e⟩
  · rw [e]
    exact ha f q h1
  · rw [e]
    show mapFind (mapInsert s.relmap f q) (realstr env f) = some q
    rw [mapFind_mapInsert, h2]
  · rw [e]
    show mapFind (mapInsert (mapInsert s.relmap (realstr env f) s.files.length) f
      s.files.length) (realstr env f) = some s.files.length
    rw [mapFind_mapInsert, mapFind_mapInsert, h2]
    simp

theorem LookupInv.init (env : Env) : LookupInv env [] State.init := by
  refine ⟨?_, ?_, ?_, ?_⟩
  · intro k p h
    simp [State.init, mapFind] at h
  · intro f hf
    simp at hf
  · intro k p h
    simp [State.init, mapFind] at h
  · simp [State.init]

theorem card_snoc_of_mem (env : Env) (hist : List Str) (f : Str)
    (h : realstr env f ∈ hist.map (realstr env)) :
    ((hist ++ [f]).map (realstr env)).toFinset.card = (hist.map (realstr env)).toFinset.card := by
  have : ((hist ++ [f]).map (realstr env)).toFinset = (hist.map (realstr env)).toFinset := by
    ext x
    simp only [List.map_append, List.map_cons, List.map_nil, List.toFinset_append,
      List.toFinset_cons, List.toFinset_nil, Finset.mem_union, List.mem_toFinset,
      Finset.mem_insert, Finset.not_mem_empty, or_false]
    constructor
    · rintro (hx | hx)
      · exact hx
      · rw [hx]; exact h
    · intro hx
      exact Or.inl hx
  rw [this]

theorem card_snoc_of_not_mem (env : Env) (hist : List Str) (f : Str)
    (h : realstr env f ∉ hist.map (realstr env)) :
    ((hist ++ [f]).map (realstr env)).toFinset.card =
      (hist.map (realstr env)).toFinset.card + 1 := by
  have : ((hist ++ [f]).map (realstr env)).toFinset =
      insert (realstr env f) (hist.map (realstr env)).toFinset := by
    ext x
    simp only [List.map_append, List.map_cons, List.map_nil, List.toFinset_append,
      List.toFinset_cons, List.toFinset_nil, Finset.mem_union, List.mem_toFinset,
      Finset.mem_insert, Finset.not_mem_empty, or_false]
    exact or_comm
  rw [this, Finset.card_insert_of_not_mem]
  simpa using h

theorem LookupInv.step (env : Env)
    (hI : ∀ path real, env.realpath path = some real → env.realpath real = some real)
    (hist : List Str) (s : State) (f : Str) (h : LookupInv env hist s) :
    LookupInv env (hist ++ [f]) (getFileInfo env s f).1 := by
  obtain ⟨ha, hb, hc, hd⟩ := h
  have hmem_old : ∀ x, x ∈ hist.map (realstr env) → x ∈ (hist ++ [f]).map (realstr env) := by
    intro x hx
    simp only [List.map_append, List.mem_append]
    exact Or.inl hx
  have hmem_new : realstr env f ∈ (hist ++ [f]).map (realstr env) := by
    simp
  rcases getFileInfo_cases env s f with ⟨q, h1, e⟩ | ⟨q, h1, h2, e⟩ | ⟨h1, h2, e⟩
  · rw [e]
    refine ⟨ha, ?_, fun k p hk => hmem_old _ (hc k p hk), ?_⟩
    · intro g hg
      rcases List.mem_append.1 hg with hg | hg
      · exact hb g hg
      · simp only [List.mem_singleton] at hg
        rw [hg, ha f q h1]
        simp
    · rw [card_snoc_of_mem env hist f (hc f q h1)]
      exact hd
  · rw [e]
    have hfind : ∀ k, mapFind (mapInsert s.relmap f q) k =
        match mapFind s.relmap k with
        | some p => some p
        | none => if f = k then some q else none := fun k => mapFind_mapInsert _ _ _ _
    refine ⟨?_, ?_, ?_, ?_⟩
    · intro k p hk
      show mapFind (mapInsert s.relmap f q) (realstr env k) = some p
      have hk' : mapFind (mapInsert s.relmap f q) k = some p := hk
      rw [hfind] at hk'
      cases hmk : mapFind s.relmap k with
      | some p' =>
        rw [hmk] at hk'
        simp only [Option.some.injEq] at hk'
        rw [hfind, ha k p' hmk, hk']
      | none =>
        rw [hmk] at hk'
        by_cases hfk : f = k
        · rw [if_pos hfk] at hk'
          simp only [Option.some.injEq] at hk'
          rw [hfind, ← hfk, h2, hk']
        · rw [if_neg hfk] at hk'
          cases hk'
    · intro g hg
      show mapFind (mapInsert s.relmap f q) (realstr env g) ≠ none
      rcases List.mem_append.1 hg with hg | hg
      · have := hb g hg
        cases hm : mapFind s.relmap (realstr env g) with
        | none => exact absurd hm this
        | some p' => rw [hfind, hm]; simp
      · simp only [List.mem_singleton] at hg
        rw [hg, hfind, h2]
        simp
    · intro k p hk
      have hk' : mapFind (mapInsert s.relmap f q) k = some p := hk
      rw [hfind] at hk'
      cases hmk : mapFind s.relmap k with
      | some p' => exact hmem_old _ (hc k p' hmk)
      | none =>
        rw [hmk] at hk'
        by_cases hfk : f = k
        · rw [← hfk]
          exact hmem_new
        · rw [if_neg hfk] at hk'
          cases hk'
    · have hR : realstr env f ∈ hist.map (realstr env) := by
        have := hc (realstr env f) q h2
        rw [realstr_idem env hI] at this
        exact this
      rw [card_snoc_of_mem env hist f hR]
      exact hd
  · rw [e]
    have hfind : ∀ k, mapFind (mapInsert (mapInsert s.relmap (realstr env f) s.files.length) f
        s.files.length) k =
        match mapFind s.relmap k with
        | some p => some p
        | none => if realstr env f = k ∨ f = k then some s.files.length else none := by
      intro k
      rw [mapFind_mapInsert, mapFind_mapInsert]
      cases mapFind s.relmap k with
      | some p => rfl
      | none =>
        by_cases e1 : realstr env f = k
        · simp [e1]
        · by_cases e2 : f = k
          · subst e2
            simp [e1]
          · simp [e1, e2]
    have hRR : mapFind (mapInsert (mapInsert s.relmap (realstr env f) s.files.length) f
        s.files.length) (realstr env f) = some s.files.length := by
      rw [hfind, h2]
      simp
    refine ⟨?_, ?_, ?_, ?_⟩
    · intro k p hk
      show mapFind (mapInsert (mapInsert s.relmap (realstr env f) s.files.length) f
        s.files.length) (realstr env k) = some p
      have hk' : mapFind (mapInsert (mapInsert s.relmap (realstr env f) s.files.length) f
        s.files.length) k = some p := hk
      rw [hfind] at hk'
      cases hmk : mapFind s.relmap k with
      | some p' =>
        rw [hmk] at hk'
        simp only [Option.some.injEq] at hk'
        rw [hfind, ha k p' hmk, hk']
      | none =>
        rw [hmk] at hk'
        by_cases hfk : realstr env f = k ∨ f = k
        · rw [if_pos hfk] at hk'
          simp only [Option.some.injEq] at hk'
          have hrk : realstr env k = realstr env f := by
            rcases hfk with hfk | hfk
            · rw [← hfk, realstr_idem env hI]
            · rw [hfk]
          rw [hrk, hRR, hk']
        · rw [if_neg hfk] at hk'
          cases hk'
    · intro g hg
      show mapFind (mapInsert (mapInsert s.relmap (realstr env f) s.files.length) f
        s.files.length) (realstr env g) ≠ none
      rcases List.mem_append.1 hg with hg | hg
      · have := hb g hg
        cases hm : mapFind s.relmap (realstr env g) with
        | none => exact absurd hm this
        | some p' => rw [hfind, hm]; simp
      · simp only [List.mem_singleton] at hg
        rw [hg, hRR]
        simp
    · intro k p hk
      have hk' : mapFind (mapInsert (mapInsert s.relmap (realstr env f) s.files.length) f
        s.files.length) k = some p := hk
      rw [hfind] at hk'
      cases hmk : mapFind s.relmap k with
      | some p' => exact hmem_old _ (hc k p' hmk)
      | none =>
        rw [hmk] at hk'
        by_cases hfk : realstr env f = k ∨ f = k
        · have hrk : realstr env k = realstr env f := by
            rcases hfk with hfk | hfk
            · rw [← hfk, realstr_idem env hI]
            · rw [hfk]
          rw [hrk]
          exact hmem_new
        · rw [if_neg hfk] at hk'
          cases hk'
    · have hR : realstr env f ∉ hist.map (realstr env) := by
        intro hmem
        obtain ⟨g, hg, hgr⟩ := List.mem_map.1 hmem
        have := hb g hg
        rw [hgr] at this
        exact this h2
      rw [card_snoc_of_not_mem env hist f hR]
      simp only [List.length_append, List.length_singleton]
      rw [hd]

theorem LookupInv.lookups (env : Env)
    (hI : ∀ path real, env.realpath path = some real → env.realpath real = some real) :
    ∀ (fs hist : List Str) (s : State), LookupInv env hist s →
      LookupInv env (hist ++ fs) (lookups env s fs)
  | [], hist, s, h => by simpa [Dxr.lookups] using h
  | f :: fs, hist, s, h => by
    have := LookupInv.lookups env hI fs (hist ++ [f]) _ (LookupInv.step env hI hist s f h)
    simpa [Dxr.lookups] using this

/-- C7.  Provided `realpath` maps each of its results to itself: after any
file names `before` have been looked up, `getFileInfo` of a name `F` returns a
pointer that every later `getFileInfo` of a name `G` with the same canonical
path (`realpath`, or the raw string when `realpath` fails) returns again,
whatever names are looked up in between; so `F` and its canonical path resolve
to one `FileInfo`.  And the number of `FileInfo` objects created by looking up
`before` is the number of distinct canonical paths among them. -/
theorem getFileInfo_one_per_canonical_path (env : Env)
    (hI : ∀ path real, env.realpath path = some real → env.realpath real = some real)
    (before between : List Str) (F G : Str) (hFG : realstr env F = realstr env G) :
    (getFileInfo env
        (lookups env (getFileInfo env (lookups env State.init before) F).1 between) G).2 =
      (getFileInfo env (lookups env State.init before) F).2 ∧
    (getFileInfo env
        (lookups env (getFileInfo env (lookups env State.init before) F).1 between)
        (realstr env F)).2 =
      (getFileInfo env (lookups env State.init before) F).2 ∧
    (lookups env State.init before).files.length =
      (before.map (realstr env)).toFinset.card := by
  have h1 : LookupInv env before (lookups env State.init before) := by
    have := LookupInv.lookups env hI before [] State.init (LookupInv.init env)
    simpa using this
  have h2 := LookupInv.step env hI before _ F h1
  have h3 := LookupInv.lookups env hI between _ _ h2
  have hF := getFileInfo_pointer env (lookups env State.init before) F h1.1
  have hF2 := lookups_mono env between _ _ _ hF
  have key : ∀ G, realstr env F = realstr env G →
      (getFileInfo env
        (lookups env (getFileInfo env (lookups env State.init before) F).1 between) G).2 =
      (getFileInfo env (lookups env State.init before) F).2 := by
    intro G hG
    have hG1 := getFileInfo_pointer env
      (lookups env (getFileInfo env (lookups env State.init before) F).1 between) G h3.1
    have hG2 := getFileInfo_mono env
      (lookups env (getFileInfo env (lookups env State.init before) F).1 between) G _ _ hF2
    rw [hG, hG1] at hG2
    exact Option.some.inj hG2
  exact ⟨key G hFG, key (realstr env F) (realstr_idem env hI F).symm, h1.2.2.2⟩

/-! ## Writing the files at the end of the translation unit -/

theorem createExclusive_extends (st : Storage) (filename content : Str) :
    st <+: createExclusive st filename content := by
  unfold createExclusive
  split
  · exact List.prefix_refl st
  · exact List.prefix_append st _

theorem createExclusive_mem (st : Storage) (filename content : Str) :
    filename ∈ (createExclusive st filename content).map Prod.fst := by
  unfold createExclusive
  split
  · assumption
  · simp

theorem createExclusive_nodup (st : Storage) (filename content : Str)
    (h : (st.map Prod.fst).Nodup) : ((createExclusive st filename content).map Prod.fst).Nodup := by
  unfold createExclusive
  split
  · exact h
  · rename_i hn
    rw [List.map_append, List.nodup_append]
    refine ⟨h, by simp, ?_⟩
    intro a ha hb
    simp only [List.map_cons, List.map_nil, List.mem_singleton] at hb
    exact hn (hb ▸ ha)

theorem createExclusive_of_mem (st : Storage) (filename content : Str)
    (h : filename ∈ st.map Prod.fst) : createExclusive st filename content = st := by
  unfold createExclusive
  rw [if_pos h]

theorem emitFile_extends (env : Env) (st : Storage) (fi : FileInfo) :
    st <+: emitFile env st fi := by
  unfold emitFile
  split
  · exact List.prefix_refl st
  · simp only
    split
    · exact List.prefix_refl st
    · exact createExclusive_extends _ _ _

theorem emitFile_nodup (env : Env) (st : Storage) (fi : FileInfo)
    (h : (st.map Prod.fst).Nodup) : ((emitFile env st fi).map Prod.fst).Nodup := by
  unfold emitFile
  split
  · exact h
  · simp only
    split
    · exact h
    · exact createExclusive_nodup _ _ _ h

theorem emitFile_mem (env : Env) (st : Storage) (fi : FileInfo) (hi : fi.interesting = true)
    (hne : fi.info ≠ []) :
    outputFilename env fi.realname fi.info ∈ (emitFile env st fi).map Prod.fst := by
  unfold emitFile
  rw [if_neg (by simp [hi])]
  simp only
  rw [if_neg (by simpa using hne)]
  exact createExclusive_mem _ _ _

theorem emitFile_of_mem (env : Env) (st : Storage) (fi : FileInfo)
    (h : fi.interesting = true → fi.info ≠ [] →
      outputFilename env fi.realname fi.info ∈ st.map Prod.fst) :
    emitFile env st fi = st := by
  unfold emitFile
  by_cases hi : fi.interesting = true
  · rw [if_neg (by simp [hi])]
    simp only
    by_cases hne : fi.info = []
    · rw [if_pos (by simp [hne])]
    · rw [if_neg (by simpa using hne)]
      exact createExclusive_of_mem _ _ _ (h hi hne)
  · rw [if_pos (by simpa using hi)]

theorem emitAllFiles_spec (env : Env) (s : State) :
    ∀ (entries : List (Str × Nat)) (st : Storage),
      (∀ kp ∈ entries, kp.2 < s.files.length) →
      ∃ st1, emitAllFiles env s entries st = some st1 ∧ st <+: st1 ∧
        ((st.map Prod.fst).Nodup → (st1.map Prod.fst).Nodup) ∧
        ∀ kp ∈ entries, ∀ fi, s.files[kp.2]? = some fi → fi.interesting = true →
          fi.info ≠ [] → outputFilename env fi.realname fi.info ∈ st1.map Prod.fst
  | [], st, _ => ⟨st, rfl, List.prefix_refl st, fun h => h, fun kp hkp => by simp at hkp⟩
  | (k, p) :: rest, st, hv => by
    have hp : p < s.files.length := hv (k, p) (by simp)
    have hget : s.files[p]? = some s.files[p] := List.getElem?_eq_getElem hp
    obtain ⟨st1, hrun, hpre, hnd, hmem⟩ := emitAllFiles_spec env s rest
      (emitFile env st s.files[p]) (fun kp hkp => hv kp (by simp [hkp]))
    refine ⟨st1, ?_, (emitFile_extends env st _).trans hpre,
      fun h => hnd (emitFile_nodup env st _ h), ?_⟩
    · rw [emitAllFiles, hget]
      exact hrun
    · intro kp hkp fi hfi hi hne
      rcases List.mem_cons.1 hkp with hkp | hkp
      · subst hkp
        simp only at hfi
        rw [hget] at hfi
        injection hfi with hfi
        subst hfi
        have h1 := emitFile_mem env st s.files[p] hi hne
        exact (List.IsPrefix.map Prod.fst hpre).subset h1
      · exact hmem kp hkp fi hfi hi hne

theorem emitAllFiles_fixed (env : Env) (s : State) :
    ∀ (entries : List (Str × Nat)) (st : Storage),
      (∀ kp ∈ entries, kp.2 < s.files.length) →
      (∀ kp ∈ entries, ∀ fi, s.files[kp.2]? = some fi → fi.interesting = true →
        fi.info ≠ [] → outputFilename env fi.realname fi.info ∈ st.map Prod.fst) →
      emitAllFiles env s entries st = some st
  | [], _, _, _ => rfl
  | (k, p) :: rest, st, hv, hmem => by
    have hp : p < s.files.length := hv (k, p) (by simp)
    have hget : s.files[p]? = some s.files[p] := List.getElem?_eq_getElem hp
    rw [emitAllFiles, hget]
    simp only
    rw [emitFile_of_mem env st _ (fun hi hne => hmem (k, p) (by simp) _ hget hi hne)]
    exact emitAllFiles_fixed env s rest st (fun kp hkp => hv kp (by simp [hkp]))
      (fun kp hkp => hmem kp (by simp [hkp]))

theorem one_entry_of_nodup (name : Str) : ∀ (st : Storage), (st.map Prod.fst).Nodup →
    name ∈ st.map Prod.fst → (st.filter (fun e => decide (e.1 = name))).length = 1
  | [], _, h => by simp at h
  | (n, c) :: rest, hnd, h => by
    simp only [List.map_cons, List.nodup_cons] at hnd
    by_cases e : n = name
    · subst e
      have hnone : rest.filter (fun e => decide (e.1 = n)) = [] := by
        rw [List.filter_eq_nil_iff]
        intro a ha
        simp only [decide_eq_true_eq]
        intro hn
        exact hnd.1 (hn ▸ List.mem_map_of_mem Prod.fst ha)
      simp [List.filter_cons, hnone]
    · have hmem : name ∈ rest.map Prod.fst := by
        simp only [List.map_cons, List.mem_cons] at h
        rcases h with h | h
        · exact absurd h.symm e
        · exact h
      simp only [List.filter_cons, e, decide_False, Bool.false_eq_true, if_false]
      exact one_entry_of_nodup name rest hnd.2 hmem

/-- C6.  The flush at the end of `HandleTranslationUnit` returns without
error and is idempotent on storage (a directory with one entry per file
name): it leaves every file that existed as it was, and afterwards exactly
one file named `tmpdir + hash(realname) + "." + hash(content) + ".csv"` exists
for every interesting record with content, also when the record is reachable
under several keys of `relmap`; flushing again, from the same run or from
another run whose `(realname, content)` pairs were all flushed already,
changes nothing. -/
theorem HandleTranslationUnit_idempotent (env : Env) (s : State) (st : Storage) (hwf : s.WF)
    (hnd : (st.map Prod.fst).Nodup) :
    ∃ st1, HandleTranslationUnit env s st = some st1 ∧ st <+: st1 ∧
      (st1.map Prod.fst).Nodup ∧
      (∀ kp ∈ s.relmap, ∀ fi, s.files[kp.2]? = some fi → fi.interesting = true →
        fi.info ≠ [] →
        (st1.filter
          (fun e => decide (e.1 = outputFilename env fi.realname fi.info))).length = 1) ∧
      HandleTranslationUnit env s st1 = some st1 ∧
      (∀ s2 : State, s2.WF →
        (∀ kp ∈ s2.relmap, ∀ fi, s2.files[kp.2]? = some fi → fi.interesting = true →
          fi.info ≠ [] →
          ∃ kq ∈ s.relmap, ∃ fj, s.files[kq.2]? = some fj ∧ fj.interesting = true ∧
            fj.realname = fi.realname ∧ fj.info = fi.info) →
        HandleTranslationUnit env s2 st1 = some st1) := by
  obtain ⟨st1, hrun, hpre, hnd1, hmem⟩ := emitAllFiles_spec env s s.relmap st hwf.2.2.1
  refine ⟨st1, hrun, hpre, hnd1 hnd, ?_, ?_, ?_⟩
  · intro kp hkp fi hfi hi hne
    exact one_entry_of_nodup _ st1 (hnd1 hnd) (hmem kp hkp fi hfi hi hne)
  · exact emitAllFiles_fixed env s s.relmap st1 hwf.2.2.1 hmem
  · intro s2 hwf2 hsame
    refine emitAllFiles_fixed env s2 s2.relmap st1 hwf2.2.2.1 ?_
    intro kp hkp fi hfi hi hne
    obtain ⟨kq, hkq, fj, hfj, hji, hr, hc⟩ := hsame kp hkp fi hfi hi hne
    have := hmem kq hkq fj hfj hji (by rw [hc]; exact hne)
    rw [hr, hc] at this
    exact this

/-! ## The definitions at work on the example -/

theorem exampleState_WF : exampleState.WF := by
  decide

theorem exampleRealpath_idem (path real : Str) (h : exampleRealpath path = some real) :
    exampleRealpath real = some real := by
  unfold exampleRealpath at h
  split at h
  · injection h with h
    subst h
    decide
  · split at h
    · injection h with h
      subst h
      decide
    · split at h
      · injection h with h
        subst h
        decide
      · cases h


theorem VisitCallExpr_calltype_witness :
    exampleState.WF ∧
    interestingLocation exampleEnv exampleState exampleCall.locStart =
      some (exampleState, true) ∧
    exampleCall.calleeDecl = some exampleMethod ∧
    interestingLocation exampleEnv exampleState exampleMethod.info.location =
      some (exampleState, true) ∧
    exampleMethod.info.kind.isNamedDecl = true ∧
    ∃ s2 middle ct, VisitCallExpr exampleEnv exampleState exampleCall = some s2 ∧
      bufferOf s2
          (getFileInfo exampleEnv exampleState
            (exampleEnv.getPresumedLoc exampleCall.locStart).filename).2 =
        bufferOf exampleState
            (getFileInfo exampleEnv exampleState
              (exampleEnv.getPresumedLoc exampleCall.locStart).filename).2 ++
          ("call".toList ++ middle ++ field "calltype".toList ct ++ ['\n']) ∧
      (exampleMethod.info.kind.isCXXMethodDecl = true → exampleMethod.info.isVirtual = true →
        exampleCall.callee = CalleeExpr.MemberExpr false → ct = "virtual".toList) ∧
      (exampleMethod.info.kind.isCXXMethodDecl = true → exampleMethod.info.isVirtual = true →
        exampleCall.callee = CalleeExpr.MemberExpr true → ct = "static".toList) ∧
      (exampleMethod.info.kind.isFunctionDecl = false →
        exampleMethod.info.kind.isCXXMethodDecl = false → ct = "funcptr".toList) :=
  ⟨exampleState_WF, rfl, rfl, rfl, rfl,
    VisitCallExpr_calltype exampleEnv exampleState exampleState exampleState exampleCall
      exampleMethod exampleState_WF rfl rfl rfl rfl⟩

theorem printExtent_extent_witness :
    exampleState.WF ∧ exampleState.out = some 0 ∧
    (((exampleLoc 5).isMacroID = true ∨
        (if !(exampleLoc 8).isValid then exampleLoc 5 else exampleLoc 8).isMacroID = true) →
      printExtent exampleEnv exampleState (exampleLoc 5) (exampleLoc 8) = some exampleState) ∧
    ((exampleLoc 5).isMacroID = false →
      (if !(exampleLoc 8).isValid then exampleLoc 5 else exampleLoc 8).isMacroID = false →
      ∃ s1, printExtent exampleEnv exampleState (exampleLoc 5) (exampleLoc 8) = some s1 ∧
        bufferOf s1 0 = bufferOf exampleState 0 ++
          (",extent,".toList ++
            decimal (exampleEnv.getDecomposedSpellingLoc (exampleLoc 5)) ++ [':'] ++
            decimal (exampleEnv.getDecomposedSpellingLoc
              (exampleEnv.getLocForEndOfToken
                (if !(exampleLoc 8).isValid then exampleLoc 5 else exampleLoc 8)))) ∧
        ∀ q, q ≠ 0 → bufferOf s1 q = bufferOf exampleState q) :=
  ⟨exampleState_WF, rfl,
    printExtent_extent exampleEnv exampleState 0 (exampleLoc 5) (exampleLoc 8) exampleState_WF
      rfl⟩

theorem VisitTagDecl_name_from_typedef_witness :
    exampleState.WF ∧
    interestingLocation exampleEnv exampleState (exampleInfo .Record 5 "" "" []).location =
      some (exampleState, true) ∧
    (exampleInfo .Record 5 "" "" []).isThisDeclarationADefinition = true ∧
    ∃ s1 name qualname rest,
      VisitTagDecl exampleEnv exampleState
          (.mk (exampleInfo .Record 5 "" "" []) .translationUnit .translationUnit
            (some exampleTypedef)) = some s1 ∧
      bufferOf s1
          (getFileInfo exampleEnv exampleState
            (exampleEnv.getPresumedLoc (exampleInfo .Record 5 "" "" []).location).filename).2 =
        bufferOf exampleState
            (getFileInfo exampleEnv exampleState
              (exampleEnv.getPresumedLoc
                (exampleInfo .Record 5 "" "" []).location).filename).2 ++
          ("type".toList ++ field "name".toList name ++ field "qualname".toList qualname ++
            rest) ∧
      (∀ T, some exampleTypedef = some T →
        name = T.info.nameAsString ∧ qualname = getQualifiedName T) ∧
      (some exampleTypedef = none →
        name = (exampleInfo .Record 5 "" "" []).nameAsString ∧
        qualname = getQualifiedName
          (.mk (exampleInfo .Record 5 "" "" []) .translationUnit .translationUnit
            (some exampleTypedef))) :=
  ⟨exampleState_WF, rfl, rfl,
    VisitTagDecl_name_from_typedef exampleEnv exampleState exampleState
      (exampleInfo .Record 5 "" "" []) .translationUnit .translationUnit (some exampleTypedef)
      exampleState_WF rfl rfl⟩

theorem MacroDefined_fields_witness :
    exampleState.WF ∧ exampleMacro.isBuiltinMacro = false ∧
    interestingLocation exampleEnv exampleState exampleMacro.definitionLoc =
      some (exampleState, true) ∧
    exampleEnv.getCharacterData exampleMacro.definitionLoc =
      "ADD".toList ++ macroArgsText (some "a,b".toList) ++ " ".toList ++ "((a)+(b))".toList ++
        "\nint x;\n".toList ∧
    ∃ s1 loc ext, MacroDefined exampleEnv exampleState exampleMacro = some s1 ∧
      bufferOf s1
          (getFileInfo exampleEnv exampleState
            (exampleEnv.getPresumedLoc exampleMacro.definitionLoc).filename).2 =
        bufferOf exampleState
            (getFileInfo exampleEnv exampleState
              (exampleEnv.getPresumedLoc exampleMacro.definitionLoc).filename).2 ++
          ("macro".toList ++ field "loc".toList loc ++ field "name".toList "ADD".toList ++
            optionalField "args".toList
              ((some "a,b".toList).map (fun params => ['('] ++ params ++ [')'])) ++
            optionalField "text".toList
              (if "((a)+(b))".toList = [] then none else some "((a)+(b))".toList) ++ ext ++
            ['\n']) :=
  ⟨exampleState_WF, rfl, rfl, by decide,
    MacroDefined_fields exampleEnv exampleState exampleState exampleMacro "ADD".toList
      " ".toList "((a)+(b))".toList "\nint x;\n".toList (some "a,b".toList) exampleState_WF rfl
      rfl (by decide) (by decide) (by decide) (by decide) rfl (by decide)
      (fun params h => by cases h; decide) (fun h => by cases h) (by decide) (by decide)⟩

/-- C8, as stated, fails: the macro `#define ADD(a,b) ((a)+(b))` of the shape
the claim describes, defined in `/usr/x.h` (outside the source and output
roots), makes `MacroDefined` emit nothing: the only effect is an empty
`FileInfo` for `/usr/x.h`, and no stream gets a `macro` line. -/
theorem MacroDefined_uninteresting_emits_nothing :
    exampleEnv.getCharacterData exampleSystemMacro.definitionLoc =
        "ADD".toList ++ "(".toList ++ "a,b".toList ++ ")".toList ++ " ".toList ++
          "((a)+(b))".toList ++ "\nint x;\n".toList ∧
      (MacroDefined exampleEnv exampleState exampleSystemMacro).map
          (fun s => s.files.map FileInfo.info) =
        some (exampleState.files.map FileInfo.info ++ [[]]) := by
  decide

/-- C2, as stated, fails: the two overloads of the example have the same
simple name, scope and frontend qualified name and different lists of
parameter type strings (one parameter against two), and `getQualifiedName`
gives both the same string. -/
theorem getQualifiedName_overload_collision :
    exampleOverload1.info.nameAsString = exampleOverload2.info.nameAsString ∧
      exampleOverload1.info.qualifiedNameAsString =
        exampleOverload2.info.qualifiedNameAsString ∧
      exampleOverload1.info.kind.isFunctionDecl = true ∧
      exampleOverload2.info.kind.isFunctionDecl = true ∧
      exampleOverload1.info.paramTypes ≠ exampleOverload2.info.paramTypes ∧
      getQualifiedName exampleOverload1 = getQualifiedName exampleOverload2 := by
  decide

/-- The first overload of the colliding pair is outside both readings of a
parameter list: its one parameter type string has a comma, and the comma is
outside every bracket. -/
theorem exampleOverload1_not_readable :
    ¬ exampleOverload1.info.plainSignature ∧ ¬ exampleOverload1.info.nestedSignature := by
  decide

theorem getQualifiedName_overloads_witness :
    exampleOverloadMap.kind.isFunctionDecl = true ∧
    exampleOverloadPointer.kind.isFunctionDecl = true ∧
    exampleOverloadMap.nameAsString = exampleOverloadPointer.nameAsString ∧
    exampleOverloadMap.qualifiedNameAsString = exampleOverloadPointer.qualifiedNameAsString ∧
    (exampleOverloadMap.nestedSignature ∧ exampleOverloadPointer.nestedSignature) ∧
    exampleOverloadMap.paramTypes ≠ exampleOverloadPointer.paramTypes ∧
    getQualifiedName (.mk exampleOverloadMap .translationUnit .translationUnit none) ≠
      getQualifiedName (.mk exampleOverloadPointer .translationUnit .translationUnit none) :=
  ⟨rfl, rfl, rfl, rfl, by decide, by decide,
    getQualifiedName_overloads exampleOverloadMap exampleOverloadPointer .translationUnit
      .translationUnit .translationUnit none none rfl rfl rfl rfl
      (fun _ => Or.inr (by decide)) (Or.inl (by decide))⟩

/-- C3, as stated, fails: the locals `x` of the two methods `C::f` of the
example have the same simple name and two different functions as their
immediate enclosing contexts, and `getQualifiedName` gives both the string
`C::f()::x`. -/
theorem getQualifiedName_local_collision :
    exampleLocal1.info.nameAsString = exampleLocal2.info.nameAsString ∧
      exampleMethodPlain.info.kind.isFunctionDecl = true ∧
      exampleMethodVolatile.info.kind.isFunctionDecl = true ∧
      exampleMethodPlain.info.addr ≠ exampleMethodVolatile.info.addr ∧
      getQualifiedName exampleLocal1 = "C::f()::x".toList ∧
      getQualifiedName exampleLocal2 = "C::f()::x".toList := by
  decide

theorem getQualifiedName_locals_witness :
    exampleMethodPlain.info.kind.isFunctionDecl = true ∧
    exampleMethod.info.kind.isFunctionDecl = true ∧
    (exampleInfo .Var 51 "x" "x" []).kind.isFunctionDecl = false ∧
    (exampleInfo .Var 8 "x" "x" []).kind.isFunctionDecl = false ∧
    (exampleInfo .Var 51 "x" "x" []).nameAsString = (exampleInfo .Var 8 "x" "x" []).nameAsString ∧
    (getQualifiedName
        (.mk (exampleInfo .Var 51 "x" "x" []) exampleMethodPlain exampleMethodPlain none) ≠
      getQualifiedName (.mk (exampleInfo .Var 8 "x" "x" []) exampleMethod exampleMethod none) ↔
      getQualifiedName exampleMethodPlain ≠ getQualifiedName exampleMethod) :=
  ⟨rfl, rfl, rfl, rfl, rfl,
    (getQualifiedName_locals (exampleInfo .Var 51 "x" "x" []) (exampleInfo .Var 8 "x" "x" [])
      exampleMethodPlain exampleMethod exampleMethodPlain exampleMethod none none rfl rfl rfl rfl
      rfl).2.2⟩

theorem getFileInfo_one_per_canonical_path_witness :
    (∀ path real, exampleEnv.realpath path = some real →
      exampleEnv.realpath real = some real) ∧
    realstr exampleEnv "a.c".toList = realstr exampleEnv "/s/a.c".toList ∧
    (getFileInfo exampleEnv
        (lookups exampleEnv
          (getFileInfo exampleEnv (lookups exampleEnv State.init ["/usr/x.h".toList])
            "a.c".toList).1 ["b.c".toList]) "/s/a.c".toList).2 =
      (getFileInfo exampleEnv (lookups exampleEnv State.init ["/usr/x.h".toList])
        "a.c".toList).2 :=
  ⟨exampleRealpath_idem, by decide,
    (getFileInfo_one_per_canonical_path exampleEnv exampleRealpath_idem ["/usr/x.h".toList]
      ["b.c".toList] "a.c".toList "/s/a.c".toList (by decide)).1⟩

theorem HandleTranslationUnit_idempotent_witness :
    exampleState.WF ∧ (([] : Storage).map Prod.fst).Nodup ∧
    ∃ st1, HandleTranslationUnit exampleEnv exampleState [] = some st1 ∧
      HandleTranslationUnit exampleEnv exampleState st1 = some st1 :=
  ⟨exampleState_WF, List.nodup_nil,
    (HandleTranslationUnit_idempotent exampleEnv exampleState [] exampleState_WF
      List.nodup_nil).imp (fun _ h => ⟨h.1, h.2.2.2.2.1⟩)⟩

theorem FileInfo_classification_witness :
    ¬ "/s".toList <+: "/o/gen.h".toList ∧ "/o/".toList <+: "/o/gen.h".toList ∧
    (FileInfo.FileInfo "/s".toList "/o/".toList "/o/gen.h".toList).interesting = true ∧
    (FileInfo.FileInfo "/s".toList "/o/".toList "/o/gen.h".toList).realname =
      "--GENERATED--/".toList ++ ("/o/gen.h".toList).drop ("/o/".toList).length :=
  ⟨by decide, by decide,
    (FileInfo_classification "/s".toList "/o/".toList "/o/gen.h".toList).2.1 (by decide)
      (by decide)⟩

theorem recordValue_quotes_roundtrip_witness :
    exampleState.WF ∧ exampleState.out = some 0 ∧ '"' ∉ ("a\"b".toList).drop 2147483647 ∧
    ∃ s1, recordValue exampleState "name".toList "a\"b".toList true = some s1 ∧
      bufferOf s1 0 =
        bufferOf exampleState 0 ++
          ([','] ++ "name".toList ++ [',', '"'] ++ doubleQuotes "a\"b".toList ++ ['"']) ∧
      (∀ q, q ≠ 0 → bufferOf s1 q = bufferOf exampleState q) ∧
      collapseQuotes (doubleQuotes "a\"b".toList) = "a\"b".toList :=
  ⟨exampleState_WF, rfl, by decide,
    recordValue_quotes_roundtrip exampleState 0 "name".toList "a\"b".toList exampleState_WF rfl
      (by decide)⟩

/-- C1, as stated, fails: for the value of 2^31 characters `a` followed by
one `"` the index of the `"` does not fit the `int` `quote`, and the final
`value.substr(start)` throws `std::out_of_range` (here `none`): `recordValue`
with `needQuotes` set does not return with the field written. -/
theorem recordValue_late_quote_throws :
    recordValueText "type".toList (List.replicate 2147483648 'a' ++ ['"']) true = none ∧
    recordValue exampleState "type".toList (List.replicate 2147483648 'a' ++ ['"']) true =
      none :=
  ⟨recordValueText_late_quote "type".toList 2147483648 (by omega) (by omega),
    recordValue_late_quote exampleState "type".toList 2147483648 (by omega) (by omega)⟩

/-! ## The digits `operator+=` writes -/

theorem digitChar_spec : ∀ d, d < 10 →
    (Char.ofNat (d + 48)).isDigit = true ∧ (Char.ofNat (d + 48)).toNat - 48 = d ∧
      (Char.ofNat (d + 48) = '0' → d = 0) ∧ Char.ofNat (d + 48) ≠ '\x00' := by
  decide

theorem digitChar_isDigit (i : Nat) : (digitChar i).isDigit = true :=
  (digitChar_spec (i % 10) (Nat.mod_lt i (by omega))).1

theorem digitChar_value (i : Nat) : (digitChar i).toNat - 48 = i % 10 :=
  (digitChar_spec (i % 10) (Nat.mod_lt i (by omega))).2.1

theorem digitChar_eq_zero {i : Nat} (h : digitChar i = '0') : i % 10 = 0 :=
  (digitChar_spec (i % 10) (Nat.mod_lt i (by omega))).2.2.1 h

theorem parseDecimal_append (ds : Str) (c : Char) :
    parseDecimal (ds ++ [c]) = 10 * parseDecimal ds + (c.toNat - 48) := by
  simp [parseDecimal, List.foldl_append]

theorem set_eq_take_append {buf : List Char} {n : Nat} (h : n < buf.length) (c : Char) :
    buf.set n c = buf.take n ++ [c] ++ buf.drop (n + 1) := by
  induction buf generalizing n with
  | nil => simp at h
  | cons a l ih =>
    cases n with
    | zero => simp
    | succ m =>
      simp only [List.length_cons, Nat.add_lt_add_iff_right] at h
      simp [ih h]

/-- The loop of `operator+=`, entered at `ptr` with `k` free bytes below and
`i < 10 ^ k`: it ends, it writes the digits `ds` of `i` just below
`ptr + 1` (most significant first, ending at `ptr`) and nothing else. -/
theorem plusEqLoop_digits : ∀ (fuel k : Nat) (buf : List Char) (ptr : Nat) (i : Nat),
    1 ≤ k → k ≤ fuel → i < 10 ^ k → k ≤ ptr + 1 → ptr < buf.length →
    ∃ ds : Str, plusEqLoop fuel buf (ptr : Int) i =
        some (buf.take (ptr + 1 - ds.length) ++ ds ++ buf.drop (ptr + 1),
          (ptr : Int) - ds.length) ∧
      1 ≤ ds.length ∧ ds.length ≤ k ∧ (∀ c ∈ ds, c.isDigit = true) ∧
      parseDecimal ds = i ∧ (i = 0 → ds = ['0']) ∧ (i ≠ 0 → ds.head? ≠ some '0')
  | 0, k, _, _, _, h1, h2, _, _, _ => by omega
  | fuel + 1, k, buf, ptr, i, h1, h2, hi, hk, hp => by
    have hguard : ¬((ptr : Int) < 0 ∨ (buf.length : Int) ≤ (ptr : Int)) := by omega
    rw [plusEqLoop, if_neg hguard]
    simp only [Int.toNat_ofNat]
    by_cases hd : i / 10 > 0
    · rw [if_pos hd]
      have hk2 : 2 ≤ k := by
        by_contra hcon
        have : k = 1 := by omega
        subst this
        omega
      have hi' : i / 10 < 10 ^ (k - 1) := by
        have : 10 ^ k = 10 * 10 ^ (k - 1) := by
          rw [← pow_succ']
          congr 1
          omega
        rw [this] at hi
        exact Nat.div_lt_of_lt_mul hi
      obtain ⟨ptr', rfl⟩ : ∃ ptr', ptr = ptr' + 1 := ⟨ptr - 1, by omega⟩
      have hcast : ((ptr' + 1 : Nat) : Int) - 1 = (ptr' : Int) := by omega
      obtain ⟨ds, hrun, hl1, hl2, hdig, hval, hzero, hhead⟩ :=
        plusEqLoop_digits fuel (k - 1) (buf.set (ptr' + 1) (digitChar i)) ptr' (i / 10)
          (by omega) (by omega) hi' (by omega) (by simp; omega)
      refine ⟨ds ++ [digitChar i], ?_, ?_, ?_, ?_, ?_, ?_, ?_⟩
      · rw [hcast, hrun]
        congr 1
        refine Prod.ext ?_ ?_
        · simp only
          rw [set_eq_take_append hp]
          have e1 : List.take (ptr' + 1 - ds.length)
              (List.take (ptr' + 1) buf ++ [digitChar i] ++ List.drop (ptr' + 1 + 1) buf) =
              List.take (ptr' + 1 - ds.length) buf := by
            rw [List.append_assoc, List.take_append_of_le_length (by simp; omega),
              List.take_take]
            congr 1
            omega
          have e2 : List.drop (ptr' + 1)
              (List.take (ptr' + 1) buf ++ [digitChar i] ++ List.drop (ptr' + 1 + 1) buf) =
              digitChar i :: List.drop (ptr' + 1 + 1) buf := by
            rw [List.append_assoc, List.drop_append_of_le_length (by simp; omega)]
            have : (List.take (ptr' + 1) buf).length = ptr' + 1 := by simp; omega
            rw [List.drop_eq_nil_of_le (by omega)]
            rfl
          rw [e1, e2]
          have e3 : ptr' + 1 + 1 - (ds ++ [digitChar i]).length = ptr' + 1 - ds.length := by
            simp
          rw [e3]
          simp
        · simp only [List.length_append, List.length_singleton]
          push_cast
          omega
      · simp
      · simp only [List.length_append, List.length_singleton]
        omega
      · intro c hc
        rcases List.mem_append.1 hc with h | h
        · exact hdig c h
        · rw [List.mem_singleton.1 h]
          exact digitChar_isDigit i
      · rw [parseDecimal_append, hval, digitChar_value]
        omega
      · intro h0
        omega
      · intro _
        have hne : ds ≠ [] := by
          intro e
          rw [e] at hl1
          simp at hl1
        cases ds with
        | nil => exact absurd rfl hne
        | cons a l =>
          simp only [List.cons_append, List.head?_cons]
          have := hhead (by omega)
          simpa using this
    · rw [if_neg hd]
      have hlt : i < 10 := by
        by_contra hcon
        exact hd (Nat.div_pos (by omega) (by omega))
      refine ⟨[digitChar i], ?_, ?_, ?_, ?_, ?_, ?_, ?_⟩
      · congr 1
        refine Prod.ext ?_ ?_
        · simp only [List.length_singleton, Nat.add_sub_cancel]
          exact set_eq_take_append hp _
        · simp
      · simp
      · simp only [List.length_singleton]
        exact h1
      · intro c hc
        rw [List.mem_singleton.1 hc]
        exact digitChar_isDigit i
      · simp only [parseDecimal, List.foldl_cons, List.foldl_nil, Nat.mul_zero, Nat.zero_add]
        rw [digitChar_value]
        exact Nat.mod_eq_of_lt hlt
      · intro h0
        subst h0
        rfl
      · intro h0 hh
        simp only [List.head?_cons, Option.some.injEq] at hh
        have := digitChar_eq_zero hh
        omega

theorem cString_digits {front ds : Str} (hdig : ∀ c ∈ ds, c.isDigit = true) :
    cString (front ++ ds ++ ['\x00']) (front.length : Int) = some ds := by
  unfold cString
  rw [if_neg (by omega)]
  simp only [Int.toNat_ofNat, List.append_assoc, List.drop_left]
  rw [if_pos (by simp)]
  congr 1
  have hne : ∀ c ∈ ds, (c != '\x00') = true := by
    intro c hc
    have := hdig c hc
    rw [bne_iff_ne]
    intro e
    rw [e] at this
    exact absurd this (by decide)
  rw [List.takeWhile_append_of_pos hne]
  simp

/-- C16.  For every string `str` and every `i < 2^32`, with the static buffer
in its invariant (15 bytes, NUL at index 14), `str += i` returns: the result
is `str` followed by a numeral `ds` that is not empty, consists of decimal
digits, is `0` for `i = 0` and has no leading zero otherwise, and denotes `i`;
`ds` has at most 10 digits, and the buffer afterwards is the old one with `ds`
written just below index 14, so the writes touch indices 4 to 13 only and the
NUL at index 14 stays. -/
theorem plusEq_decimal (buf : List Char) (str : Str) (i : Nat) (hlen : buf.length = 15)
    (hnul : buf[14]? = some '\x00') (hi : i < 4294967296) :
    ∃ ds buf1, plusEq buf str i = some (str ++ ds, buf1) ∧
      ds ≠ [] ∧ (∀ c ∈ ds, c.isDigit = true) ∧ (i = 0 → ds = ['0']) ∧
      (i ≠ 0 → ds.head? ≠ some '0') ∧ parseDecimal ds = i ∧ ds.length ≤ 10 ∧
      buf1 = buf.take (14 - ds.length) ++ ds ++ ['\x00'] ∧
      buf1.length = 15 ∧ buf1[14]? = some '\x00' := by
  obtain ⟨ds, hrun, hl1, hl2, hdig, hval, hzero, hhead⟩ :=
    plusEqLoop_digits 15 10 buf 13 i (by omega) (by omega) (by omega) (by omega) (by omega)
  have hdrop : buf.drop 14 = ['\x00'] := by
    apply List.ext_getElem?
    intro n
    rw [List.getElem?_drop]
    cases n with
    | zero => simpa using hnul
    | succ m =>
      rw [List.getElem?_eq_none (by omega)]
      simp
  have hbuf : List.take (13 + 1 - ds.length) buf ++ ds ++ List.drop (13 + 1) buf =
      buf.take (14 - ds.length) ++ ds ++ ['\x00'] := by
    rw [hdrop]
  have hfront : (buf.take (14 - ds.length)).length = 14 - ds.length := by
    simp; omega
  have hptr : ((13 : Nat) : Int) - (ds.length : Int) + 1 =
      ((buf.take (14 - ds.length)).length : Int) := by
    rw [hfront]
    omega
  refine ⟨ds, buf.take (14 - ds.length) ++ ds ++ ['\x00'], ?_, ?_, hdig, hzero, hhead, hval,
    hl2, rfl, ?_, ?_⟩
  · unfold plusEq
    rw [Nat.mod_eq_of_lt hi]
    have hrun' : plusEqLoop 15 buf 13 i =
        some (buf.take (14 - ds.length) ++ ds ++ ['\x00'], ((13 : Nat) : Int) - ds.length) := by
      rw [← hbuf]
      exact hrun
    rw [hrun']
    simp only
    rw [hptr, cString_digits hdig]
  · intro e
    rw [e] at hl1
    simp at hl1
  · simp only [List.length_append, hfront, List.length_singleton]
    omega
  · rw [List.getElem?_append_right (by simp; omega)]
    simp only [List.length_append, hfront]
    have : 14 - (14 - ds.length + ds.length) = 0 := by omega
    rw [this]
    rfl

theorem plusEq_decimal_witness :
    (List.replicate 15 '\x00').length = 15 ∧
    (List.replicate 15 '\x00')[14]? = some '\x00' ∧ 42 < 4294967296 ∧
    ∃ ds buf1, plusEq (List.replicate 15 '\x00') "a.c:".toList 42 =
        some ("a.c:".toList ++ ds, buf1) ∧
      ds ≠ [] ∧ (∀ c ∈ ds, c.isDigit = true) ∧ (42 = 0 → ds = ['0']) ∧
      (42 ≠ 0 → ds.head? ≠ some '0') ∧ parseDecimal ds = 42 ∧ ds.length ≤ 10 ∧
      buf1 = (List.replicate 15 '\x00').take (14 - ds.length) ++ ds ++ ['\x00'] ∧
      buf1.length = 15 ∧ buf1[14]? = some '\x00' :=
  ⟨by decide, by decide, by decide,
    plusEq_decimal (List.replicate 15 '\x00') "a.c:".toList 42 (by decide) (by decide)
      (by decide)⟩

/-! ## The source root as a prefix -/

theorem FileInfo_realname_below_srcdir (srcdir output rname : Str)
    (h : srcdir ++ ['/'] <+: rname) :
    (FileInfo.FileInfo srcdir output rname).interesting = true ∧
    srcdir ++ ['/'] ++ (FileInfo.FileInfo srcdir output rname).realname = rname := by
  obtain ⟨rest, hrest⟩ := h
  have hpre : srcdir <+: rname := ⟨['/'] ++ rest, by rw [← hrest, List.append_assoc]⟩
  unfold FileInfo.FileInfo
  rw [if_pos ((compare_eq_zero_iff rname srcdir).2 hpre)]
  refine ⟨rfl, ?_⟩
  subst hrest
  simp [erase]

/-- C11, as stated, fails in the code.  A path in a directory whose name only
begins with the name of the source root: with `srcdir = /s` the path
`/s2/x.c` begins with `srcdir`, the constructor marks it interesting and
erases `/s2`, so `realname` is `/x.c` and `srcdir ++ "/" ++ realname` is
`/s//x.c`, not the path. -/
theorem FileInfo_realname_sibling_root :
    "/s".toList <+: "/s2/x.c".toList ∧
    (FileInfo.FileInfo "/s".toList "/o/".toList "/s2/x.c".toList).interesting = true ∧
    (FileInfo.FileInfo "/s".toList "/o/".toList "/s2/x.c".toList).realname = "/x.c".toList ∧
    "/s".toList ++ "/".toList ++
        (FileInfo.FileInfo "/s".toList "/o/".toList "/s2/x.c".toList).realname =
      "/s//x.c".toList ∧
    "/s".toList ++ "/".toList ++
        (FileInfo.FileInfo "/s".toList "/o/".toList "/s2/x.c".toList).realname ≠
      "/s2/x.c".toList := by
  decide

/-! ## Values written with and without `needQuotes` -/

/-- The flag `needQuotes` at work: for every key and value (with the flag set,
a value whose `"` characters all lie in its first 2^31 - 1 characters),
`recordValue` appends `,key,"v"` to the current stream and nothing to any
other: `v` is the value with every `"` doubled when `needQuotes` is set and
the value as it stands when it is not; the two agree on a value without
`"`. -/
theorem recordValue_needQuotes (s : State) (p : Nat) (key value : Str) (needQuotes : Bool)
    (hwf : s.WF) (hout : s.out = some p)
    (hq : needQuotes = true → '"' ∉ value.drop 2147483647) :
    ∃ s1, recordValue s key value needQuotes = some s1 ∧
      bufferOf s1 p =
        bufferOf s p ++ ([','] ++ key ++ [',', '"'] ++
          (if needQuotes = true then doubleQuotes value else value) ++ ['"']) ∧
      (∀ q, q ≠ p → bufferOf s1 q = bufferOf s q) ∧
      ('"' ∉ value → doubleQuotes value = value) := by
  cases needQuotes with
  | true =>
    obtain ⟨s1, hrun, hw, _⟩ := recordValue_quoted_of hwf hout key value (hq rfl)
    refine ⟨s1, hrun, ?_, ?_, fun h => doubleQuotes_of_not_mem h⟩
    · rw [hw.2.2.2 p]
      simp [field]
    · intro q hq
      rw [hw.2.2.2 q]
      simp [hq]
  | false =>
    obtain ⟨s1, hrun, hw, _⟩ := recordValue_plain hwf hout key value
    refine ⟨s1, hrun, ?_, ?_, fun h => doubleQuotes_of_not_mem h⟩
    · rw [hw.2.2.2 p]
      simp [field]
    · intro q hq
      rw [hw.2.2.2 q]
      simp [hq]

/-- C13, as stated, fails in the code.  `VisitFunctionDecl` writes the fields
name, qualname, type and args without `needQuotes`, and without it the quotes
of a value are not doubled: for the definition of the literal operator
`operator "" _w`, `recordValue("name", v)` appends `,name,"operator "" _w"`,
which is not `,name,"..."` around the value with its quotes doubled, and the
`function` line holds the name and the qualified name with their quotes as
they are. -/
theorem recordValue_unquoted_keeps_quotes :
    (recordValue exampleState "name".toList "operator \"\" _w".toList false).map
        (fun s1 => bufferOf s1 0) =
      some (bufferOf exampleState 0 ++ ",name,\"operator \"\" _w\"".toList) ∧
    ",name,\"operator \"\" _w\"".toList ≠
      [','] ++ "name".toList ++ [',', '"'] ++ doubleQuotes "operator \"\" _w".toList ++ ['"'] ∧
    (VisitFunctionDecl exampleEnv exampleState exampleLiteralOperator).map
        (fun s1 => bufferOf s1 0) =
      some (bufferOf exampleState 0 ++
        ("function,name,\"operator \"\" _w\",qualname,\"operator \"\" _w(long double)\"," ++
          "type,\"long double\",args,\"(long double)\",loc,\"a.c:12:1\",extent,12:13\n").toList) := by
  decide

/-! ## The call type -/

theorem callType_virtual_iff (callee : Decl) (ce : CalleeExpr) :
    callType callee ce = "virtual".toList ↔
      (callee.info.kind.isCXXMethodDecl = true ∧ callee.info.isVirtual = true ∧
        ce ≠ CalleeExpr.MemberExpr true) := by
  unfold callType
  cases h1 : callee.info.kind.isCXXMethodDecl <;> cases h2 : callee.info.isVirtual <;>
    cases h3 : callee.info.kind.isFunctionDecl <;> cases ce <;>
    first
      | decide
      | (rename_i q; cases q <;> decide)

theorem callType_static (callee : Decl) (ce : CalleeExpr)
    (hf : callee.info.kind.isFunctionDecl = true)
    (hv : callType callee ce ≠ "virtual".toList) : callType callee ce = "static".toList := by
  revert hv
  unfold callType
  rw [hf]
  cases h1 : callee.info.kind.isCXXMethodDecl <;> cases h2 : callee.info.isVirtual <;>
    cases ce <;>
    first
      | decide
      | (rename_i q; cases q <;> decide)

theorem VisitCallExpr_line (env : Env) (s s0 s1 : State) (e : CallExpr) (callee : Decl)
    (hwf : s.WF)
    (h0 : interestingLocation env s e.locStart = some (s0, true))
    (hc : e.calleeDecl = some callee)
    (h1 : interestingLocation env s0 callee.info.location = some (s1, true))
    (hn : callee.info.kind.isNamedDecl = true) :
    ∃ s2 middle, VisitCallExpr env s e = some s2 ∧
      bufferOf s2 (getFileInfo env s (env.getPresumedLoc e.locStart).filename).2 =
        bufferOf s (getFileInfo env s (env.getPresumedLoc e.locStart).filename).2 ++
          ("call".toList ++ middle ++ field "calltype".toList (callType callee e.callee) ++
            ['\n']) := by
  obtain ⟨hw0, _, hm0⟩ := interestingLocation_true hwf h0
  obtain ⟨hw1, _, _⟩ := interestingLocation_true (hw0 0).1 h1
  generalize hp : (getFileInfo env s (env.getPresumedLoc e.locStart).filename).2 = p at hm0 ⊢
  have hm1 : mapFind s1.relmap (env.getPresumedLoc e.locStart).filename = some p :=
    (hw1 p).2.2.1 _ _ hm0
  obtain ⟨s2, hb, hw2, ho2⟩ := beginRecord_spec env s1 "call".toList e.locStart (hw1 p).1
  rw [getFileInfo_of_found hm1] at hw2 ho2
  simp only at hw2 ho2
  have hstart : Wrote s s1 p [] := (hw0 p).trans (hw1 p)
  unfold VisitCallExpr
  rw [h0]
  simp only [Option.bind_eq_bind, Option.some_bind, Bool.not_true, hc, h1, hn, Bool.or_self,
    Bool.false_eq_true, if_false]
  rw [hb, Option.some_bind]
  cases hcur : s2.m_currentFunction with
  | none =>
    simp only
    obtain ⟨s3, middle, h3, hw3⟩ := callTail_spec env hw2.1 ho2 callee e.callee
    refine ⟨s3, middle, h3, ?_⟩
    have := (hstart.trans hw2).trans hw3
    rw [this.2.2.2 p]
    simp
  | some fn =>
    simp only
    obtain ⟨s3, h3, hw3, ho3⟩ :=
      recordValue_plain hw2.1 ho2 "callername".toList (getQualifiedName fn)
    obtain ⟨s4, loc, h4, hw4, ho4⟩ := locationToString_spec env s3 fn.info.location hw3.1
    obtain ⟨s5, h5, hw5, ho5⟩ :=
      recordValue_plain (hw4 p).1 (ho4.trans ho3) "callerloc".toList loc
    obtain ⟨s6, middle, h6, hw6⟩ := callTail_spec env hw5.1 ho5 callee e.callee
    rw [h3, Option.some_bind, h4, Option.some_bind, h5, Option.some_bind]
    refine ⟨s6, field "callername".toList (getQualifiedName fn) ++
      field "callerloc".toList loc ++ middle, h6, ?_⟩
    have := (((((hstart.trans hw2).trans hw3).trans (hw4 p)).trans hw5).trans hw6)
    rw [this.2.2.2 p]
    simp

/-- C15 (amended).  A call expression that `VisitCallExpr` records (call site and
callee at interesting locations, callee a named declaration) gets one `call`
line that ends with the field `calltype`; its value is `virtual` exactly when
the callee is a virtual method and the callee expression is not a member
access with a qualifier (a member access without qualifier, or no member
access at all), and every other call whose callee is a function or method
declaration has the value `static`. -/
theorem VisitCallExpr_calltype_virtual (env : Env) (s s0 s1 : State) (e : CallExpr)
    (callee : Decl) (hwf : s.WF)
    (h0 : interestingLocation env s e.locStart = some (s0, true))
    (hc : e.calleeDecl = some callee)
    (h1 : interestingLocation env s0 callee.info.location = some (s1, true))
    (hn : callee.info.kind.isNamedDecl = true) :
    ∃ s2 middle ct, VisitCallExpr env s e = some s2 ∧
      bufferOf s2 (getFileInfo env s (env.getPresumedLoc e.locStart).filename).2 =
        bufferOf s (getFileInfo env s (env.getPresumedLoc e.locStart).filename).2 ++
          ("call".toList ++ middle ++ field "calltype".toList ct ++ ['\n']) ∧
      (ct = "virtual".toList ↔
        (callee.info.kind.isCXXMethodDecl = true ∧ callee.info.isVirtual = true ∧
          e.callee ≠ CalleeExpr.MemberExpr true)) ∧
      (callee.info.kind.isFunctionDecl = true → ct ≠ "virtual".toList →
        ct = "static".toList) := by
  obtain ⟨s2, middle, hrun, hbuf⟩ := VisitCallExpr_line env s s0 s1 e callee hwf h0 hc h1 hn
  exact ⟨s2, middle, callType callee e.callee, hrun, hbuf, callType_virtual_iff callee e.callee,
    callType_static callee e.callee⟩

theorem VisitCallExpr_calltype_virtual_witness :
    exampleState.WF ∧
    interestingLocation exampleEnv exampleState exampleOperatorCall.locStart =
      some (exampleState, true) ∧
    exampleOperatorCall.calleeDecl = some exampleOperator ∧
    interestingLocation exampleEnv exampleState exampleOperator.info.location =
      some (exampleState, true) ∧
    exampleOperator.info.kind.isNamedDecl = true ∧
    ∃ s2 middle ct, VisitCallExpr exampleEnv exampleState exampleOperatorCall = some s2 ∧
      bufferOf s2
          (getFileInfo exampleEnv exampleState
            (exampleEnv.getPresumedLoc exampleOperatorCall.locStart).filename).2 =
        bufferOf exampleState
            (getFileInfo exampleEnv exampleState
              (exampleEnv.getPresumedLoc exampleOperatorCall.locStart).filename).2 ++
          ("call".toList ++ middle ++ field "calltype".toList ct ++ ['\n']) ∧
      (ct = "virtual".toList ↔
        (exampleOperator.info.kind.isCXXMethodDecl = true ∧
          exampleOperator.info.isVirtual = true ∧
          exampleOperatorCall.callee ≠ CalleeExpr.MemberExpr true)) ∧
      (exampleOperator.info.kind.isFunctionDecl = true → ct ≠ "virtual".toList →
        ct = "static".toList) :=
  ⟨exampleState_WF, rfl, rfl, rfl, rfl,
    VisitCallExpr_calltype_virtual exampleEnv exampleState exampleState exampleState
      exampleOperatorCall exampleOperator exampleState_WF rfl rfl rfl rfl⟩

/-- C15, as stated, fails.  The call `a == b` of a virtual `operator==`: the
callee is a virtual method, the callee expression is not a member access, and
the `call` line written has the call type `virtual`. -/
theorem VisitCallExpr_virtual_without_member_access :
    exampleOperator.info.kind.isCXXMethodDecl = true ∧
    exampleOperator.info.isVirtual = true ∧
    exampleOperatorCall.calleeDecl = some exampleOperator ∧
    exampleOperatorCall.callee = CalleeExpr.Other ∧
    (VisitCallExpr exampleEnv exampleState exampleOperatorCall).map (fun s1 => bufferOf s1 0) =
      some (bufferOf exampleState 0 ++
        ("call,calleename,\"Base::operator==(const Base &)\",calleeloc,\"a.c:8:1\"," ++
          "calltype,\"virtual\"\n").toList) := by
  refine ⟨rfl, rfl, rfl, rfl, ?_⟩
  decide

/-! ## `VisitCXXRecordDecl` -/

theorem writeAccessSpecifier_spec {s : State} (hwf : s.WF) {p : Nat} (hout : s.out = some p)
    (access : AccessSpecifier) :
    ∃ s1, writeAccessSpecifier s access = some s1 ∧
      Wrote s s1 p (accessSpecifierText access) ∧ s1.out = some p := by
  cases access with
  | AS_public => exact write_spec hwf hout _
  | AS_protected => exact write_spec hwf hout _
  | AS_private => exact write_spec hwf hout _
  | AS_none => exact ⟨s, rfl, Wrote.refl hwf p, hout⟩

theorem writeVirtual_spec {s : State} (hwf : s.WF) {p : Nat} (hout : s.out = some p)
    (isVirtual : Bool) :
    ∃ s1, (if isVirtual = true then write s " virtual".toList else some s) = some s1 ∧
      Wrote s s1 p (if isVirtual = true then " virtual".toList else []) ∧ s1.out = some p := by
  cases isVirtual with
  | true => exact write_spec hwf hout _
  | false => exact ⟨s, rfl, Wrote.refl hwf p, hout⟩

/-- The loop over the bases: it writes one `impl` line for each base up to
the first one without a class declaration, in order, and stops there. -/
theorem implLoop_spec (env : Env) (d : Decl) (p : Nat) :
    ∀ (bases : List CXXBaseSpecifier) (s : State), s.WF →
      mapFind s.relmap (env.getPresumedLoc d.info.location).filename = some p →
      ∃ s1 lines, implLoop env d s bases = some s1 ∧ Wrote s s1 p lines.flatten ∧
        List.Forall₂ (IsImplLine d)
          (bases.takeWhile (fun b => b.asCXXRecordDecl.isSome)) lines
  | [], s, hwf, _ => ⟨s, [], rfl, Wrote.refl hwf p, List.Forall₂.nil⟩
  | b :: rest, s, hwf, hm => by
    rw [implLoop]
    cases hb : b.asCXXRecordDecl with
    | none =>
      refine ⟨s, [], rfl, Wrote.refl hwf p, ?_⟩
      rw [List.takeWhile_cons, hb]
      exact List.Forall₂.nil
    | some base =>
      simp only [Option.bind_eq_bind]
      obtain ⟨s1, h1, hw1, ho1⟩ := beginRecord_spec env s "impl".toList d.info.location hwf
      rw [getFileInfo_of_found hm] at hw1 ho1
      simp only at hw1 ho1
      obtain ⟨s2, h2, hw2, ho2⟩ :=
        recordValue_plain hw1.1 ho1 "tcname".toList (getQualifiedName d)
      obtain ⟨s3, tcloc, h3, hw3, ho3⟩ := locationToString_spec env s2 d.info.location hw2.1
      obtain ⟨s4, h4, hw4, ho4⟩ :=
        recordValue_plain (hw3 p).1 (ho3.trans ho2) "tcloc".toList tcloc
      obtain ⟨s5, h5, hw5, ho5⟩ :=
        recordValue_plain hw4.1 ho4 "tbname".toList (getQualifiedName base)
      obtain ⟨s6, tbloc, h6, hw6, ho6⟩ :=
        locationToString_spec env s5 base.info.location hw5.1
      obtain ⟨s7, h7, hw7, ho7⟩ :=
        recordValue_plain (hw6 p).1 (ho6.trans ho5) "tbloc".toList tbloc
      obtain ⟨s8, h8, hw8, ho8⟩ := write_spec hw7.1 ho7 ",access,\"".toList
      obtain ⟨s9, h9, hw9, ho9⟩ :=
        writeAccessSpecifier_spec hw8.1 ho8 b.accessSpecifierAsWritten
      obtain ⟨s10, h10, hw10, ho10⟩ := writeVirtual_spec hw9.1 ho9 b.isVirtual
      obtain ⟨s11, h11, hw11, ho11⟩ := write_spec hw10.1 ho10 ['"']
      obtain ⟨s12, h12, hw12, _⟩ := write_spec hw11.1 ho11 ['\n']
      have hall := ((((((((((hw1.trans hw2).trans (hw3 p)).trans hw4).trans hw5).trans
        (hw6 p)).trans hw7).trans hw8).trans hw9).trans hw10).trans hw11).trans hw12
      obtain ⟨s13, lines, hrun, hw13, hlines⟩ :=
        implLoop_spec env d p rest s12 hw12.1 (hall.2.2.1 _ _ hm)
      rw [h1, Option.some_bind, h2, Option.some_bind, h3, Option.some_bind, h4,
        Option.some_bind, h5, Option.some_bind, h6, Option.some_bind, h7, Option.some_bind,
        h8, Option.some_bind, h9, Option.some_bind, h10, Option.some_bind, h11,
        Option.some_bind, h12, Option.some_bind]
      refine ⟨s13, implLine d base tcloc tbloc b :: lines, hrun, ?_, ?_⟩
      · have := hall.trans hw13
        rw [List.flatten_cons]
        simpa only [implLine, accessText, List.append_assoc, List.append_nil,
          List.nil_append] using this
      · rw [List.takeWhile_cons, hb]
        exact List.Forall₂.cons ⟨base, tcloc, tbloc, hb, rfl⟩ hlines

/-- C14 (amended).  For a complete class definition at an interesting location,
`VisitCXXRecordDecl` returns and appends to the file of the class, and to no
other, one `impl` line for each base up to the first base whose type does
not resolve to a class declaration, in base order; it writes nothing for
that base nor for the bases after it. -/
theorem VisitCXXRecordDecl_impl_lines (env : Env) (s s0 : State) (d : CXXRecordDecl)
    (hwf : s.WF)
    (h0 : interestingLocation env s d.decl.info.location = some (s0, true))
    (hcomplete : d.isCompleteDefinition = true) :
    ∃ s1 lines, VisitCXXRecordDecl env s d = some s1 ∧
      bufferOf s1 (getFileInfo env s (env.getPresumedLoc d.decl.info.location).filename).2 =
        bufferOf s (getFileInfo env s (env.getPresumedLoc d.decl.info.location).filename).2 ++
          lines.flatten ∧
      (∀ q, q ≠ (getFileInfo env s (env.getPresumedLoc d.decl.info.location).filename).2 →
        bufferOf s1 q = bufferOf s q) ∧
      List.Forall₂ (IsImplLine d.decl)
        (d.bases.takeWhile (fun b => b.asCXXRecordDecl.isSome)) lines := by
  obtain ⟨hw0, _, hm0⟩ := interestingLocation_true hwf h0
  generalize (getFileInfo env s (env.getPresumedLoc d.decl.info.location).filename).2 = p
    at hm0 ⊢
  obtain ⟨s1, lines, hrun, hw1, hlines⟩ := implLoop_spec env d.decl p d.bases s0 (hw0 p).1 hm0
  refine ⟨s1, lines, ?_, ?_, ?_, hlines⟩
  · unfold VisitCXXRecordDecl
    rw [h0]
    simp only [Option.bind_eq_bind, Option.some_bind, hcomplete, Bool.not_true, Bool.or_self,
      Bool.false_eq_true, if_false]
    exact hrun
  · rw [((hw0 p).trans hw1).2.2.2 p]
    simp
  · intro q hq
    rw [((hw0 p).trans hw1).2.2.2 q]
    simp [hq]

theorem VisitCXXRecordDecl_impl_lines_witness :
    exampleState.WF ∧
    interestingLocation exampleEnv exampleState exampleDerived.decl.info.location =
      some (exampleState, true) ∧
    exampleDerived.isCompleteDefinition = true ∧
    ∃ s1 lines, VisitCXXRecordDecl exampleEnv exampleState exampleDerived = some s1 ∧
      bufferOf s1 (getFileInfo exampleEnv exampleState
          (exampleEnv.getPresumedLoc exampleDerived.decl.info.location).filename).2 =
        bufferOf exampleState (getFileInfo exampleEnv exampleState
          (exampleEnv.getPresumedLoc exampleDerived.decl.info.location).filename).2 ++
          lines.flatten ∧
      (∀ q, q ≠ (getFileInfo exampleEnv exampleState
          (exampleEnv.getPresumedLoc exampleDerived.decl.info.location).filename).2 →
        bufferOf s1 q = bufferOf exampleState q) ∧
      List.Forall₂ (IsImplLine exampleDerived.decl)
        (exampleDerived.bases.takeWhile (fun b => b.asCXXRecordDecl.isSome)) lines :=
  ⟨exampleState_WF, rfl, rfl,
    VisitCXXRecordDecl_impl_lines exampleEnv exampleState exampleState exampleDerived
      exampleState_WF rfl rfl⟩

/-- C14, as stated, fails.  The complete class `template<class T> struct E : T,
public Base` at an interesting location: the type of the second base resolves
to the class `Base`, the type of the first does not, and `VisitCXXRecordDecl`
returns at the first base with nothing written, so `Base` gets no `impl`
line. -/
theorem VisitCXXRecordDecl_stops_at_unresolved_base :
    interestingLocation exampleEnv exampleState exampleDependent.decl.info.location =
      some (exampleState, true) ∧
    exampleDependent.isCompleteDefinition = true ∧
    exampleDependent.bases.map (fun b => b.asCXXRecordDecl.isSome) = [false, true] ∧
    (VisitCXXRecordDecl exampleEnv exampleState exampleDependent).map
        (fun s1 => bufferOf s1 0) = some (bufferOf exampleState 0) := by
  refine ⟨rfl, rfl, rfl, ?_⟩
  decide

/-! ## `m_currentFunction` during the walk -/

theorem getFileInfo_currentFunction (env : Env) (s : State) (key : Str) :
    (getFileInfo env s key).1.m_currentFunction = s.m_currentFunction := by
  unfold getFileInfo
  split
  · rfl
  · split <;> rfl

theorem interestingLocation_currentFunction {env : Env} {s s1 : State} {loc : SourceLocation}
    {b : Bool} (h : interestingLocation env s loc = some (s1, b)) :
    s1.m_currentFunction = s.m_currentFunction := by
  unfold interestingLocation at h
  split at h
  · injection h with h
    injection h with h _
    rw [← h]
  · simp only at h
    split at h
    · injection h with h
      injection h with h _
      rw [← h]
    · split at h
      · cases h
      · injection h with h
        injection h with h _
        rw [← h]
        exact getFileInfo_currentFunction env s _

theorem locationToString_currentFunction {env : Env} {s s1 : State} {loc : SourceLocation}
    {str : Str} (h : locationToString env s loc = some (s1, str)) :
    s1.m_currentFunction = s.m_currentFunction := by
  unfold locationToString at h
  simp only at h
  split at h
  · cases h
  · split at h
    · cases h
    · split at h
      · cases h
      · injection h with h
        injection h with h _
        rw [← h]
        exact getFileInfo_currentFunction env s _

theorem write_currentFunction {s s1 : State} {text : Str} (h : write s text = some s1) :
    s1.m_currentFunction = s.m_currentFunction := by
  unfold write at h
  split at h
  · cases h
  · split at h
    · cases h
    · injection h with h
      rw [← h]

theorem beginRecord_currentFunction {env : Env} {s s1 : State} {name : Str}
    {loc : SourceLocation} (h : beginRecord env s name loc = some s1) :
    s1.m_currentFunction = s.m_currentFunction := by
  unfold beginRecord at h
  rw [write_currentFunction h]
  exact getFileInfo_currentFunction env s _

theorem recordValue_currentFunction {s s1 : State} {key value : Str} {needQuotes : Bool}
    (h : recordValue s key value needQuotes = some s1) :
    s1.m_currentFunction = s.m_currentFunction := by
  unfold recordValue at h
  split at h
  · cases h
  · exact write_currentFunction h

/-- The method `VisitCallExpr` reads `m_currentFunction` and does not assign
it. -/
theorem VisitCallExpr_currentFunction {env : Env} {s s1 : State} {e : CallExpr}
    (h : VisitCallExpr env s e = some s1) : s1.m_currentFunction = s.m_currentFunction := by
  unfold VisitCallExpr at h
  simp only [Option.bind_eq_bind] at h
  obtain ⟨⟨s0, b0⟩, h0, h⟩ := Option.bind_eq_some.1 h
  have k0 := interestingLocation_currentFunction h0
  simp only at h
  split at h
  · injection h with h
    rw [← h, k0]
  · split at h
    · injection h with h
      rw [← h, k0]
    · rename_i callee _
      obtain ⟨⟨sa, ba⟩, ha, h⟩ := Option.bind_eq_some.1 h
      have ka := interestingLocation_currentFunction ha
      simp only at h
      split at h
      · injection h with h
        rw [← h, ka, k0]
      · obtain ⟨s2, h2, h⟩ := Option.bind_eq_some.1 h
        have k2 := beginRecord_currentFunction h2
        obtain ⟨s5, h5, h⟩ := Option.bind_eq_some.1 h
        have k5 : s5.m_currentFunction = s2.m_currentFunction := by
          split at h5
          · obtain ⟨s3, h3, h5⟩ := Option.bind_eq_some.1 h5
            obtain ⟨⟨s4, l4⟩, h4, h5⟩ := Option.bind_eq_some.1 h5
            rw [recordValue_currentFunction h5, locationToString_currentFunction h4,
              recordValue_currentFunction h3]
          · injection h5 with h5
            rw [← h5]
        obtain ⟨s6, h6, h⟩ := Option.bind_eq_some.1 h
        obtain ⟨⟨s7, l7⟩, h7, h⟩ := Option.bind_eq_some.1 h
        obtain ⟨s8, h8, h⟩ := Option.bind_eq_some.1 h
        obtain ⟨s9, h9, h⟩ := Option.bind_eq_some.1 h
        rw [write_currentFunction h, recordValue_currentFunction h9,
          recordValue_currentFunction h8, locationToString_currentFunction h7,
          recordValue_currentFunction h6, k5, k2, ka, k0]

theorem exampleVisit_currentFunction (s : State) (n : Node) :
    (exampleVisit s n).m_currentFunction = s.m_currentFunction := by
  unfold exampleVisit
  split
  · split
    · rename_i h
      exact VisitCallExpr_currentFunction h
    · rfl
  · rfl

theorem innermostFunction_concat (entry : Option Decl) (path : List Decl) (d : Decl) :
    innermostFunction entry (path ++ [d]) =
      if d.info.kind.isFunctionDecl then some d else innermostFunction entry path := by
  unfold innermostFunction
  rw [List.filter_append]
  by_cases h : d.info.kind.isFunctionDecl = true
  · simp [h]
  · simp [h]

mutual
theorem traverse_spec (visit : State → Node → State)
    (hvisit : ∀ s n, (visit s n).m_currentFunction = s.m_currentFunction)
    (entry : Option Decl) :
    ∀ (n : Node) (path : List Decl) (s : State),
      s.m_currentFunction = innermostFunction entry path →
      (traverse visit s n).2 =
          (nodesWithPath path n).map (fun x => (x.1, innermostFunction entry x.2)) ∧
        (traverse visit s n).1.m_currentFunction = s.m_currentFunction
  | .decl none _, path, s, _ => by
    simp [traverse, nodesWithPath]
  | .decl (some d) children, path, s, hs => by
    have h1 : (visit (if d.info.kind.isFunctionDecl = true then
          { s with m_currentFunction := some d } else s)
        (.decl (some d) children)).m_currentFunction =
        innermostFunction entry (path ++ [d]) := by
      rw [hvisit, innermostFunction_concat]
      by_cases h : d.info.kind.isFunctionDecl = true
      · simp [h]
      · simp [h, hs]
    have ih := traverseChildren_spec visit hvisit entry children (path ++ [d]) _ h1
    simp only [traverse, nodesWithPath, List.map_cons]
    refine ⟨?_, trivial⟩
    rw [ih.1, innermostFunction_concat]
    by_cases h : d.info.kind.isFunctionDecl = true
    · simp [h]
    · simp [h, hs]
  | .stmt call children, path, s, hs => by
    have h1 : (visit s (.stmt call children)).m_currentFunction =
        innermostFunction entry path := by
      rw [hvisit, hs]
    have ih := traverseChildren_spec visit hvisit entry children path _ h1
    simp only [traverse, nodesWithPath, List.map_cons]
    refine ⟨?_, ?_⟩
    · rw [ih.1, hs]
    · rw [ih.2, hvisit]
theorem traverseChildren_spec (visit : State → Node → State)
    (hvisit : ∀ s n, (visit s n).m_currentFunction = s.m_currentFunction)
    (entry : Option Decl) :
    ∀ (ns : List Node) (path : List Decl) (s : State),
      s.m_currentFunction = innermostFunction entry path →
      (traverseChildren visit s ns).2 =
          (nodesWithPathList path ns).map (fun x => (x.1, innermostFunction entry x.2)) ∧
        (traverseChildren visit s ns).1.m_currentFunction = s.m_currentFunction
  | [], path, s, _ => by
    simp [traverseChildren, nodesWithPathList]
  | n :: rest, path, s, hs => by
    have ih1 := traverse_spec visit hvisit entry n path s hs
    have ih2 := traverseChildren_spec visit hvisit entry rest path (traverse visit s n).1
      (ih1.2.trans hs)
    simp only [traverseChildren, nodesWithPathList, List.map_append]
    refine ⟨?_, ?_⟩
    · rw [ih1.1, ih2.1]
    · rw [ih2.2, ih1.2]
end

/-- C12.  For every declaration `d` with the subtree `children`, every state
at entry and every visitor that leaves `m_currentFunction` as it is (the
`Visit*` methods read it and do not assign it): `TraverseDecl(d)` visits the
nodes of the subtree in the order of the walk, at the visit of each node
`m_currentFunction` is the innermost function declaration on the way from `d`
down to that node, both included, or the value at entry when there is none,
and on return `m_currentFunction` has its value at entry. -/
theorem TraverseDecl_currentFunction (visit : State → Node → State)
    (hvisit : ∀ s n, (visit s n).m_currentFunction = s.m_currentFunction)
    (s : State) (d : Option Decl) (children : List Node) :
    (TraverseDecl visit s d children).2 =
        (nodesWithPath [] (.decl d children)).map
          (fun x => (x.1, innermostFunction s.m_currentFunction x.2)) ∧
      (TraverseDecl visit s d children).1.m_currentFunction = s.m_currentFunction :=
  traverse_spec visit hvisit s.m_currentFunction (.decl d children) [] s rfl

theorem TraverseDecl_currentFunction_witness :
    (∀ s n, (exampleVisit s n).m_currentFunction = s.m_currentFunction) ∧
    (TraverseDecl exampleVisit exampleState (some exampleFoo) exampleBody).2 =
        (nodesWithPath [] (.decl (some exampleFoo) exampleBody)).map
          (fun x => (x.1, innermostFunction exampleState.m_currentFunction x.2)) ∧
      (TraverseDecl exampleVisit exampleState (some exampleFoo)
        exampleBody).1.m_currentFunction = exampleState.m_currentFunction :=
  ⟨exampleVisit_currentFunction,
    TraverseDecl_currentFunction exampleVisit exampleVisit_currentFunction exampleState
      (some exampleFoo) exampleBody⟩

set_option maxRecDepth 8000 in
/-- The walk of `void foo() { class A { A() { g(); } }; h(); }` from a state
without current function: the seven visits see `foo`, `foo`, `foo`, `foo`
(the class `A`), `A::A`, `A::A` (the call of `g`) and `foo` (the call of
`h`), and the two `call` lines name `A::A` and `foo` as the callers. -/
theorem TraverseDecl_example :
    (TraverseDecl exampleVisit exampleState (some exampleFoo) exampleBody).2.map
        (fun x => x.2.map getQualifiedName) =
      [some "foo()".toList, some "foo()".toList, some "foo()".toList, some "foo()".toList,
        some "foo::A::A()".toList, some "foo::A::A()".toList, some "foo()".toList] ∧
    bufferOf (TraverseDecl exampleVisit exampleState (some exampleFoo) exampleBody).1 0 =
      bufferOf exampleState 0 ++
        ("call,callername,\"foo::A::A()\",callerloc,\"a.c:22:1\",calleename,\"g()\"," ++
          "calleeloc,\"a.c:1:1\",calltype,\"static\"\n" ++
          "call,callername,\"foo()\",callerloc,\"a.c:20:1\",calleename,\"h()\"," ++
          "calleeloc,\"a.c:2:1\",calltype,\"static\"\n").toList := by
  decide

end Dxr
